import Mathlib

/-!
# RF433any: a shallow embedding of the decoder core

Machine integers are natural numbers reduced explicitly at the width of the C++
type that stores them (`byte`: 256, `uint16_t`: 65536, `unsigned long`: 2^32).
The integer model is the one of the boards the library targets (8-bit AVR:
`int` is 16 bits wide, so `uint16_t` arithmetic is done modulo 65536).
`x >> k` and `x << k` on unsigned values are `>>>` and `<<<` on naturals,
followed by the reduction of the destination type.

A failed `assert` halts the program (`while (1);`): functions that contain one
return `none` (or `Fault.assertion`) there.
-/

namespace RF433any

/-! ## Constants of RF433any.h -/

def RF433ANY_MAX_DURATION : Nat := 65535
def RF433ANY_MAX_SEP_DURATION : Nat := 65535
def RF433ANY_MAX_SECTIONS : Nat := 8
def BAND_MIN_D : Nat := 64
def BAND_MAX_D : Nat := 30000
def RAIL_MOOD_STRICT : Nat := 0
def RAIL_MOOD_LAXIST : Nat := 1
def TRACK_MIN_INITSEQ_DURATION : Nat := 4000
def TRACK_MIN_BITS : Nat := 7
/-- The value of (sizeof(rec) << 3) with recorded_t = uint16_t (the build without
RF433ANY_DBG_SIMULATE). -/
def BITS_PER_RECORD : Nat := 16

/-! ## BitVector -/

/-- The class BitVector: array holds the allocated bytes (its length is the
allocated size), allocated and nb_bits are bytes. -/
structure BitVector where
  array : List Nat
  allocated : Nat
  nb_bits : Nat
deriving DecidableEq, Repr

/-- The constructor BitVector::BitVector(). -/
def BitVector.empty : BitVector := { array := [], allocated := 0, nb_bits := 0 }

/-- The effect of realloc(array, allocated) followed by the loop that zeroes the
bytes from old_allocated up to allocated. -/
def BitVector.grow (arr : List Nat) (old_allocated allocated : Nat) : List Nat :=
  arr.take allocated ++ List.replicate (allocated - old_allocated) 0

/-- The loop `for (short i = allocated - 1; i >= 0; --i)` of add_bit: the first
argument is i + 1, the bytes are visited from the highest index down to 0. -/
def BitVector.shift_loop (v : Nat) : Nat → List Nat → List Nat
  | 0, arr => arr
  | i + 1, arr =>
    let b : Nat :=
      if i > 0 then (if (arr.getD (i - 1) 0) &&& 0x80 ≠ 0 then 1 else 0)
      else (if v ≠ 0 then 1 else 0)
    BitVector.shift_loop v i (arr.set i ((((arr.getD i 0) <<< 1) ||| b) % 256))

/-- BitVector::add_bit. The malloc(1) done when nothing is allocated yet gives
one byte of indeterminate content which the growth step right after it
overwrites with 0; it leaves no trace in the model. -/
def BitVector.add_bit (bv : BitVector) (v : Nat) : BitVector :=
  let bv1 : BitVector :=
    if bv.nb_bits ≥ (bv.allocated <<< 3) then
      let a := (bv.allocated + 1) % 256
      { bv with allocated := a, array := BitVector.grow bv.array bv.allocated a }
    else bv
  { bv1 with
    nb_bits := (bv1.nb_bits + 1) % 256
    array := BitVector.shift_loop v bv1.allocated bv1.array }

/-- BitVector::get_nb_bits. -/
def BitVector.get_nb_bits (bv : BitVector) : Nat := bv.nb_bits

/-- BitVector::get_nb_bytes: the result is a byte. -/
def BitVector.get_nb_bytes (bv : BitVector) : Nat := ((bv.nb_bits + 7) >>> 3) % 256

/-- BitVector::get_nth_bit: none when the assertion n < nb_bits fails. -/
def BitVector.get_nth_bit (bv : BitVector) (n : Nat) : Option Nat :=
  if n < bv.nb_bits then
    let index := (n >>> 3) % 256
    let bitread := (1 <<< (n &&& 0x07)) % 256
    some (if (bv.array.getD index 0) &&& bitread ≠ 0 then 1 else 0)
  else none

/-- BitVector::get_nth_byte: none when the assertion n < get_nb_bytes() fails. -/
def BitVector.get_nth_byte (bv : BitVector) (n : Nat) : Option Nat :=
  if n < bv.get_nb_bytes then some (bv.array.getD n 0) else none

/-- The loop of BitVector::cmp, `for (int i = get_nb_bits() - 1; i >= 0; --i)`:
the argument is i + 1. -/
def BitVector.cmp_loop (a p : BitVector) : Nat → Option Int
  | 0 => some 0
  | i + 1 =>
    match a.get_nth_bit i, p.get_nth_bit i with
    | some v1, some v2 =>
      if v1 > v2 then some 1
      else if v1 < v2 then some (-1)
      else BitVector.cmp_loop a p i
    | _, _ => none

/-- BitVector::cmp (p is not null). -/
def BitVector.cmp (a p : BitVector) : Option Int :=
  let c0 : Int := if a.get_nb_bits > p.get_nb_bits then 1 else 0
  let c1 : Int := if c0 = 0 then -(if a.get_nb_bits < p.get_nb_bits then 1 else 0) else c0
  if c1 ≠ 0 then some c1 else BitVector.cmp_loop a p a.get_nb_bits

/-- A BitVector built from the empty one by add_bit(b0), add_bit(b1), ... in
list order. -/
def BitVector.build (bs : List Nat) : BitVector :=
  bs.foldl BitVector.add_bit BitVector.empty

/-! ## Band -/

/-- The struct Band. -/
structure Band where
  inf : Nat
  mid : Nat
  sup : Nat
  got_it : Bool
deriving DecidableEq, Repr

/-- Band::breset. -/
def Band.breset (b : Band) : Band := { b with inf := 0, sup := 0, mid := 0 }

/-- Band::init: the band after the call; the value returned is its got_it. -/
def Band.init (b : Band) (d : Nat) : Band :=
  if d ≥ BAND_MIN_D ∧ d ≤ BAND_MAX_D then
    let d_divided_by_4 := d >>> 2
    { mid := d
      inf := (d + 65536 - d_divided_by_4) % 65536
      sup := (d + d_divided_by_4) % 65536
      got_it := true }
  else { b with got_it := false }

/-- Band::init_sep: the band after the call; the value returned is its got_it. -/
def Band.init_sep (_b : Band) (d : Nat) : Band :=
  let inf0 := d >>> 1
  { sup := RF433ANY_MAX_SEP_DURATION
    inf := (inf0 + (inf0 >>> 2)) % 65536
    mid := d
    got_it := true }

/-- Band::test_value_init_if_needed: the band after the call; the value returned
is its got_it. -/
def Band.test_value_init_if_needed (b : Band) (d : Nat) : Band :=
  if b.mid = 0 then b.init d
  else { b with got_it := decide (d ≥ b.inf ∧ d ≤ b.sup) }

/-- Band::test_value: the band after the call; the value returned is its
got_it. -/
def Band.test_value (b : Band) (d : Nat) : Band :=
  if b.mid = 0 then { b with got_it := false }
  else { b with got_it := decide (d ≥ b.inf ∧ d ≤ b.sup) }

/-! ## Rail -/

/-- The values RAIL_OPEN .. RAIL_ERROR of the byte Rail::status. -/
inductive RailStatus where
  | RAIL_OPEN
  | RAIL_FULL
  | RAIL_STP_RCVD
  | RAIL_CLOSED
  | RAIL_ERROR
deriving DecidableEq, Repr

/-- The class Rail; recorded is the member `rec`. -/
structure Rail where
  b_short : Band
  b_long : Band
  b_sep : Band
  last_bit_recorded : Nat
  recorded : Nat
  status : RailStatus
  index : Nat
  mood : Nat
deriving DecidableEq, Repr

/-- Rail::rreset_soft. -/
def Rail.rreset_soft (r : Rail) : Rail :=
  { r with status := RailStatus.RAIL_OPEN, index := 0, recorded := 0 }

/-- Rail::rreset. -/
def Rail.rreset (r : Rail) : Rail :=
  let r1 := r.rreset_soft
  { r1 with b_short := r1.b_short.breset, b_long := r1.b_long.breset, b_sep := r1.b_sep.breset }

/-- The constructor Rail::Rail(arg_mood): g is the memory the object is built
in; last_bit_recorded and the got_it flags keep whatever it holds. -/
def Rail.construct (g : Rail) (arg_mood : Nat) : Rail :=
  Rail.rreset { g with mood := arg_mood }

/-- Rail::get_band_count. -/
def Rail.get_band_count (r : Rail) : Nat :=
  if r.b_short.mid = r.b_long.mid then (if r.b_short.mid ≠ 0 then 1 else 0) else 2

/-- The adjustment of the boundaries once both bands are known (lines 312-317
of rail_eat). -/
def Rail.rail_adjust (r1 : Rail) : Rail :=
  let r2 : Rail :=
    { r1 with b_short := { r1.b_short with
        inf := ((r1.b_short.mid >>> 1) + 65536 - (r1.b_short.mid >>> 3)) % 65536 } }
  let r3 : Rail :=
    if r2.mood = RAIL_MOOD_LAXIST then
      let s := ((r2.b_short.mid + r2.b_long.mid) % 65536) >>> 1
      { r2 with b_short := { r2.b_short with sup := s }
                b_long := { r2.b_long with inf := (s + 1) % 65536 } }
    else r2
  { r3 with b_long := { r3.b_long with
      sup := (r3.b_long.mid + (r3.b_long.mid >>> 1) + (r3.b_long.mid >>> 3)) % 65536 } }

/-- The block `if (band_count == 1 && !count_got_it) { ... }` of rail_eat: the
rail, count_got_it and band_count after it; none when assert(false) is reached.
small and big are unsigned long (32 bits). -/
def Rail.rail_learn (r : Rail) (d count_got_it band_count : Nat) : Option (Rail × Nat × Nat) :=
  if band_count = 1 ∧ count_got_it = 0 then
    let sel : Option (Bool × Nat × Nat) :=
      if d < r.b_short.inf then some (true, d, r.b_short.mid)
      else if d > r.b_short.sup then some (false, r.b_short.mid, d)
      else none
    match sel with
    | none => none
    | some (pband_is_short, small, big) =>
      if (small <<< 2) % 4294967296 ≥ big then
        let r1 : Rail :=
          if pband_is_short then { r with b_short := r.b_short.init d }
          else { r with b_long := r.b_long.init d }
        let pband_got_it : Bool := if pband_is_short then r1.b_short.got_it else r1.b_long.got_it
        if pband_got_it then
          let r4 : Rail := r1.rail_adjust
          let r5 : Rail :=
            if pband_is_short then
              { r4 with recorded := ((1 <<< r4.index) + 65536 - 1) % 65536 }
            else r4
          some (r5, 1, 2)
        else some (r1, count_got_it, band_count)
      else some (r, count_got_it, band_count)
  else some (r, count_got_it, band_count)

/-- The separator branch of rail_eat (lines 343-359). -/
def Rail.rail_sep (r : Rail) (d : Nat) : Rail :=
  let r1 : Rail :=
    if r.b_sep.mid = 0 then
      if d ≥ (r.b_short.mid <<< 1) % 65536 ∧ d ≥ (r.b_long.mid <<< 1) % 65536 then
        { r with b_sep := r.b_sep.init_sep d }
      else r
    else r
  let sep := r1.b_sep.test_value d
  { r1 with
    b_sep := sep
    status := if sep.got_it then RailStatus.RAIL_STP_RCVD else RailStatus.RAIL_ERROR }

/-- The bit branch of rail_eat (lines 367-378); none when assert(false) is
reached. -/
def Rail.rail_bit (r : Rail) (band_count : Nat) : Option Rail :=
  let r1 : Option Rail :=
    if band_count = 2 then
      if r.b_short.got_it = r.b_long.got_it then none
      else
        let bit : Nat := if r.b_short.got_it then 0 else 1
        some { r with last_bit_recorded := bit
                      recorded := ((r.recorded <<< 1) ||| bit) % 65536 }
    else some { r with last_bit_recorded := 0 }
  match r1 with
  | none => none
  | some r2 =>
    let idx := (r2.index + 1) % 256
    some { r2 with index := idx
                   status := if idx = BITS_PER_RECORD then RailStatus.RAIL_FULL else r2.status }

/-- Rail::rail_eat: the rail after the call and the value returned; none when an
assertion fails. -/
def Rail.rail_eat (r : Rail) (d : Nat) : Option (Rail × Bool) :=
  if r.status ≠ RailStatus.RAIL_OPEN then some (r, false)
  else
    let bs := r.b_short.test_value_init_if_needed d
    let bl := r.b_long.test_value_init_if_needed d
    let count_got_it : Nat := (if bs.got_it then 1 else 0) + (if bl.got_it then 1 else 0)
    let r1 : Rail := { r with b_short := bs, b_long := bl }
    match Rail.rail_learn r1 d count_got_it r1.get_band_count with
    | none => none
    | some (r2, cnt, bc) =>
      if bc = 0 then some ({ r2 with status := RailStatus.RAIL_ERROR }, false)
      else if cnt = 0 ∨ (bc = 2 ∧ cnt = 2) then
        let r3 := Rail.rail_sep r2 d
        some (r3, decide (r3.status = RailStatus.RAIL_OPEN))
      else
        match Rail.rail_bit r2 bc with
        | none => none
        | some r3 => some (r3, decide (r3.status = RailStatus.RAIL_OPEN))

/-! ## Section, RawCode -/

/-- The enum section_term_status_t. -/
inductive section_term_status_t where
  | STS_CONTINUED
  | STS_X_SEP
  | STS_SHORT_SEP
  | STS_LONG_SEP
  | STS_SEP_SEP
  | STS_ERROR
deriving DecidableEq, Repr

/-- The struct Timings. -/
structure Timings where
  low_short : Nat
  low_long : Nat
  high_short : Nat
  high_long : Nat
  sep : Nat
deriving DecidableEq, Repr

/-- The struct Section; low_bits and high_bits are 6-bit fields, low_bands and
high_bands 2-bit fields. -/
structure Section where
  low_rec : Nat
  low_bits : Nat
  low_bands : Nat
  high_rec : Nat
  high_bits : Nat
  high_bands : Nat
  first_low : Nat
  first_high : Nat
  last_low : Nat
  ts : Timings
  sts : section_term_status_t
deriving DecidableEq, Repr

/-- The struct RawCode: sections i is sections[i], meaningful for
i < RF433ANY_MAX_SECTIONS only. -/
structure RawCode where
  initseq : Nat
  max_code_d : Nat
  nb_sections : Nat
  sections : Nat → Section

/-! ## Track -/

/-- The enum trk_t. -/
inductive trk_t where
  | TRK_WAIT
  | TRK_RECV
  | TRK_DATA
deriving DecidableEq, Repr

/-- The non-static members of the class Track. -/
structure Track where
  trk : trk_t
  count : Nat
  r_low : Rail
  r_high : Rail
  prev_r : Nat
  first_low : Nat
  first_high : Nat
  last_low : Nat
  rawcode : RawCode

/-- What stops track_eat short of returning: a failed assertion (the program
halts), an access to rawcode.sections outside the array, or the recursion depth
given to the model being used up. -/
inductive Fault where
  | assertion
  | bounds
  | fuel
deriving DecidableEq, Repr

/-- Track::treset. -/
def Track.treset (t : Track) : Track :=
  { t with trk := trk_t.TRK_WAIT, rawcode := { t.rawcode with nb_sections := 0 } }

/-- The constructor Track::Track(arg_pin_number, mood): g is the memory the
object is built in; the members the constructor does not write keep whatever it
holds. -/
def Track.construct (g : Track) (mood : Nat) : Track :=
  Track.treset { g with r_low := Rail.construct g.r_low mood
                        r_high := Rail.construct g.r_high mood }

/-- Track::reset_border_mgmt. -/
def Track.reset_border_mgmt (t : Track) : Track :=
  { t with count := 0, first_low := 0, first_high := 0, last_low := 0 }

/-- The computation of sts from the two rail statuses (lines 1306-1320). -/
def Track.section_sts (r_low r_high : Rail) : section_term_status_t :=
  if r_low.status = RailStatus.RAIL_FULL ∧ r_high.status = RailStatus.RAIL_FULL then
    section_term_status_t.STS_CONTINUED
  else if r_high.status = RailStatus.RAIL_STP_RCVD then
    if r_low.status = RailStatus.RAIL_CLOSED ∨ r_low.status = RailStatus.RAIL_FULL
        ∨ r_low.status = RailStatus.RAIL_ERROR then
      (if r_low.last_bit_recorded ≠ 0 then section_term_status_t.STS_LONG_SEP
       else section_term_status_t.STS_SHORT_SEP)
    else if r_low.status = RailStatus.RAIL_STP_RCVD then
      section_term_status_t.STS_SEP_SEP
    else section_term_status_t.STS_ERROR
  else section_term_status_t.STS_ERROR

/-- The condition of lines 1422-1425 with its short-circuit evaluation: the low
rail after the calls of test_value that were made (they write got_it) and the
value of the condition. -/
def Track.same_timings (r_low r_high : Rail) : Rail × Bool :=
  let s1 := r_low.b_short.test_value r_high.b_short.mid
  let l1 : Rail := { r_low with b_short := s1 }
  if s1.got_it then
    let s2 := l1.b_short.test_value r_high.b_long.mid
    let l2 : Rail := { l1 with b_short := s2 }
    if !s2.got_it then
      let g3 := l2.b_long.test_value r_high.b_short.mid
      let l3 : Rail := { l2 with b_long := g3 }
      if !g3.got_it then
        let g4 := l3.b_long.test_value r_high.b_long.mid
        ({ l3 with b_long := g4 }, g4.got_it)
      else (l3, false)
    else (l2, false)
  else (l1, false)

/-- The section written at lines 1417-1448; r_low is the low rail after
same_timings, shared the value of its condition. -/
def Track.make_section (t : Track) (r_low : Rail) (shared : Bool)
    (sts : section_term_status_t) (d : Nat) : Section :=
  let sep : Nat :=
    if sts = section_term_status_t.STS_SHORT_SEP ∨ sts = section_term_status_t.STS_LONG_SEP
        ∨ sts = section_term_status_t.STS_SEP_SEP then d else 0
  let ts : Timings :=
    if shared then
      { low_short := ((r_low.b_short.mid + t.r_high.b_short.mid) % 65536) >>> 1
        low_long := ((r_low.b_long.mid + t.r_high.b_long.mid) % 65536) >>> 1
        high_short := 0
        high_long := 0
        sep := sep }
    else
      { low_short := r_low.b_short.mid
        low_long := r_low.b_long.mid
        high_short := t.r_high.b_short.mid
        high_long := t.r_high.b_long.mid
        sep := sep }
  { sts := sts
    ts := ts
    low_rec := r_low.recorded
    low_bits := r_low.index % 64
    low_bands := r_low.get_band_count % 4
    high_rec := t.r_high.recorded
    high_bits := t.r_high.index % 64
    high_bands := t.r_high.get_band_count % 4
    first_low := t.first_low
    first_high := t.first_high
    last_low := t.last_low }

/-- The body of `if (r == 1 && (!b || r_low.status != RAIL_OPEN)) { ... }` of
track_eat (lines 1301-1480); recurse is the re-entrant call of track_eat. -/
def Track.close_section (recurse : Track → Nat → Nat → Except Fault Track)
    (t0 : Track) (r d : Nat) : Except Fault Track :=
  let lo : Rail :=
    if t0.r_low.status = RailStatus.RAIL_OPEN then
      { t0.r_low with status := RailStatus.RAIL_CLOSED } else t0.r_low
  let hi : Rail :=
    if t0.r_high.status = RailStatus.RAIL_OPEN then
      { t0.r_high with status := RailStatus.RAIL_CLOSED } else t0.r_high
  let t : Track := { t0 with r_low := lo, r_high := hi }
  let sts := Track.section_sts t.r_low t.r_high
  let nb := t.rawcode.nb_sections
  let tiny : Bool := decide (t.r_low.index < TRACK_MIN_BITS ∨ t.r_high.index < TRACK_MIN_BITS)
  -- sections[nb_sections - 1] is read when tiny, sts != STS_ERROR and nb_sections != 0
  if tiny ∧ sts ≠ section_term_status_t.STS_ERROR ∧ nb ≠ 0
      ∧ ¬ (nb - 1 < RF433ANY_MAX_SECTIONS) then Except.error Fault.bounds
  else
    let record_current_section : Bool :=
      if tiny then
        decide (sts ≠ section_term_status_t.STS_ERROR ∧ nb ≠ 0
          ∧ (t.rawcode.sections (nb - 1)).sts = section_term_status_t.STS_CONTINUED)
      else decide (sts ≠ section_term_status_t.STS_ERROR)
    if record_current_section then
      if ¬ (nb < RF433ANY_MAX_SECTIONS) then Except.error Fault.bounds
      else
        let st := Track.same_timings t.r_low t.r_high
        let sec := Track.make_section t st.1 st.2 sts d
        let nb1 := (nb + 1) % 256
        let trk1 : trk_t :=
          if nb1 = RF433ANY_MAX_SECTIONS then trk_t.TRK_DATA else trk_t.TRK_RECV
        let t1 : Track :=
          { t with
            r_low := st.1
            trk := trk1
            rawcode := { t.rawcode with
              nb_sections := nb1
              sections := fun i => if i = nb then sec else t.rawcode.sections i } }
        if trk1 = trk_t.TRK_RECV then
          let t2 : Track :=
            { t1 with r_low := t1.r_low.rreset_soft, r_high := t1.r_high.rreset_soft }
          if sts ≠ section_term_status_t.STS_CONTINUED then Except.ok t2.reset_border_mgmt
          else Except.ok t2
        else Except.ok t1
    else
      if nb ≠ 0 then Except.ok { t with trk := trk_t.TRK_DATA }
      else recurse t.treset r d

/-- The part of track_eat that feeds the edge to its rail (lines 1280-1288):
the rail after the edge, enforce_b_to_false and b (b only matters when it was
assigned, that is when enforce_b_to_false is false); none when rail_eat fails
an assertion. enforce0 is enforce_b_to_false as set by the test r == prev_r. -/
def Track.eat_edge (t : Track) (prail : Rail) (enforce0 : Bool) (d : Nat) :
    Option (Rail × Bool × Bool) :=
  if (d < BAND_MIN_D ∨ d ≥ t.rawcode.max_code_d) ∧ t.count < TRACK_MIN_BITS then
    some (prail, true, false)
  else if Int.natAbs ((t.r_low.index : Int) - (t.r_high.index : Int)) ≥ 2 then
    some (prail, true, false)
  else if !enforce0 then
    match prail.rail_eat d with
    | none => none
    | some (p, b) => some (p, false, b)
  else some (prail, true, false)

/-- The body of track_eat once trk is known to be TRK_RECV (lines 1220-1483);
recurse is the re-entrant call of track_eat. -/
def Track.track_eat_recv (recurse : Track → Nat → Nat → Except Fault Track)
    (t : Track) (r d : Nat) : Except Fault Track :=
  let enforce0 : Bool := decide (r = t.prev_r)
  let t1 : Track := { t with prev_r := r, count := (t.count + 1) % 256 }
  if t1.count = 1 then
    if (d < BAND_MIN_D ∨ d ≥ t1.rawcode.max_code_d) ∧ t1.count < TRACK_MIN_BITS
        ∧ t1.rawcode.nb_sections = 0 then
      recurse t1.treset r d
    else Except.ok { t1 with first_low := d }
  else if t1.count = 2 then
    if (d < BAND_MIN_D ∨ d ≥ t1.rawcode.max_code_d) ∧ t1.count < TRACK_MIN_BITS
        ∧ t1.rawcode.nb_sections = 0 then
      recurse t1.treset r d
    else Except.ok { t1 with first_high := d }
  else
    let prail : Rail := if r = 0 then t1.r_low else t1.r_high
    if prail.status ≠ RailStatus.RAIL_OPEN then Except.ok t1
    else
      let t2 : Track := if r = 0 then { t1 with last_low := d } else t1
      match Track.eat_edge t2 prail enforce0 d with
      | none => Except.error Fault.assertion
      | some (p, enforce_b_to_false, b0) =>
        let t3 : Track := if r = 0 then { t2 with r_low := p } else { t2 with r_high := p }
        let r1 : Nat := if enforce_b_to_false then 1 else r
        let b : Bool := if enforce_b_to_false then false else b0
        if r1 = 1 ∧ (!b ∨ t3.r_low.status ≠ RailStatus.RAIL_OPEN) then
          Track.close_section recurse t3 r1 d
        else Except.ok t3

/-- Track::track_eat(r, d). The first argument bounds the depth of the
re-entrant calls: with n + 1 the body runs and its re-entrant calls get n. -/
def Track.track_eat : Nat → Track → Nat → Nat → Except Fault Track
  | 0, _, _, _ => Except.error Fault.fuel
  | fuel + 1, t, r, d =>
    if t.trk = trk_t.TRK_WAIT then
      if r = 1 ∧ d ≥ TRACK_MIN_INITSEQ_DURATION then
        let t1 : Track :=
          { t with
            r_low := t.r_low.rreset
            r_high := t.r_high.rreset
            prev_r := r
            rawcode := { t.rawcode with
              initseq := d
              max_code_d := (d + 65536 - (d >>> 2)) % 65536 } }
        Except.ok { t1.reset_border_mgmt with trk := trk_t.TRK_RECV }
      else Except.ok t
    else if t.trk ≠ trk_t.TRK_RECV then Except.ok t
    else Track.track_eat_recv (Track.track_eat fuel) t r d

/-! ## Memory images used to build concrete objects -/

/-- A Band whose memory is all zero. -/
def Band.zeroed : Band := { inf := 0, mid := 0, sup := 0, got_it := false }

/-- A Rail whose memory is all zero (status 0 is RAIL_OPEN). -/
def Rail.zeroed : Rail :=
  { b_short := Band.zeroed, b_long := Band.zeroed, b_sep := Band.zeroed
    last_bit_recorded := 0, recorded := 0, status := RailStatus.RAIL_OPEN, index := 0, mood := 0 }

/-- A Section whose memory is all zero (sts 0 is STS_CONTINUED). -/
def Section.zeroed : Section :=
  { low_rec := 0, low_bits := 0, low_bands := 0, high_rec := 0, high_bits := 0, high_bands := 0
    first_low := 0, first_high := 0, last_low := 0
    ts := { low_short := 0, low_long := 0, high_short := 0, high_long := 0, sep := 0 }
    sts := section_term_status_t.STS_CONTINUED }

/-- A Track whose memory is all zero (trk 0 is TRK_WAIT): the state of an object
with static storage duration before its constructor runs. -/
def Track.zeroed : Track :=
  { trk := trk_t.TRK_WAIT, count := 0, r_low := Rail.zeroed, r_high := Rail.zeroed, prev_r := 0
    first_low := 0, first_high := 0, last_low := 0
    rawcode := { initseq := 0, max_code_d := 0, nb_sections := 0
                 sections := fun _ => Section.zeroed } }

/-! ## Auxiliary definitions used to state the properties of BitVector -/

/-- The value get_nth_bit reads in the array at bit n, its assertion apart. -/
def BitVector.raw_bit (bv : BitVector) (n : Nat) : Nat :=
  if (bv.array.getD ((n >>> 3) % 256) 0) &&& ((1 <<< (n &&& 0x07)) % 256) ≠ 0 then 1 else 0

/-- Bit m of a byte array: bit (m mod 8) of byte (m div 8), false outside the
array. -/
def BitVector.bit_of (arr : List Nat) (m : Nat) : Bool :=
  (arr.getD (m / 8) 0).testBit (m % 8)

/-- The comparison of two bit sequences f and g on the indices below k, from
index k - 1 down to 0: the order BitVector::cmp applies to vectors of the same
length. -/
def BitVector.lex_cmp (f g : Nat → Nat) : Nat → Int
  | 0 => 0
  | i + 1 =>
    if f i > g i then 1
    else if f i < g i then -1
    else BitVector.lex_cmp f g i

/-- The BitVector holds the bits l (l[0] is the bit added last): the
representation invariant of the vectors built by add_bit while the byte nb_bits
has not wrapped. -/
def BitVector.Holds (bv : BitVector) (l : List Bool) : Prop :=
  bv.nb_bits = l.length ∧ l.length ≤ 255
    ∧ bv.allocated = (l.length + 7) / 8 ∧ bv.array.length = bv.allocated
    ∧ (∀ m, BitVector.bit_of bv.array m = l.getD m false)
    ∧ (∀ k, bv.array.getD k 0 < 256)

/-! ## Invariants of Band and Rail -/

/-- An uninitialized Band: inf = mid = sup = 0. -/
def Band.Zero (b : Band) : Prop := b.inf = 0 ∧ b.mid = 0 ∧ b.sup = 0

/-- The window of an initialized Band: 0 < inf ≤ mid ≤ sup ≤ 65535. -/
def Band.Ordered (b : Band) : Prop :=
  0 < b.inf ∧ b.inf ≤ b.mid ∧ b.mid ≤ b.sup ∧ b.sup ≤ 65535

/-- The invariant of a Band: uninitialized, or 0 < inf ≤ mid ≤ sup ≤ 65535. -/
def Band.Ok (b : Band) : Prop := b.Zero ∨ b.Ordered

/-- A short or long Band that was learned by Band::init (possibly adjusted
afterwards by rail_eat): its mid is a duration init accepts. -/
def Band.Learned (b : Band) : Prop := b.Ordered ∧ 64 ≤ b.mid ∧ b.mid ≤ 30000

/-- The bands b_short and b_long of a Rail are both uninitialized or both
learned. -/
def Rail.Paired (r : Rail) : Prop :=
  (r.b_short.Zero ∧ r.b_long.Zero) ∨ (r.b_short.Learned ∧ r.b_long.Learned)

/-- The invariant of a Rail: b_short and b_long are both uninitialized or both
learned, b_sep satisfies the Band invariant, index is at most BITS_PER_RECORD,
and status is RAIL_FULL exactly when index is BITS_PER_RECORD. -/
def Rail.Inv (r : Rail) : Prop :=
  r.Paired
    ∧ r.b_sep.Ok
    ∧ r.index ≤ BITS_PER_RECORD
    ∧ (r.status = RailStatus.RAIL_FULL ↔ r.index = BITS_PER_RECORD)

/-- The Rail states reachable from construction through rail_eat (with a 16-bit
duration), rreset_soft and rreset, and through the promotion of an open rail to
RAIL_CLOSED that Track::track_eat does when it closes a section. -/
inductive Rail.Reachable : Rail → Prop where
  | construct (g : Rail) (arg_mood : Nat) : Rail.Reachable (Rail.construct g arg_mood)
  | eat (r : Rail) (d : Nat) (r1 : Rail) (b : Bool) :
      Rail.Reachable r → d < 65536 → r.rail_eat d = some (r1, b) → Rail.Reachable r1
  | soft (r : Rail) : Rail.Reachable r → Rail.Reachable r.rreset_soft
  | hard (r : Rail) : Rail.Reachable r → Rail.Reachable r.rreset
  | close (r : Rail) : Rail.Reachable r → r.status = RailStatus.RAIL_OPEN →
      Rail.Reachable { r with status := RailStatus.RAIL_CLOSED }

/-! ## Invariants of Track -/

/-- The property of a recorded Section that relates sts and ts.sep: a section
closed by a separator has ts.sep > 0, a continued one has ts.sep = 0. -/
def Section.SepOk (s : Section) : Prop :=
  ((s.sts = section_term_status_t.STS_SHORT_SEP ∨ s.sts = section_term_status_t.STS_LONG_SEP
      ∨ s.sts = section_term_status_t.STS_SEP_SEP) → 0 < s.ts.sep)
    ∧ (s.sts = section_term_status_t.STS_CONTINUED → s.ts.sep = 0)

/-- The invariant of a Track: both rails satisfy the Rail invariant,
nb_sections is at most RF433ANY_MAX_SECTIONS, it is 0 in TRK_WAIT and below
RF433ANY_MAX_SECTIONS in TRK_RECV, where the high rail is open, and every
recorded section satisfies Section.SepOk. -/
def Track.Inv (t : Track) : Prop :=
  t.r_low.Inv ∧ t.r_high.Inv
    ∧ t.rawcode.nb_sections ≤ RF433ANY_MAX_SECTIONS
    ∧ (t.trk = trk_t.TRK_WAIT → t.rawcode.nb_sections = 0)
    ∧ (t.trk = trk_t.TRK_RECV →
        t.rawcode.nb_sections < RF433ANY_MAX_SECTIONS
          ∧ t.r_high.status = RailStatus.RAIL_OPEN)
    ∧ (∀ i, i < t.rawcode.nb_sections → (t.rawcode.sections i).SepOk)

/-- The Track states reachable from construction by feeding edges (a level 0
or 1 and a 16-bit duration) to track_eat. -/
inductive Track.Reachable : Track → Prop where
  | construct (g : Track) (mood : Nat) : Track.Reachable (Track.construct g mood)
  | eat (t : Track) (r d fuel : Nat) (t1 : Track) :
      Track.Reachable t → r ≤ 1 → d < 65536 → Track.track_eat fuel t r d = Except.ok t1 →
      Track.Reachable t1

/-- The edges of a list fed one after the other to track_eat (each call with
recursion depth fuel); the first fault stops the run. -/
def Track.feed (fuel : Nat) : Track → List (Nat × Nat) → Except Fault Track
  | t, [] => Except.ok t
  | t, (r, d) :: es =>
    match Track.track_eat fuel t r d with
    | Except.ok t1 => Track.feed fuel t1 es
    | Except.error e => Except.error e

/-- The levels that go with a list of durations: they alternate, starting with
the given level. -/
def alternate_levels (start : Nat) : List Nat → List (Nat × Nat)
  | [] => []
  | d :: ds => (start, d) :: alternate_levels (1 - start) ds

/-- The durations of scenario S1 of the specification for the 12 bits 0xA5C:
init 9000, then (620, 1240) for a bit 0 and (1240, 620) for a bit 1, then the
separator (620, 11000). -/
def scenario_S1 : List Nat :=
  [9000,
   1240, 620, 620, 1240, 1240, 620, 620, 1240,
   620, 1240, 1240, 620, 620, 1240, 1240, 620,
   1240, 620, 1240, 620, 620, 1240, 620, 1240,
   620, 11000]

/-- The number of sections and the sts and ts.sep of the first section after a
run of feed on a track built in zeroed memory; none when the run faults. -/
def Track.first_section_after (es : List (Nat × Nat)) :
    Option (Nat × section_term_status_t × Nat) :=
  match Track.feed 2 (Track.construct Track.zeroed RAIL_MOOD_LAXIST) es with
  | Except.ok t => some (t.rawcode.nb_sections, (t.rawcode.sections 0).sts,
      (t.rawcode.sections 0).ts.sep)
  | Except.error _ => none

/-! ## Decoder -/

def RF433ANY_CONV0 : Nat := 0
def RF433ANY_CONV1 : Nat := 1
def RF433ANY_FD_ALL : Nat := 0
def RF433ANY_FD_DECODED : Nat := 1
def RF433ANY_FD_NO_ERROR : Nat := 2
def RF433ANY_FD_DEDUP : Nat := 4
def RF433ANY_FD_TRI : Nat := 8
def RF433ANY_FD_TRN : Nat := 16
def RF433ANY_FD_MAN : Nat := 32
def RF433ANY_ID_RAW_INCONSISTENT : Nat := 0
def RF433ANY_ID_START : Nat := 1
def RF433ANY_ID_RAW_SYNC : Nat := 1
def RF433ANY_ID_TRIBIT : Nat := 2
def RF433ANY_ID_TRIBIT_INV : Nat := 3
def RF433ANY_ID_MANCHESTER : Nat := 4
def RF433ANY_ID_RAW_UNKNOWN_CODING : Nat := 5
def RF433ANY_ID_END : Nat := 5

/-- The enum class Signal. -/
inductive Signal where
  | SHORT
  | LONG
  | OTHER
deriving DecidableEq, Repr

/-- The struct TimingsExt: the five members inherited from Timings, then its
own. -/
structure TimingsExt where
  low_short : Nat
  low_long : Nat
  high_short : Nat
  high_long : Nat
  sep : Nat
  initseq : Nat
  first_low : Nat
  first_high : Nat
  first_low_ignored : Nat
  last_low : Nat
deriving DecidableEq, Repr

/-- An object of one of the six classes derived from Decoder: get_id is the
value its get_id() returns and tells the class; the members of the base class
come first, then those of DecoderRawSync, DecoderRawUnknownCoding,
DecoderTriBitInv and DecoderManchester (buf0, buf1, buf2 are buf[0..2]), which
mean something for an object of that class only. The member next is the
position in a list of decoders. pdata is never null between the construction of
a decoder and the end of get_data (take_away_data is not called there). -/
structure Decoder where
  get_id : Nat
  repeats : Nat
  pdata : BitVector
  convention : Nat
  nb_errors : Nat
  tsext : TimingsExt
  nb_low_high : Nat
  sync_shape : Signal
  sync_shape_set : Bool
  unused_final_low : Signal
  terminates_with_sep : Bool
  first_call_to_add_sgn_lo_hi : Bool
  unused_initial_low : Signal
  last_hi : Signal
  buf0 : Nat
  buf1 : Nat
  buf2 : Nat
  buf_pos : Nat
  leading_lo_hi_has_been_passed : Bool
deriving DecidableEq, Repr

/-- The constructor Decoder::Decoder(arg_convention) run in the memory g, for an
object whose get_id() is id: repeats and the five Timings members of tsext are
not written. -/
def Decoder.construct (g : Decoder) (id arg_convention : Nat) : Decoder :=
  { g with
    get_id := id
    pdata := BitVector.empty
    convention := arg_convention
    nb_errors := 0
    tsext := { g.tsext with
      initseq := 0, first_low := 0, first_high := 0, first_low_ignored := 0, last_low := 0 } }

/-- The constructor DecoderRawInconsistent(). -/
def Decoder.new_raw_inconsistent (g : Decoder) : Decoder :=
  Decoder.construct g RF433ANY_ID_RAW_INCONSISTENT RF433ANY_CONV0

/-- The constructor DecoderRawSync(arg_nb_low_high): sync_shape is not written. -/
def Decoder.new_raw_sync (g : Decoder) (arg_nb_low_high : Nat) : Decoder :=
  { Decoder.construct g RF433ANY_ID_RAW_SYNC RF433ANY_CONV0 with
    nb_low_high := arg_nb_low_high, sync_shape_set := false }

/-- The constructor DecoderRawUnknownCoding(). -/
def Decoder.new_raw_unknown_coding (g : Decoder) : Decoder :=
  { Decoder.construct g RF433ANY_ID_RAW_UNKNOWN_CODING RF433ANY_CONV0 with
    unused_final_low := Signal.OTHER, terminates_with_sep := false }

/-- The constructor DecoderTriBit(arg_convention). -/
def Decoder.new_tribit (g : Decoder) (arg_convention : Nat) : Decoder :=
  Decoder.construct g RF433ANY_ID_TRIBIT arg_convention

/-- The constructor DecoderTriBitInv(arg_convention): last_hi is not written. -/
def Decoder.new_tribit_inv (g : Decoder) (arg_convention : Nat) : Decoder :=
  { Decoder.construct g RF433ANY_ID_TRIBIT_INV arg_convention with
    first_call_to_add_sgn_lo_hi := true, unused_initial_low := Signal.OTHER }

/-- The constructor DecoderManchester(arg_convention). -/
def Decoder.new_manchester (g : Decoder) (arg_convention : Nat) : Decoder :=
  { Decoder.construct g RF433ANY_ID_MANCHESTER arg_convention with
    buf_pos := 0, leading_lo_hi_has_been_passed := false, buf0 := 0, buf1 := 0, buf2 := 0 }

/-- Decoder::build_decoder(id, convention), the new object being built in the
memory g; the default case of the switch is assert(false). -/
def Decoder.build_decoder (g : Decoder) (id convention : Nat) : Except Fault Decoder :=
  if id = RF433ANY_ID_RAW_SYNC then Except.ok (Decoder.new_raw_sync g 0)
  else if id = RF433ANY_ID_TRIBIT then Except.ok (Decoder.new_tribit g convention)
  else if id = RF433ANY_ID_TRIBIT_INV then Except.ok (Decoder.new_tribit_inv g convention)
  else if id = RF433ANY_ID_MANCHESTER then Except.ok (Decoder.new_manchester g convention)
  else if id = RF433ANY_ID_RAW_UNKNOWN_CODING then Except.ok (Decoder.new_raw_unknown_coding g)
  else Except.error Fault.assertion

/-- Decoder::add_data_bit. -/
def Decoder.add_data_bit (dec : Decoder) (valbit : Nat) : Decoder :=
  { dec with pdata := dec.pdata.add_bit valbit }

/-- Decoder::get_nb_errors. -/
def Decoder.get_nb_errors (dec : Decoder) : Nat := dec.nb_errors

/-- The statement ++nb_errors on the byte nb_errors. -/
def Decoder.inc_nb_errors (dec : Decoder) : Decoder :=
  { dec with nb_errors := (dec.nb_errors + 1) % 256 }

/-- The value of !convention. -/
def Decoder.not_convention (dec : Decoder) : Nat := if dec.convention ≠ 0 then 0 else 1

/-- DecoderRawSync::add_signal_step. -/
def Decoder.raw_sync_step (dec0 : Decoder) (lo hi : Signal) : Decoder :=
  let dec : Decoder :=
    if !dec0.sync_shape_set then { dec0 with sync_shape := lo, sync_shape_set := true } else dec0
  if lo ≠ dec.sync_shape then dec.inc_nb_errors
  else if hi = Signal.OTHER then dec
  else if lo ≠ hi then dec.inc_nb_errors
  else { dec with nb_low_high := (dec.nb_low_high + 1) % 256 }

/-- DecoderRawUnknownCoding::add_signal_step. -/
def Decoder.raw_unknown_step (dec : Decoder) (lo hi : Signal) : Decoder :=
  if hi = Signal.OTHER then
    { dec with unused_final_low := lo, terminates_with_sep := true }
  else
    let d1 := dec.add_data_bit (if lo = Signal.SHORT then 0 else 1)
    d1.add_data_bit (if hi = Signal.SHORT then 0 else 1)

/-- DecoderTriBit::add_signal_step. -/
def Decoder.tribit_step (dec : Decoder) (lo hi : Signal) : Decoder :=
  if hi = Signal.OTHER then dec
  else if lo = Signal.SHORT ∧ hi = Signal.LONG then dec.add_data_bit dec.convention
  else if lo = Signal.LONG ∧ hi = Signal.SHORT then dec.add_data_bit dec.not_convention
  else dec.inc_nb_errors

/-- DecoderTriBitInv::add_signal_step. -/
def Decoder.tribit_inv_step (dec : Decoder) (lo hi : Signal) : Decoder :=
  if dec.first_call_to_add_sgn_lo_hi then
    { dec with first_call_to_add_sgn_lo_hi := false, unused_initial_low := lo, last_hi := hi }
  else
    let d1 : Decoder :=
      if lo = Signal.SHORT ∧ dec.last_hi = Signal.LONG then dec.add_data_bit dec.not_convention
      else if lo = Signal.LONG ∧ dec.last_hi = Signal.SHORT then dec.add_data_bit dec.convention
      else dec.inc_nb_errors
    { d1 with last_hi := hi }

/-- DecoderManchester::add_buf: assert(buf_pos < 3), then buf[buf_pos++] = r. -/
def Decoder.add_buf (dec : Decoder) (r : Nat) : Except Fault Decoder :=
  if ¬ dec.buf_pos < 3 then Except.error Fault.assertion
  else
    let d1 : Decoder :=
      if dec.buf_pos = 0 then { dec with buf0 := r }
      else if dec.buf_pos = 1 then { dec with buf1 := r }
      else { dec with buf2 := r }
    Except.ok { d1 with buf_pos := (dec.buf_pos + 1) % 256 }

/-- DecoderManchester::consume_buf. -/
def Decoder.consume_buf (dec : Decoder) : Decoder :=
  if dec.buf_pos ≥ 2 then
    let d1 : Decoder :=
      if dec.leading_lo_hi_has_been_passed then
        if dec.buf0 = 0 ∧ dec.buf1 = 1 then dec.add_data_bit dec.convention
        else if dec.buf0 = 1 ∧ dec.buf1 = 0 then dec.add_data_bit dec.not_convention
        else dec.inc_nb_errors
      else
        let d2 : Decoder :=
          if dec.buf0 ≠ 0 ∨ dec.buf1 ≠ 1 then dec.inc_nb_errors else dec
        { d2 with leading_lo_hi_has_been_passed := true }
    { d1 with buf0 := d1.buf2, buf_pos := (d1.buf_pos + 256 - 2) % 256 }
  else dec

/-- One turn of the loop of DecoderManchester::add_signal_step, for i = 0 (sgn
is lo) or i = 1 (sgn is hi). -/
def Decoder.manchester_half (dec : Decoder) (i : Nat) (sgn : Signal) : Except Fault Decoder :=
  match dec.add_buf i with
  | Except.error e => Except.error e
  | Except.ok d1 =>
    if sgn = Signal.LONG then
      match d1.add_buf i with
      | Except.error e => Except.error e
      | Except.ok d2 => Except.ok d2.consume_buf
    else Except.ok d1.consume_buf

/-- DecoderManchester::add_signal_step. -/
def Decoder.manchester_step (dec : Decoder) (lo hi : Signal) : Except Fault Decoder :=
  if lo = Signal.OTHER then Except.ok dec.inc_nb_errors
  else
    match dec.manchester_half 0 lo with
    | Except.error e => Except.error e
    | Except.ok d1 => d1.manchester_half 1 hi

/-- The virtual call add_signal_step(low, high), dispatched on the class of the
object (DecoderRawInconsistent::add_signal_step does nothing). -/
def Decoder.add_signal_step (dec : Decoder) (low high : Signal) : Except Fault Decoder :=
  if dec.get_id = RF433ANY_ID_RAW_SYNC then Except.ok (dec.raw_sync_step low high)
  else if dec.get_id = RF433ANY_ID_TRIBIT then Except.ok (dec.tribit_step low high)
  else if dec.get_id = RF433ANY_ID_TRIBIT_INV then Except.ok (dec.tribit_inv_step low high)
  else if dec.get_id = RF433ANY_ID_MANCHESTER then dec.manchester_step low high
  else if dec.get_id = RF433ANY_ID_RAW_UNKNOWN_CODING then
    Except.ok (dec.raw_unknown_step low high)
  else Except.ok dec

/-- The virtual call add_sync(n): DecoderRawSync adds n to the byte nb_low_high,
the other classes do nothing. -/
def Decoder.add_sync (dec : Decoder) (n : Nat) : Decoder :=
  if dec.get_id = RF433ANY_ID_RAW_SYNC then
    { dec with nb_low_high := (dec.nb_low_high + n) % 256 }
  else dec

/-- The virtual call get_nb_bits(): nb_low_high for a DecoderRawSync, the bit
count of pdata otherwise. -/
def Decoder.get_nb_bits (dec : Decoder) : Nat :=
  if dec.get_id = RF433ANY_ID_RAW_SYNC then dec.nb_low_high else dec.pdata.get_nb_bits

/-- The virtual call data_got_decoded(): overridden by DecoderTriBit,
DecoderTriBitInv and DecoderManchester as pdata && pdata->get_nb_bits(), false
in the base class. -/
def Decoder.data_got_decoded (dec : Decoder) : Bool :=
  if dec.get_id = RF433ANY_ID_TRIBIT ∨ dec.get_id = RF433ANY_ID_TRIBIT_INV
      ∨ dec.get_id = RF433ANY_ID_MANCHESTER then
    decide (dec.pdata.get_nb_bits ≠ 0)
  else false

/-- Decoder::reset_repeats. -/
def Decoder.reset_repeats (dec : Decoder) : Decoder := { dec with repeats := 0 }

/-- Decoder::inc_repeats: ++repeats on the byte repeats. -/
def Decoder.inc_repeats (dec : Decoder) : Decoder :=
  { dec with repeats := (dec.repeats + 1) % 256 }

/-- Decoder::get_repeats. -/
def Decoder.get_repeats (dec : Decoder) : Nat := dec.repeats

/-- Decoder::set_ts. -/
def Decoder.set_ts (dec : Decoder) (arg_initseq : Nat) (ts : Timings) : Decoder :=
  { dec with tsext := { dec.tsext with
      initseq := arg_initseq, low_short := ts.low_short, low_long := ts.low_long
      high_short := ts.high_short, high_long := ts.high_long, sep := ts.sep } }

/-- The classification of the duration d in one turn of the loop of
take_into_account_first_low_high. b_short0 and b_long0 are the contents of the
local variables b_short and b_long before init is called on them: the locals
are declared without an initializer and Band::init leaves inf, mid and sup as
they are when it rejects its argument. -/
def Decoder.classify_first (b_short0 b_long0 : Band) (d short_d long_d : Nat) : Signal :=
  let b_short := b_short0.init short_d
  let b_long := b_long0.init long_d
  let is_short : Bool := (b_short.test_value d).got_it
  let is_long : Bool := (b_long.test_value d).got_it
  if is_short ∧ ¬ is_long then Signal.SHORT
  else if ¬ is_short ∧ is_long then Signal.LONG
  else if is_short ∧ is_long ∧ short_d = long_d then Signal.SHORT
  else Signal.OTHER

/-- Decoder::take_into_account_first_low_high. uninit 0 and uninit 1 are the
contents of the uninitialized locals b_short and b_long in the turn i = 0 of the
loop, uninit 2 and uninit 3 in the turn i = 1. -/
def Decoder.take_into_account_first_low_high (dec : Decoder) (psec : Section)
    (is_cont_of_prev_sec : Bool) (uninit : Nat → Band) : Except Fault Decoder :=
  if is_cont_of_prev_sec then Except.ok dec
  else
    let d1 : Decoder :=
      { dec with tsext := { dec.tsext with
          first_low := psec.first_low, first_high := psec.first_high
          last_low := psec.last_low } }
    let e0 := Decoder.classify_first (uninit 0) (uninit 1) d1.tsext.first_low
      psec.ts.low_short psec.ts.low_long
    let e1 := Decoder.classify_first (uninit 2) (uninit 3) d1.tsext.first_high
      psec.ts.high_short psec.ts.high_long
    if e0 ≠ Signal.OTHER ∧ e1 ≠ Signal.OTHER then
      match d1.add_signal_step e0 e1 with
      | Except.error e => Except.error e
      | Except.ok d2 =>
        Except.ok { d2 with tsext := { d2.tsext with first_low := 0, first_high := 0 } }
    else Except.ok d1

/-- The test `((recorded_t)1 << pos) & rec` of decode_section, as a Signal. -/
def Decoder.signal_at (recd pos : Nat) : Signal :=
  if ((1 <<< pos) % 65536) &&& recd ≠ 0 then Signal.LONG else Signal.SHORT

/-- The loop `while (pos_low >= 1 || pos_high >= 1)` of decode_section. The
first argument bounds the number of turns; Fault.fuel when it is used up. -/
def Decoder.decode_loop (psec : Section) : Nat → Nat → Nat → Decoder → Except Fault Decoder
  | 0, pos_low, pos_high, dec =>
    if pos_low ≥ 1 ∨ pos_high ≥ 1 then Except.error Fault.fuel else Except.ok dec
  | n + 1, pos_low, pos_high, dec =>
    if pos_low ≥ 1 ∨ pos_high ≥ 1 then
      let pl := if pos_low ≥ 1 then pos_low - 1 else pos_low
      let sd_low := if pos_low ≥ 1 then Decoder.signal_at psec.low_rec pl else Signal.OTHER
      let ph := if pos_high ≥ 1 then pos_high - 1 else pos_high
      let sd_high := if pos_high ≥ 1 then Decoder.signal_at psec.high_rec ph else Signal.OTHER
      match dec.add_signal_step sd_low sd_high with
      | Except.error e => Except.error e
      | Except.ok d1 => Decoder.decode_loop psec n pl ph d1
    else Except.ok dec

/-- Decoder::decode_section. Each turn of its loop lowers pos_low or pos_high,
so low_bits + high_bits turns are enough. -/
def Decoder.decode_section (dec : Decoder) (psec : Section) (is_cont_of_prev_sec : Bool)
    (uninit : Nat → Band) : Except Fault Decoder :=
  match dec.take_into_account_first_low_high psec is_cont_of_prev_sec uninit with
  | Except.error e => Except.error e
  | Except.ok d1 =>
    Decoder.decode_loop psec (psec.low_bits + psec.high_bits) psec.low_bits psec.high_bits d1

/-! ## Track::get_data_core and Track::get_data -/

/-- The contents of the memory that get_data_core reads before writing it:
band i id k is the content of the k-th uninitialized local Band (see
take_into_account_first_low_high) in the call made for section i on the decoder
built with identifier id, and decoder i id is the memory in which the decoder of
identifier id is built for section i. -/
structure Indeterminate where
  band : Nat → Nat → Nat → Band
  decoder : Nat → Nat → Decoder

/-- The loop `do { ... } while (!pdec && ++enum_decoders <= RF433ANY_ID_END)` of
get_data_core when pdec is null on entry (is_continuation_of_prev_section is
false): the value of pdec when the loop is left. The first argument is the
number of identifiers left to try, enum_decoders included. -/
def Track.try_decoders (convention : Nat) (u : Indeterminate) (i : Nat) (psec : Section) :
    Nat → Nat → Except Fault (Option Decoder)
  | 0, _ => Except.ok none
  | n + 1, enum_decoders =>
    match Decoder.build_decoder (u.decoder i enum_decoders) enum_decoders convention with
    | Except.error e => Except.error e
    | Except.ok pdec =>
      match pdec.decode_section psec false (u.band i enum_decoders) with
      | Except.error e => Except.error e
      | Except.ok d1 =>
        if d1.get_nb_errors ≠ 0 then Track.try_decoders convention u i psec n (enum_decoders + 1)
        else Except.ok (some d1)

/-- The part of the body of the loop of get_data_core that gives pdec its value
for section i (lines 1617-1657), assert(pdec) included. -/
def Track.core_decoder (convention : Nat) (u : Indeterminate) (i : Nat) (psec : Section)
    (pdec : Option Decoder) : Except Fault Decoder :=
  if Int.natAbs ((psec.low_bits : Int) - (psec.high_bits : Int)) ≥ 2 then
    match pdec with
    | some d => Except.ok d
    | none => Except.ok (Decoder.new_raw_inconsistent (u.decoder i RF433ANY_ID_RAW_INCONSISTENT))
  else if psec.low_bands = 1 ∧ psec.high_bands = 1 then
    let n := if psec.low_bits < psec.high_bits then psec.low_bits else psec.high_bits
    match pdec with
    | some d => Except.ok (d.add_sync n)
    | none =>
      (Decoder.new_raw_sync (u.decoder i RF433ANY_ID_RAW_SYNC) n).take_into_account_first_low_high
        psec false (u.band i RF433ANY_ID_RAW_SYNC)
  else if psec.low_bands = 1 ∨ psec.high_bands = 1 then
    match pdec with
    | some d => Except.ok d
    | none => Except.ok (Decoder.new_raw_inconsistent (u.decoder i RF433ANY_ID_RAW_INCONSISTENT))
  else
    match pdec with
    | some d => d.decode_section psec true (u.band i d.get_id)
    | none =>
      match Track.try_decoders convention u i psec
          (RF433ANY_ID_END + 1 - RF433ANY_ID_START) RF433ANY_ID_START with
      | Except.error e => Except.error e
      | Except.ok none => Except.error Fault.assertion
      | Except.ok (some d) => Except.ok d

/-- The loop `for (byte i = 0; i < rawcode.nb_sections; ++i)` of get_data_core.
The first argument is nb_sections - i; chain is the list from pdec_head to
pdec_tail (empty when they are null). Reading rawcode.sections[i] with i not
below RF433ANY_MAX_SECTIONS is Fault.bounds. -/
def Track.core_loop (rawcode : RawCode) (convention : Nat) (u : Indeterminate) :
    Nat → Nat → List Decoder → Option Decoder → Except Fault (List Decoder)
  | 0, _, chain, _ => Except.ok chain
  | n + 1, i, chain, pdec =>
    if ¬ i < RF433ANY_MAX_SECTIONS then Except.error Fault.bounds
    else
      let psec := rawcode.sections i
      match Track.core_decoder convention u i psec pdec with
      | Except.error e => Except.error e
      | Except.ok d =>
        let d1 := d.set_ts (if chain ≠ [] then 0 else rawcode.initseq) psec.ts
        if psec.sts ≠ section_term_status_t.STS_CONTINUED ∨ i = rawcode.nb_sections - 1 then
          Track.core_loop rawcode convention u n (i + 1) (chain ++ [d1]) none
        else Track.core_loop rawcode convention u n (i + 1) chain (some d1)

/-- Track::get_data_core(convention): the chain of decoders from pdec_head on. -/
def Track.get_data_core (t : Track) (convention : Nat) (u : Indeterminate) :
    Except Fault (List Decoder) :=
  Track.core_loop t.rawcode convention u t.rawcode.nb_sections 0 [] none

/-- The value of keep in get_data after the tests of RF433ANY_FD_DECODED and
RF433ANY_FD_NO_ERROR (lines 1686-1701). -/
def Track.keep_decoded_no_error (filter : Nat) (pdec : Decoder) : Bool :=
  let keep1 : Bool :=
    if filter &&& RF433ANY_FD_DECODED ≠ 0 then
      (if !pdec.data_got_decoded ∨ pdec.pdata.get_nb_bits = 0 then false else true)
    else true
  if filter &&& RF433ANY_FD_NO_ERROR ≠ 0 then
    (if pdec.get_nb_errors ≠ 0 then false else keep1)
  else keep1

/-- The value of keep in get_data after the tests of RF433ANY_FD_TRI,
RF433ANY_FD_TRN and RF433ANY_FD_MAN (lines 1716-1726), keep being its value
before them. -/
def Track.keep_coding (filter : Nat) (pdec : Decoder) (keep : Bool) : Bool :=
  if filter &&& (RF433ANY_FD_TRI ||| RF433ANY_FD_TRN ||| RF433ANY_FD_MAN) ≠ 0 then
    let k1 : Bool :=
      if filter &&& RF433ANY_FD_TRI = 0 ∧ pdec.get_id = RF433ANY_ID_TRIBIT then false
      else keep
    let k2 : Bool :=
      if filter &&& RF433ANY_FD_TRN = 0 ∧ pdec.get_id = RF433ANY_ID_TRIBIT_INV then false
      else k1
    if filter &&& RF433ANY_FD_MAN = 0 ∧ pdec.get_id = RF433ANY_ID_MANCHESTER then false
    else k2
  else keep

/-- The loop `while (pdec)` of get_data. kept is the list of the nodes kept so
far, the last kept first: its head is prev_pdec, and prev_pdec == pdec exactly
when it is empty; the second list is the chain from pdec on. The result is the
chain from pdec0 on. -/
def Track.get_data_loop (filter : Nat) : List Decoder → List Decoder → Except Fault (List Decoder)
  | kept, [] => Except.ok kept.reverse
  | kept, p :: rest =>
    let pdec : Decoder := p.reset_repeats
    let keep2 : Bool := Track.keep_decoded_no_error filter pdec
    let dedup : Except Fault (Bool × List Decoder) :=
      if filter &&& RF433ANY_FD_DEDUP ≠ 0 then
        match kept with
        | [] => Except.ok (keep2, kept)
        | prev_pdec :: ks =>
          if pdec.get_id = prev_pdec.get_id then
            match pdec.pdata.cmp prev_pdec.pdata with
            | none => Except.error Fault.assertion
            | some c =>
              if c = 0 then Except.ok (false, prev_pdec.inc_repeats :: ks)
              else Except.ok (keep2, kept)
          else Except.ok (keep2, kept)
      else Except.ok (keep2, kept)
    match dedup with
    | Except.error e => Except.error e
    | Except.ok (keep3, kept1) =>
      if Track.keep_coding filter pdec keep3 then Track.get_data_loop filter (pdec :: kept1) rest
      else Track.get_data_loop filter kept1 rest

/-- The filtering done by get_data on the chain that get_data_core returned. -/
def Track.get_data_filter (filter : Nat) (chain : List Decoder) : Except Fault (List Decoder) :=
  Track.get_data_loop filter [] chain

/-- Track::get_data(filter, convention). -/
def Track.get_data (t : Track) (filter convention : Nat) (u : Indeterminate) :
    Except Fault (List Decoder) :=
  match t.get_data_core convention u with
  | Except.error e => Except.error e
  | Except.ok chain => Track.get_data_filter filter chain

/-! ## The ring of edges between the interrupt handler and the consumer -/

def IH_SIZE : Nat := 4
def IH_MASK : Nat := IH_SIZE - 1

/-- The static members IH_timings (slot i holds the pair (r, d)), IH_write_head,
IH_read_head and IH_max_pending_timings of Track. -/
structure IHRing where
  IH_timings : Nat → Nat × Nat
  IH_write_head : Nat
  IH_read_head : Nat
  IH_max_pending_timings : Nat

/-- The ring at program start: static storage is zero-initialized. -/
def IHRing.initial : IHRing :=
  { IH_timings := fun _ => (0, 0), IH_write_head := 0, IH_read_head := 0
    IH_max_pending_timings := 0 }

/-- The body of Track::ih_handle_interrupt from the saturation of d on (lines
1165-1178): r is the level read and d the unsigned long duration. -/
def IHRing.ih_write (ring : IHRing) (r d : Nat) : IHRing :=
  let d1 := if d > RF433ANY_MAX_DURATION then RF433ANY_MAX_DURATION else d
  let next_IH_write_head := ((ring.IH_write_head + 1) &&& IH_MASK) % 256
  let read_head :=
    if next_IH_write_head = ring.IH_read_head then ((ring.IH_read_head + 1) &&& IH_MASK) % 256
    else ring.IH_read_head
  { ring with
    IH_read_head := read_head
    IH_write_head := next_IH_write_head
    IH_timings := fun i => if i = next_IH_write_head then (r, d1) else ring.IH_timings i }

/-- The number of pending entries, (IH_write_head - IH_read_head) & IH_MASK. -/
def IHRing.pending (ring : IHRing) : Nat :=
  Int.toNat (Int.emod ((ring.IH_write_head : Int) - (ring.IH_read_head : Int)) 4)

/-- The critical section of Track::process_interrupt_timing (between cli() and
sei()): the ring after it and the timing read, none when the ring is empty. -/
def IHRing.ih_read (ring : IHRing) : IHRing × Option (Nat × Nat) :=
  if ring.IH_read_head ≠ ring.IH_write_head then
    let timing := ring.IH_timings ring.IH_read_head
    ({ ring with IH_read_head := ((ring.IH_read_head + 1) &&& IH_MASK) % 256 }, some timing)
  else (ring, none)

/-- The reads repeated until the ring reports empty, at most n of them: the
timings read, in the order they were read, and the ring left. -/
def IHRing.read_all : Nat → IHRing → List (Nat × Nat) × IHRing
  | 0, ring => ([], ring)
  | n + 1, ring =>
    match ring.ih_read with
    | (ring1, some timing) =>
      let res := IHRing.read_all n ring1
      (timing :: res.1, res.2)
    | (ring1, none) => ([], ring1)

/-- The writes of a list of edges, one after the other. -/
def IHRing.write_all (ring : IHRing) (es : List (Nat × Nat)) : IHRing :=
  es.foldl (fun rg e => rg.ih_write e.1 e.2) ring

/-- Track::process_interrupt_timing, with no interrupt occurring while it runs:
the track and ring after the call and the value returned. fuel is the recursion
depth given to track_eat. -/
def Track.process_interrupt_timing (fuel : Nat) (t : Track) (ring : IHRing) :
    Except Fault (Track × IHRing × Bool) :=
  if t.trk = trk_t.TRK_DATA then Except.ok (t, ring, false)
  else
    let IH_pending_timings := ring.pending
    let ring1 : IHRing :=
      if IH_pending_timings > ring.IH_max_pending_timings then
        { ring with IH_max_pending_timings := IH_pending_timings }
      else ring
    match ring1.ih_read with
    | (ring2, some timing) =>
      match Track.track_eat fuel t timing.1 timing.2 with
      | Except.error e => Except.error e
      | Except.ok t1 => Except.ok (t1, ring2, true)
    | (ring2, none) => Except.ok (t, ring2, false)

/-- The loop `while (process_interrupt_timing());` of do_events; the first
argument bounds the number of turns, Fault.fuel when it is used up. -/
def Track.drain (fuel : Nat) : Nat → Track → IHRing → Except Fault (Track × IHRing)
  | 0, _, _ => Except.error Fault.fuel
  | n + 1, t, ring =>
    match Track.process_interrupt_timing fuel t ring with
    | Except.error e => Except.error e
    | Except.ok (t1, ring1, true) => Track.drain fuel n t1 ring1
    | Except.ok (t1, ring1, false) => Except.ok (t1, ring1)

/-- Track::do_events, with no interrupt occurring while it runs (the attachment
of the interrupt handler is not modelled): the track and ring after the call
and the value returned. -/
def Track.do_events (fuel turns : Nat) (t : Track) (ring : IHRing) :
    Except Fault (Track × IHRing × Bool) :=
  match Track.drain fuel turns t ring with
  | Except.error e => Except.error e
  | Except.ok (t1, ring1) => Except.ok (t1, ring1, decide (t1.trk = trk_t.TRK_DATA))

/-- Track::force_stop_recv, with no interrupt occurring while it runs. -/
def Track.force_stop_recv (fuel turns : Nat) (t : Track) (ring : IHRing) :
    Except Fault (Track × IHRing) :=
  if t.trk = trk_t.TRK_RECV then
    match Track.track_eat fuel t 0 0 with
    | Except.error e => Except.error e
    | Except.ok t1 =>
      match Track.track_eat fuel t1 1 0 with
      | Except.error e => Except.error e
      | Except.ok t2 =>
        match Track.do_events fuel turns t2 ring with
        | Except.error e => Except.error e
        | Except.ok (t3, ring1, _) => Except.ok (t3, ring1)
  else Except.ok (t, ring)

/-! ## Memory images used to build concrete decoders -/

/-- A Decoder whose memory is all zero. -/
def Decoder.zeroed : Decoder :=
  { get_id := 0, repeats := 0, pdata := BitVector.empty, convention := 0, nb_errors := 0
    tsext := { low_short := 0, low_long := 0, high_short := 0, high_long := 0, sep := 0
               initseq := 0, first_low := 0, first_high := 0, first_low_ignored := 0
               last_low := 0 }
    nb_low_high := 0, sync_shape := Signal.SHORT, sync_shape_set := false
    unused_final_low := Signal.SHORT, terminates_with_sep := false
    first_call_to_add_sgn_lo_hi := false, unused_initial_low := Signal.SHORT
    last_hi := Signal.SHORT, buf0 := 0, buf1 := 0, buf2 := 0, buf_pos := 0
    leading_lo_hi_has_been_passed := false }

/-- The memory read before it is written is all zero. -/
def Indeterminate.zeroed : Indeterminate :=
  { band := fun _ _ _ => Band.zeroed, decoder := fun _ _ => Decoder.zeroed }

/-- The uninitialized locals of the second turn of the loop of
take_into_account_first_low_high hold what the first turn left in the same
stack slots for the timings 620 and 1240 (the two bands built by Band::init);
the rest of the memory read before it is written is zero. -/
def Indeterminate.stale : Indeterminate :=
  { band := fun _ _ k =>
      if k = 2 then (Band.zeroed.init 620)
      else if k = 3 then (Band.zeroed.init 1240)
      else Band.zeroed
    decoder := fun _ _ => Decoder.zeroed }

/-! ## Runs from the edges to the decoders -/

/-- What is read from a decoder of a chain: get_id(), get_nb_errors(),
get_nb_bits(), get_repeats() and the bytes of pdata. -/
def Decoder.summary (dec : Decoder) : Nat × Nat × Nat × Nat × List Nat :=
  (dec.get_id, dec.get_nb_errors, dec.get_nb_bits, dec.get_repeats, dec.pdata.array)

/-- The edges es fed to a track built in zeroed memory (LAXIST mood), then
get_data(filter, convention): the state trk of the track and the summaries of
the decoders returned; none when the run faults. -/
def Track.get_data_after (es : List (Nat × Nat)) (filter convention : Nat) (u : Indeterminate) :
    Option (trk_t × List (Nat × Nat × Nat × Nat × List Nat)) :=
  match Track.feed 2 (Track.construct Track.zeroed RAIL_MOOD_LAXIST) es with
  | Except.error _ => none
  | Except.ok t =>
    match t.get_data filter convention u with
    | Except.error _ => none
    | Except.ok chain => some (t.trk, chain.map Decoder.summary)

/-- The durations of a frame that is neither tribit, tribit inverted nor
Manchester: init 9000, then shorts of 400 and longs of 800, then the separator
(400, 6000). -/
def frame_unknown_coding : List Nat :=
  [9000, 400, 400, 800, 400, 400, 400, 400, 800, 400, 400, 400, 400, 400, 400, 400, 400,
   400, 400, 400, 6000]

/-- The edges es fed to a track built in zeroed memory (LAXIST mood), then
force_stop_recv with an empty ring: trk, count and rawcode.nb_sections before
the call, and after it; none when the run faults. -/
def Track.force_stop_after (es : List (Nat × Nat)) :
    Option ((trk_t × Nat × Nat) × (trk_t × Nat × Nat)) :=
  match Track.feed 2 (Track.construct Track.zeroed RAIL_MOOD_LAXIST) es with
  | Except.error _ => none
  | Except.ok t =>
    match Track.force_stop_recv 2 4 t IHRing.initial with
    | Except.error _ => none
    | Except.ok (t1, _) =>
      some ((t.trk, t.count, t.rawcode.nb_sections), (t1.trk, t1.count, t1.rawcode.nb_sections))

/-! ## Auxiliary definitions used to state the properties of get_data_core -/

/-- The invariant of the buffer of a DecoderManchester between two calls of
add_signal_step: at most one value is waiting. -/
def Decoder.Wf (dec : Decoder) : Prop :=
  dec.get_id = RF433ANY_ID_MANCHESTER → dec.buf_pos ≤ 1

/-- The decoder of identifier id built for section i and run on the section
psec as a new decoder (not a continuation): what one turn of the loop
`do { ... } while (!pdec && ++enum_decoders <= RF433ANY_ID_END)` of
get_data_core computes before it tests get_nb_errors(). -/
def Track.decoded_with (convention : Nat) (u : Indeterminate) (i : Nat) (psec : Section)
    (id : Nat) : Except Fault Decoder :=
  match Decoder.build_decoder (u.decoder i id) id convention with
  | Except.error e => Except.error e
  | Except.ok pdec => pdec.decode_section psec false (u.band i id)

/-- The rawcode of a track built in zeroed memory (LAXIST mood) after the edges
es; the rawcode of the zeroed track when the run faults. -/
def Track.rawcode_after (es : List (Nat × Nat)) : RawCode :=
  match Track.feed 2 (Track.construct Track.zeroed RAIL_MOOD_LAXIST) es with
  | Except.error _ => Track.zeroed.rawcode
  | Except.ok t => t.rawcode

/-- The durations of a frame of two sections: init 9000, a first section of
shorts (400) and longs (800) closed by the separator (400, 6000), then a second
section made of shorts only, closed by the same separator. -/
def frame_two_sections : List Nat :=
  [9000, 400, 400, 400, 800, 800, 400, 400, 400, 400, 800, 800, 400, 400, 400, 400, 400,
   400, 6000,
   400, 400, 400, 400, 400, 400, 400, 400, 400, 400, 400, 400, 400, 400, 400, 400,
   400, 6000]

/-- The five Timings members of the tsext of a decoder, which set_ts copies from
a section. -/
def Decoder.timings (dec : Decoder) : Timings :=
  { low_short := dec.tsext.low_short, low_long := dec.tsext.low_long
    high_short := dec.tsext.high_short, high_long := dec.tsext.high_long
    sep := dec.tsext.sep }

/-- The track built in zeroed memory (LAXIST mood) after the edges es; the
zeroed track when the run faults. -/
def Track.fed (es : List (Nat × Nat)) : Track :=
  match Track.feed 2 (Track.construct Track.zeroed RAIL_MOOD_LAXIST) es with
  | Except.error _ => Track.zeroed
  | Except.ok t => t

/-- The rail built in zeroed memory with the given mood after rail_eat has been
called with each duration of the list (a call that fails an assertion leaves
the rail as it is). -/
def Rail.after (mood : Nat) (ds : List Nat) : Rail :=
  ds.foldl (fun r d => match r.rail_eat d with
    | some (r1, _) => r1
    | none => r) (Rail.construct Rail.zeroed mood)

/-! ## Auxiliary definitions used to state the properties of a section close -/

/-- The track after the two statements that open the closing block of track_eat
(lines 1300-1303): a rail that is still open is promoted to RAIL_CLOSED. -/
def Track.promoted (t0 : Track) : Track :=
  { t0 with
    r_low := if t0.r_low.status = RailStatus.RAIL_OPEN then
        { t0.r_low with status := RailStatus.RAIL_CLOSED } else t0.r_low
    r_high := if t0.r_high.status = RailStatus.RAIL_OPEN then
        { t0.r_high with status := RailStatus.RAIL_CLOSED } else t0.r_high }

/-- The value of sts computed at a section close. -/
def Track.close_sts (t0 : Track) : section_term_status_t :=
  Track.section_sts t0.promoted.r_low t0.promoted.r_high

/-- A track at the close of a section of seven bits: it is receiving, its low
rail has taken seven durations and its high rail seven durations and the
separator 11000 (the rails are built in zeroed memory, LAXIST mood). -/
def Track.sample_at_close : Track :=
  { Track.zeroed with
    trk := trk_t.TRK_RECV
    r_low := Rail.after RAIL_MOOD_LAXIST [1240, 620, 1240, 620, 620, 1240, 620]
    r_high := Rail.after RAIL_MOOD_LAXIST [620, 1240, 620, 1240, 1240, 620, 1240, 11000] }

/-- The track sample_at_close after the closing block of track_eat has run for
the edge (1, 11000); the zeroed track if it faults. -/
def Track.sample_closed : Track :=
  match Track.close_section (Track.track_eat 1) Track.sample_at_close 1 11000 with
  | Except.ok t => t
  | Except.error _ => Track.zeroed
/-! ## Runs of add_signal_step -/

/-- The virtual call first_lo_ignored(): overridden by DecoderTriBitInv, where
it switches on unused_initial_low; 0 in the base class. A Signal has no value
that reaches the default case (assert(false)). -/
def Decoder.first_lo_ignored (dec : Decoder) : Nat :=
  if dec.get_id = RF433ANY_ID_TRIBIT_INV then
    match dec.unused_initial_low with
    | Signal.OTHER => 0
    | Signal.SHORT => dec.tsext.low_short
    | Signal.LONG => dec.tsext.low_long
  else 0

/-- The calls DecoderTriBitInv::add_signal_step(lo, hi) for the steps of a
list, in order. -/
def Decoder.tribit_inv_steps (dec : Decoder) (steps : List (Signal × Signal)) : Decoder :=
  steps.foldl (fun d s => d.tribit_inv_step s.1 s.2) dec

/-- The calls DecoderRawUnknownCoding::add_signal_step(lo, hi) for the steps of
a list, in order. -/
def Decoder.raw_unknown_steps (dec : Decoder) (steps : List (Signal × Signal)) : Decoder :=
  steps.foldl (fun d s => d.raw_unknown_step s.1 s.2) dec

/-- The calls DecoderManchester::add_signal_step(lo, hi) for the steps of a
list, in order; the run stops at the first failed assertion. -/
def Decoder.manchester_steps : Decoder → List (Signal × Signal) → Except Fault Decoder
  | dec, [] => Except.ok dec
  | dec, (lo, hi) :: rest =>
    match dec.manchester_step lo hi with
    | Except.error e => Except.error e
    | Except.ok d1 => Decoder.manchester_steps d1 rest

/-! ## The decoding rules in the words of the specification -/

/-- The negation of a convention bit. -/
def Spec.neg (C : Nat) : Nat := 1 - C

/-- The rule of a TRIBIT pair: (SHORT, LONG) is the bit C, (LONG, SHORT) the
bit ¬C, anything else an error (none). -/
def Spec.tribit_pair (C : Nat) (p : Signal × Signal) : Option Nat :=
  if p = (Signal.SHORT, Signal.LONG) then some C
  else if p = (Signal.LONG, Signal.SHORT) then some (Spec.neg C)
  else none

/-- The pairs (hi_{i-1}, lo_i), i = 2 .. m, of the steps (lo_1, hi_1), ...,
(lo_m, hi_m). -/
def Spec.tribit_inv_pairs (steps : List (Signal × Signal)) : List (Signal × Signal) :=
  List.zip (steps.map Prod.snd) (steps.tail.map Prod.fst)

/-- The bits of a list of outcomes (some bit, or none for an error). -/
def Spec.bits (ev : List (Option Nat)) : List Nat := ev.filterMap id

/-- The number of errors of a list of outcomes. -/
def Spec.errors (ev : List (Option Nat)) : Nat := ev.countP (fun o => o.isNone)

/-- The two bits RAW_UNKNOWN records for a step: 0 for SHORT and 1 otherwise,
the low then the high; nothing when the high is OTHER. -/
def Spec.raw_unknown_bits (s : Signal × Signal) : List Nat :=
  if s.2 = Signal.OTHER then []
  else [if s.1 = Signal.SHORT then 0 else 1, if s.2 = Signal.SHORT then 0 else 1]

/-- The half-bit symbols of a list of steps: a low is 0, a high is 1, and a
LONG signal is pushed twice. -/
def Spec.manchester_symbols (steps : List (Signal × Signal)) : List Nat :=
  steps.flatMap fun s =>
    (if s.1 = Signal.LONG then [0, 0] else [0]) ++ (if s.2 = Signal.LONG then [1, 1] else [1])

/-- The symbol stream cut into consecutive pairs; a trailing unpaired symbol is
ignored. -/
def Spec.pairs : List Nat → List (Nat × Nat)
  | a :: b :: rest => (a, b) :: Spec.pairs rest
  | _ => []

/-- The rule of a MANCHESTER pair after the first: (0,1) is the bit C, (1,0)
the bit ¬C, (0,0) and (1,1) an error (none). -/
def Spec.manchester_pair (C : Nat) (p : Nat × Nat) : Option Nat :=
  if p = (0, 1) then some C
  else if p = (1, 0) then some (Spec.neg C)
  else none

/-- The outcomes of the pairs of a MANCHESTER stream: the first pair must be
(0,1) and counts one error if it is not, each later pair follows
Spec.manchester_pair. -/
def Spec.manchester_outcomes (C : Nat) : List (Nat × Nat) → List (Option Nat)
  | [] => []
  | p :: rest => (if p = (0, 1) then [] else [none]) ++ rest.map (Spec.manchester_pair C)

/-- What the FIFO of a DecoderManchester holds between two signals, with the
results so far: carry is the symbol waiting in buf[0] (when buf_pos is 1). -/
structure ManchesterView where
  carry : Option Nat
  leading : Bool
  pdata : BitVector
  nb_errors : Nat
deriving DecidableEq, Repr

/-- The view of a DecoderManchester. -/
def Decoder.manchester_view (dec : Decoder) : ManchesterView :=
  { carry := if dec.buf_pos = 0 then none else some dec.buf0
    leading := dec.leading_lo_hi_has_been_passed
    pdata := dec.pdata
    nb_errors := dec.nb_errors }

/-- One symbol pushed on a view: it waits when nothing is waiting, and is
consumed with the waiting symbol otherwise. -/
def ManchesterView.push (C : Nat) (v : ManchesterView) (s : Nat) : ManchesterView :=
  match v.carry with
  | none => { v with carry := some s }
  | some a =>
    if v.leading then
      match Spec.manchester_pair C (a, s) with
      | some b => { v with carry := none, pdata := v.pdata.add_bit b }
      | none => { v with carry := none, nb_errors := (v.nb_errors + 1) % 256 }
    else
      { v with
        carry := none
        leading := true
        nb_errors := if (a, s) = (0, 1) then v.nb_errors else (v.nb_errors + 1) % 256 }

/-- The outcomes of the pairs that follow a view: all pairs follow
Spec.manchester_pair once the leading pair has been passed. -/
def Spec.manchester_rest (C : Nat) (leading : Bool) (ps : List (Nat × Nat)) : List (Option Nat) :=
  if leading then ps.map (Spec.manchester_pair C) else Spec.manchester_outcomes C ps

/-! ## Synchronization of the rails -/

/-- The rails of a track are synchronized: every recorded section has low_bits
and high_bits at most 1 apart, the indices of the rails are at most 2 apart in
TRK_RECV, and at least one section is recorded in TRK_DATA. -/
def Track.Synced (t : Track) : Prop :=
  (∀ i, i < t.rawcode.nb_sections →
      Int.natAbs (((t.rawcode.sections i).low_bits : Int)
        - ((t.rawcode.sections i).high_bits : Int)) ≤ 1)
    ∧ (t.trk = trk_t.TRK_RECV →
        Int.natAbs ((t.r_low.index : Int) - (t.r_high.index : Int)) ≤ 2)
    ∧ (t.trk = trk_t.TRK_DATA → 1 ≤ t.rawcode.nb_sections)

/-- The pairs of edges of n bits: a low of 620 then a high of 1240, n times. -/
def low_high (n : Nat) : List (Nat × Nat) :=
  (List.replicate n [(0, 620), (1, 1240)]).flatten

/-- The edges of a long frame in which two edges are missed: the init sequence
9000, 16 pairs (620, 1240), then a low seen twice, the high that closes the first
section, 110 more pairs, and a last low, a high seen twice and a low. There are
260 edges, all lows are 620 and all highs 1240, and there is no separator. -/
def edges_desync : List (Nat × Nat) :=
  (1, 9000) :: low_high 16 ++ [(0, 620), (0, 620), (1, 1240)] ++ low_high (6 * 16 + 14)
    ++ [(0, 620), (1, 1240), (1, 1240), (0, 620)]

/-- The durations of a frame of n edges after the init sequence 9000: lows of
620 and highs of 1240, no separator. -/
def frame_long (n : Nat) : List Nat :=
  9000 :: (List.range n).map (fun i => if i % 2 = 0 then 620 else 1240)

/-- The members of a track that the first edges of a section change: trk,
count, first_low, first_high, the indices of the rails and nb_sections. -/
def Track.border (t : Track) : trk_t × Nat × Nat × Nat × Nat × Nat × Nat :=
  (t.trk, t.count, t.first_low, t.first_high, t.r_low.index, t.r_high.index,
    t.rawcode.nb_sections)

/-! ## The steps of a section -/

/-- The calls add_signal_step(lo, hi) for the steps of a list, in order, on a
decoder of any class; the run stops at the first failed assertion. -/
def Decoder.add_signal_steps : Decoder → List (Signal × Signal) → Except Fault Decoder
  | dec, [] => Except.ok dec
  | dec, (lo, hi) :: rest =>
    match dec.add_signal_step lo hi with
    | Except.error e => Except.error e
    | Except.ok d1 => Decoder.add_signal_steps d1 rest

/-- The signal recorded at position pos of a rail's record: LONG for a bit 1,
SHORT for a bit 0. -/
def Spec.signal (recd pos : Nat) : Signal :=
  if recd.testBit pos then Signal.LONG else Signal.SHORT

/-- The steps that two records of low_bits and high_bits bits hold, the first
received first: step j pairs the signal at position low_bits - 1 - j of the low
record with the signal at position high_bits - 1 - j of the high record; where a
record has no more bits the signal is OTHER. -/
def Spec.steps (low_rec high_rec low_bits high_bits : Nat) : List (Signal × Signal) :=
  (List.range (max low_bits high_bits)).map fun j =>
    (if j < low_bits then Spec.signal low_rec (low_bits - 1 - j) else Signal.OTHER,
     if j < high_bits then Spec.signal high_rec (high_bits - 1 - j) else Signal.OTHER)

theorem shr_eq_div (x k : Nat) : x >>> k = x / 2 ^ k := Nat.shiftRight_eq_div_pow x k

theorem shl_eq_mul (x k : Nat) : x <<< k = x * 2 ^ k := Nat.shiftLeft_eq x k

/-- Claim C4. Band::init(d): for every d with 64 ≤ d ≤ 30000 it returns true
(got_it is set) and sets mid = d, inf = d - ⌊d/4⌋ and sup = d + ⌊d/4⌋; for every
d outside [64, 30000] it returns false (got_it is cleared) and leaves inf, mid
and sup unchanged. -/
theorem Band.init_spec (b : Band) (d : Nat) :
    ((64 ≤ d ∧ d ≤ 30000) →
      (b.init d).got_it = true ∧ (b.init d).mid = d
        ∧ (b.init d).inf = d - d / 4 ∧ (b.init d).sup = d + d / 4)
    ∧ (¬ (64 ≤ d ∧ d ≤ 30000) →
      (b.init d).got_it = false ∧ (b.init d).inf = b.inf
        ∧ (b.init d).mid = b.mid ∧ (b.init d).sup = b.sup) := by
  constructor
  · intro h
    have h1 : d ≥ BAND_MIN_D ∧ d ≤ BAND_MAX_D := by
      simp only [BAND_MIN_D, BAND_MAX_D]; omega
    simp only [Band.init, h1, and_self, if_true, shr_eq_div]
    refine ⟨trivial, trivial, ?_, ?_⟩ <;> norm_num <;> omega
  · intro h
    have h1 : ¬ (d ≥ BAND_MIN_D ∧ d ≤ BAND_MAX_D) := by
      simp only [BAND_MIN_D, BAND_MAX_D]; omega
    simp [Band.init, h1]

theorem Band.init_spec_witness :
    (Band.init ⟨0, 0, 0, false⟩ 620).inf = 465 ∧ (Band.init ⟨7, 8, 9, true⟩ 63).mid = 8 :=
  ⟨by have h := (Band.init_spec ⟨0, 0, 0, false⟩ 620).1 (by decide); simpa using h.2.2.1,
   by have h := (Band.init_spec ⟨7, 8, 9, true⟩ 63).2 (by decide); simpa using h.2.2.1⟩

/-- Claim C5. Band::init_sep(d): for every 16-bit duration d it returns true
(got_it is set) and sets mid = d, sup = 65535 and inf = ⌊d/2⌋ + ⌊d/8⌋; the value
the code computes, ⌊d/2⌋ + ⌊⌊d/2⌋/4⌋, equals ⌊d/2⌋ + ⌊d/8⌋ and is below 65536. -/
theorem Band.init_sep_spec (b : Band) (d : Nat) (hd : d < 65536) :
    (b.init_sep d).got_it = true ∧ (b.init_sep d).mid = d ∧ (b.init_sep d).sup = 65535
      ∧ (b.init_sep d).inf = d / 2 + d / 8
      ∧ d / 2 + d / 2 / 4 = d / 2 + d / 8 ∧ d / 2 + d / 2 / 4 < 65536 := by
  simp only [Band.init_sep, RF433ANY_MAX_SEP_DURATION, shr_eq_div]
  refine ⟨trivial, trivial, trivial, ?_, ?_, ?_⟩ <;> norm_num <;> omega

theorem Band.init_sep_spec_witness :
    (Band.init_sep ⟨0, 0, 0, false⟩ 11000).inf = 11000 / 2 + 11000 / 8 :=
  (Band.init_sep_spec ⟨0, 0, 0, false⟩ 11000 (by decide)).2.2.2.1
/-- Claim C10. WAIT to RECV: for every Track in TRK_WAIT and every edge (r, d)
with a 16-bit duration, track_eat(r, d) returns (recursion depth 1 is enough)
and enters TRK_RECV if and only if r = 1 (HIGH) and d ≥ 4000; in that case
initseq = d, max_code_d = d - ⌊d/4⌋, both rails are hard-reset (status
RAIL_OPEN, index 0, rec 0, inf, mid and sup of the three bands 0) and count,
first_low, first_high and last_low are 0; in every other case the Track state
is unchanged. -/
theorem Track.wait_to_recv (t : Track) (r d fuel : Nat) (ht : t.trk = trk_t.TRK_WAIT)
    (hd : d < 65536) (hf : 1 ≤ fuel) :
    (∃ t1, Track.track_eat fuel t r d = Except.ok t1
      ∧ (t1.trk = trk_t.TRK_RECV ↔ (r = 1 ∧ d ≥ 4000))
      ∧ ((r = 1 ∧ d ≥ 4000) →
          t1.rawcode.initseq = d ∧ t1.rawcode.max_code_d = d - d / 4
          ∧ t1.r_low.status = RailStatus.RAIL_OPEN ∧ t1.r_low.index = 0 ∧ t1.r_low.recorded = 0
          ∧ t1.r_low.b_short.inf = 0 ∧ t1.r_low.b_short.mid = 0 ∧ t1.r_low.b_short.sup = 0
          ∧ t1.r_low.b_long.inf = 0 ∧ t1.r_low.b_long.mid = 0 ∧ t1.r_low.b_long.sup = 0
          ∧ t1.r_low.b_sep.inf = 0 ∧ t1.r_low.b_sep.mid = 0 ∧ t1.r_low.b_sep.sup = 0
          ∧ t1.r_high.status = RailStatus.RAIL_OPEN ∧ t1.r_high.index = 0
          ∧ t1.r_high.recorded = 0
          ∧ t1.r_high.b_short.inf = 0 ∧ t1.r_high.b_short.mid = 0 ∧ t1.r_high.b_short.sup = 0
          ∧ t1.r_high.b_long.inf = 0 ∧ t1.r_high.b_long.mid = 0 ∧ t1.r_high.b_long.sup = 0
          ∧ t1.r_high.b_sep.inf = 0 ∧ t1.r_high.b_sep.mid = 0 ∧ t1.r_high.b_sep.sup = 0
          ∧ t1.count = 0 ∧ t1.first_low = 0 ∧ t1.first_high = 0 ∧ t1.last_low = 0)
      ∧ (¬ (r = 1 ∧ d ≥ 4000) → t1 = t)) := by
  obtain ⟨n, rfl⟩ : ∃ n, fuel = n + 1 := ⟨fuel - 1, by omega⟩
  by_cases h : r = 1 ∧ d ≥ 4000
  · have h1 : r = 1 ∧ d ≥ TRACK_MIN_INITSEQ_DURATION := h
    refine ⟨_, by simp only [Track.track_eat, ht, h1, and_self, if_true]; rfl, ?_, ?_, ?_⟩
    · simp [h]
    · intro _
      simp only [Track.reset_border_mgmt, Rail.rreset, Rail.rreset_soft, Band.breset, shr_eq_div]
      refine ⟨trivial, ?_, ?_⟩
      · norm_num; omega
      · simp
    · intro h2; exact absurd h h2
  · have h1 : ¬ (r = 1 ∧ d ≥ TRACK_MIN_INITSEQ_DURATION) := h
    refine ⟨t, by simp only [Track.track_eat, ht, h1, if_true, if_false], ?_, ?_, ?_⟩
    · simp [ht, h]
    · intro h2; exact absurd h2 h
    · intro _; rfl
theorem Track.wait_to_recv_witness :
    ∃ t1, Track.track_eat 2 (Track.construct Track.zeroed 1) 1 9000 = Except.ok t1
      ∧ t1.trk = trk_t.TRK_RECV ∧ t1.rawcode.max_code_d = 6750 := by
  obtain ⟨t1, h1, h2, h3, _⟩ :=
    Track.wait_to_recv (Track.construct Track.zeroed 1) 1 9000 2 rfl (by decide) (by decide)
  exact ⟨t1, h1, h2.2 ⟨rfl, by decide⟩, (h3 ⟨rfl, by decide⟩).2.1⟩

/-! ## BitVector -/

theorem and_two_pow_ne_zero (x k : Nat) : x &&& 2 ^ k ≠ 0 ↔ x.testBit k = true := by
  constructor
  · intro h
    by_contra hb
    apply h
    apply Nat.eq_of_testBit_eq
    intro i
    rw [Nat.testBit_and, Nat.testBit_two_pow, Nat.zero_testBit]
    by_cases hki : k = i
    · subst hki; simp [hb]
    · simp [hki]
  · intro h h0
    have : (x &&& 2 ^ k).testBit k = true := by
      rw [Nat.testBit_and, Nat.testBit_two_pow, h]; simp
    rw [h0] at this
    simp at this

theorem BitVector.raw_bit_eq (bv : BitVector) (n : Nat) (hn : n < 2048) :
    bv.raw_bit n = (BitVector.bit_of bv.array n).toNat := by
  have h1 : (n >>> 3) % 256 = n / 8 := by
    rw [shr_eq_div]; norm_num; omega
  have h2 : n &&& 0x07 = n % 8 := by
    have := Nat.and_pow_two_sub_one_eq_mod n 3
    simpa using this
  have h3 : (1 <<< (n % 8)) % 256 = 2 ^ (n % 8) := by
    rw [shl_eq_mul, one_mul]
    apply Nat.mod_eq_of_lt
    calc 2 ^ (n % 8) < 2 ^ 8 := Nat.pow_lt_pow_right (by decide) (Nat.mod_lt _ (by decide))
      _ = 256 := by norm_num
  unfold BitVector.raw_bit BitVector.bit_of
  rw [h1, h2, h3]
  by_cases hb : (bv.array.getD (n / 8) 0).testBit (n % 8) = true
  · rw [if_pos ((and_two_pow_ne_zero _ _).2 hb), hb]; rfl
  · rw [if_neg (fun h => hb ((and_two_pow_ne_zero _ _).1 h))]
    simp only [Bool.not_eq_true] at hb
    rw [hb]; rfl

theorem BitVector.get_nth_bit_eq (bv : BitVector) (n : Nat) :
    bv.get_nth_bit n = if n < bv.nb_bits then some (bv.raw_bit n) else none := rfl
theorem BitVector.shift_loop_length (v : Nat) (k : Nat) (arr : List Nat) :
    (BitVector.shift_loop v k arr).length = arr.length := by
  induction k generalizing arr with
  | zero => rfl
  | succ i ih => simp only [BitVector.shift_loop]; rw [ih]; simp

theorem BitVector.shift_loop_getD (v : Nat) (k : Nat) (arr : List Nat) (hk : k ≤ arr.length)
    (j : Nat) :
    (BitVector.shift_loop v k arr).getD j 0 =
      if j < k then
        (((arr.getD j 0) <<< 1) |||
          (if j > 0 then (if (arr.getD (j - 1) 0) &&& 0x80 ≠ 0 then 1 else 0)
           else (if v ≠ 0 then 1 else 0))) % 256
      else arr.getD j 0 := by
  induction k generalizing arr with
  | zero => simp [BitVector.shift_loop]
  | succ i ih =>
    simp only [BitVector.shift_loop]
    rw [ih _ (by simp; omega)]
    by_cases hji : j < i
    · have hj1 : j < i + 1 := by omega
      rw [if_pos hji, if_pos hj1]
      have e1 : ∀ x, (arr.set i x).getD j 0 = arr.getD j 0 := by
        intro x
        simp only [List.getD_eq_getElem?_getD]
        rw [List.getElem?_set_ne (by omega)]
      have e2 : ∀ x, (arr.set i x).getD (j - 1) 0 = arr.getD (j - 1) 0 := by
        intro x
        simp only [List.getD_eq_getElem?_getD]
        rw [List.getElem?_set_ne (by omega)]
      rw [e1, e2]
    · rw [if_neg hji]
      by_cases hje : j = i
      · subst hje
        have hlt : j < arr.length := by omega
        rw [if_pos (show j < j + 1 by omega)]
        simp only [List.getD_eq_getElem?_getD]
        rw [List.getElem?_set_self hlt]
        rfl
      · rw [if_neg (show ¬ j < i + 1 by omega)]
        simp only [List.getD_eq_getElem?_getD]
        rw [List.getElem?_set_ne (by omega)]

theorem byte_shift_testBit (x c j : Nat) (hc : c ≤ 1) :
    (((x <<< 1) ||| c) % 256).testBit j =
      (decide (j < 8) && (if j = 0 then decide (c = 1) else x.testBit (j - 1))) := by
  have h256 : (256 : Nat) = 2 ^ 8 := by norm_num
  rw [h256, Nat.testBit_mod_two_pow, Nat.testBit_or, Nat.testBit_shiftLeft]
  rcases j with _ | j
  · have : c = 0 ∨ c = 1 := by omega
    rcases this with rfl | rfl <;> simp
  · have hcb : c.testBit (j + 1) = false := by
      have : c = 0 ∨ c = 1 := by omega
      rcases this with rfl | rfl
      · simp
      · rw [Nat.testBit_succ]; simp
    simp [hcb]
theorem BitVector.bit_of_shift_loop (v : Nat) (arr : List Nat) (m : Nat) :
    BitVector.bit_of (BitVector.shift_loop v arr.length arr) m =
      if m / 8 < arr.length then
        (if m = 0 then decide (v ≠ 0) else BitVector.bit_of arr (m - 1))
      else false := by
  unfold BitVector.bit_of
  rw [BitVector.shift_loop_getD v arr.length arr (le_refl _)]
  by_cases hlt : m / 8 < arr.length
  · rw [if_pos hlt, if_pos hlt]
    have hm8 : m % 8 < 8 := Nat.mod_lt _ (by decide)
    rw [byte_shift_testBit _ _ _ (by split_ifs <;> omega)]
    simp only [hm8, decide_True, Bool.true_and]
    by_cases hm0 : m % 8 = 0
    · rw [if_pos hm0]
      by_cases hmz : m = 0
      · subst hmz
        simp
      · have hpos : m / 8 > 0 := by omega
        rw [if_neg hmz, if_pos hpos]
        have e1 : (m - 1) / 8 = m / 8 - 1 := by omega
        have e2 : (m - 1) % 8 = 7 := by omega
        rw [e1, e2]
        have h80 : (0x80 : Nat) = 2 ^ 7 := by norm_num
        rw [h80]
        by_cases hb : (arr.getD (m / 8 - 1) 0).testBit 7 = true
        · rw [if_pos ((and_two_pow_ne_zero _ _).2 hb), hb]; simp
        · rw [if_neg (fun h => hb ((and_two_pow_ne_zero _ _).1 h))]
          simp only [Bool.not_eq_true] at hb
          rw [hb]; simp
    · have hmz : m ≠ 0 := by intro h; subst h; simp at hm0
      rw [if_neg hm0, if_neg hmz]
      have e1 : (m - 1) / 8 = m / 8 := by omega
      have e2 : (m - 1) % 8 = m % 8 - 1 := by omega
      rw [e1, e2]
  · rw [if_neg hlt, if_neg hlt]
    have : arr.getD (m / 8) 0 = 0 := by
      simp only [List.getD_eq_getElem?_getD]
      rw [List.getElem?_eq_none (by omega)]
      rfl
    rw [this]
    simp

theorem BitVector.bit_of_append_zero (arr : List Nat) (m : Nat) :
    BitVector.bit_of (arr ++ [0]) m = BitVector.bit_of arr m := by
  unfold BitVector.bit_of
  have : (arr ++ [0]).getD (m / 8) 0 = arr.getD (m / 8) 0 := by
    simp only [List.getD_eq_getElem?_getD]
    by_cases h : m / 8 < arr.length
    · rw [List.getElem?_append_left h]
    · rw [List.getElem?_append_right (by omega)]
      rw [List.getElem?_eq_none (l := arr) (by omega)]
      rcases hk : m / 8 - arr.length with _ | k <;> simp
  rw [this]

theorem BitVector.getD_append_zero_lt (arr : List Nat) (h : ∀ k, arr.getD k 0 < 256) (k : Nat) :
    (arr ++ [0]).getD k 0 < 256 := by
  simp only [List.getD_eq_getElem?_getD]
  by_cases hk : k < arr.length
  · rw [List.getElem?_append_left hk]
    have := h k
    simpa only [List.getD_eq_getElem?_getD] using this
  · rw [List.getElem?_append_right (by omega)]
    rcases hk : k - arr.length with _ | j <;> simp

theorem BitVector.add_bit_holds (bv : BitVector) (l : List Bool) (v : Nat)
    (h : BitVector.Holds bv l) (hl : l.length < 255) :
    BitVector.Holds (bv.add_bit v) (decide (v ≠ 0) :: l) := by
  obtain ⟨hnb, _, hal, hlen, hbits, hbytes⟩ := h
  -- the state after the growth step
  have key : ∃ arr1 : List Nat,
      (if bv.nb_bits ≥ (bv.allocated <<< 3) then
        ({ bv with allocated := (bv.allocated + 1) % 256
                   array := BitVector.grow bv.array bv.allocated ((bv.allocated + 1) % 256) }
          : BitVector)
       else bv) = { array := arr1, allocated := arr1.length, nb_bits := l.length }
      ∧ arr1.length = (l.length + 8) / 8
      ∧ (∀ m, BitVector.bit_of arr1 m = l.getD m false)
      ∧ (∀ k, arr1.getD k 0 < 256) := by
    by_cases hg : bv.nb_bits ≥ (bv.allocated <<< 3)
    · rw [if_pos hg]
      rw [shl_eq_mul] at hg
      have ha1 : (bv.allocated + 1) % 256 = bv.allocated + 1 := by omega
      have hgrow : BitVector.grow bv.array bv.allocated ((bv.allocated + 1) % 256)
          = bv.array ++ [0] := by
        rw [ha1]
        unfold BitVector.grow
        rw [List.take_of_length_le (by omega)]
        have : bv.allocated + 1 - bv.allocated = 1 := by omega
        rw [this]; rfl
      refine ⟨bv.array ++ [0], ?_, ?_, ?_, ?_⟩
      · rw [hgrow, ha1]
        simp [hnb, hlen]
      · simp only [List.length_append, List.length_singleton]
        norm_num at hg
        omega
      · intro m; rw [BitVector.bit_of_append_zero]; exact hbits m
      · exact BitVector.getD_append_zero_lt _ hbytes
    · rw [if_neg hg]
      rw [shl_eq_mul] at hg
      refine ⟨bv.array, ?_, ?_, hbits, hbytes⟩
      · cases bv; simp_all
      · norm_num at hg
        omega
  obtain ⟨arr1, he, hlen1, hbits1, hbytes1⟩ := key
  unfold BitVector.add_bit
  simp only []
  rw [he]
  simp only []
  refine ⟨?_, ?_, ?_, ?_, ?_, ?_⟩
  · simp only [List.length_cons]; omega
  · simp only [List.length_cons]; omega
  · simp only [List.length_cons]; omega
  · rw [BitVector.shift_loop_length]
  · intro m
    rw [BitVector.bit_of_shift_loop]
    by_cases hlt : m / 8 < arr1.length
    · rw [if_pos hlt]
      rcases m with _ | m
      · simp
      · rw [if_neg (by omega)]
        simp only [Nat.add_sub_cancel, List.getD_cons_succ]
        exact hbits1 m
    · rw [if_neg hlt]
      symm
      simp only [List.getD_eq_getElem?_getD]
      rw [List.getElem?_eq_none (by simp only [List.length_cons]; omega)]
      rfl
  · intro k
    rw [BitVector.shift_loop_getD _ _ _ (le_refl _)]
    by_cases hk : k < arr1.length
    · rw [if_pos hk]; exact Nat.mod_lt _ (by decide)
    · rw [if_neg hk]; exact hbytes1 k
theorem BitVector.build_append (bs : List Nat) (b : Nat) :
    BitVector.build (bs ++ [b]) = (BitVector.build bs).add_bit b := by
  simp [BitVector.build, List.foldl_append]

theorem BitVector.add_bit_nb_bits (bv : BitVector) (v : Nat) :
    (bv.add_bit v).nb_bits = (bv.nb_bits + 1) % 256 := by
  unfold BitVector.add_bit
  by_cases h : bv.nb_bits ≥ (bv.allocated <<< 3) <;> simp [h]

theorem BitVector.build_nb_bits (bs : List Nat) :
    (BitVector.build bs).nb_bits = bs.length % 256 := by
  induction bs using List.reverseRecOn with
  | nil => rfl
  | append_singleton bs b ih =>
    rw [BitVector.build_append, BitVector.add_bit_nb_bits, ih]
    simp only [List.length_append, List.length_singleton]
    omega

theorem BitVector.build_holds (bs : List Nat) (hlen : bs.length ≤ 255) :
    BitVector.Holds (BitVector.build bs) (bs.reverse.map (fun b => decide (b ≠ 0))) := by
  induction bs using List.reverseRecOn with
  | nil =>
    refine ⟨rfl, by simp, rfl, rfl, ?_, ?_⟩
    · intro m; simp [BitVector.build, BitVector.empty, BitVector.bit_of]
    · intro k; simp [BitVector.build, BitVector.empty]
  | append_singleton bs b ih =>
    simp only [List.length_append, List.length_singleton] at hlen
    rw [BitVector.build_append]
    have h := BitVector.add_bit_holds _ _ b (ih (by omega)) (by simp; omega)
    simpa using h

theorem BitVector.holds_get_nth_bit (bv : BitVector) (l : List Bool)
    (h : BitVector.Holds bv l) (i : Nat) (hi : i < l.length) :
    bv.get_nth_bit i = some (l.getD i false).toNat := by
  obtain ⟨hnb, h255, _, _, hbits, _⟩ := h
  rw [BitVector.get_nth_bit_eq, if_pos (by omega), BitVector.raw_bit_eq _ _ (by omega), hbits]

/-- Claim C1 (amended). For every sequence of at most 255 bits b0 ... b(n-1), the
BitVector built from the empty one by add_bit(b0), ..., add_bit(b(n-1)) has
get_nb_bits() = n, and get_nth_bit(i) returns b(n-1-i) for every i < n. -/
theorem BitVector.round_trip (bs : List Nat) (hlen : bs.length ≤ 255)
    (hbits : ∀ b ∈ bs, b ≤ 1) :
    (BitVector.build bs).get_nb_bits = bs.length
      ∧ ∀ i, i < bs.length →
          (BitVector.build bs).get_nth_bit i = some (bs.getD (bs.length - 1 - i) 0) := by
  have h := BitVector.build_holds bs hlen
  refine ⟨?_, ?_⟩
  · have := h.1
    simpa [BitVector.get_nb_bits] using this
  · intro i hi
    rw [BitVector.holds_get_nth_bit _ _ h i (by simpa using hi)]
    congr 1
    have hi2 : bs.length - 1 - i < bs.length := by omega
    simp only [List.getD_eq_getElem?_getD]
    rw [List.getElem?_map, List.getElem?_reverse hi, List.getElem?_eq_getElem hi2]
    simp only [Option.map_some', Option.getD_some]
    have hb := hbits _ (List.getElem_mem hi2)
    have : bs[bs.length - 1 - i] = 0 ∨ bs[bs.length - 1 - i] = 1 := by omega
    rcases this with h0 | h1
    · rw [h0]; rfl
    · rw [h1]; rfl

theorem BitVector.round_trip_witness :
    (BitVector.build [1, 0, 1, 1]).get_nb_bits = 4
      ∧ (BitVector.build [1, 0, 1, 1]).get_nth_bit 2 = some 0 := by
  have h := BitVector.round_trip [1, 0, 1, 1] (by decide) (by decide)
  exact ⟨h.1, h.2 2 (by decide)⟩

/-- Claim C1 as stated fails: after 256 calls of add_bit the byte nb_bits has wrapped,
get_nb_bits() returns 0 and not 256, and get_nth_bit(0) fails its assertion. -/
theorem BitVector.round_trip_fails_at_256 :
    (List.replicate 256 1).length = 256
      ∧ (BitVector.build (List.replicate 256 1)).get_nb_bits = 0
      ∧ (BitVector.build (List.replicate 256 1)).get_nth_bit 0 = none := by
  have hlen : (List.replicate 256 1).length = 256 := List.length_replicate 256 1
  have h : (BitVector.build (List.replicate 256 1)).nb_bits = 0 := by
    rw [BitVector.build_nb_bits, hlen]
  refine ⟨hlen, h, ?_⟩
  rw [BitVector.get_nth_bit_eq, h]
  rfl
theorem BitVector.cmp_loop_eq (a p : BitVector) (k : Nat) (ha : k ≤ a.nb_bits)
    (hp : k ≤ p.nb_bits) :
    BitVector.cmp_loop a p k = some (BitVector.lex_cmp a.raw_bit p.raw_bit k) := by
  induction k with
  | zero => rfl
  | succ i ih =>
    simp only [BitVector.cmp_loop, BitVector.lex_cmp, BitVector.get_nth_bit_eq]
    rw [if_pos (by omega), if_pos (by omega)]
    simp only []
    rw [ih (by omega) (by omega)]
    split_ifs <;> rfl

theorem BitVector.lex_cmp_range (f g : Nat → Nat) (k : Nat) :
    BitVector.lex_cmp f g k = 1 ∨ BitVector.lex_cmp f g k = -1
      ∨ BitVector.lex_cmp f g k = 0 := by
  induction k with
  | zero => right; right; rfl
  | succ i ih =>
    simp only [BitVector.lex_cmp]
    split_ifs
    · left; rfl
    · right; left; rfl
    · exact ih

theorem BitVector.lex_cmp_antisymm (f g : Nat → Nat) (k : Nat) :
    BitVector.lex_cmp f g k = - BitVector.lex_cmp g f k := by
  induction k with
  | zero => rfl
  | succ i ih =>
    simp only [BitVector.lex_cmp]
    split_ifs <;> omega

theorem BitVector.lex_cmp_eq_zero (f g : Nat → Nat) (k : Nat) :
    BitVector.lex_cmp f g k = 0 ↔ ∀ i, i < k → f i = g i := by
  induction k with
  | zero => simp [BitVector.lex_cmp]
  | succ i ih =>
    simp only [BitVector.lex_cmp]
    constructor
    · intro h j hj
      by_cases h1 : f i > g i
      · rw [if_pos h1] at h; omega
      · rw [if_neg h1] at h
        by_cases h2 : f i < g i
        · rw [if_pos h2] at h; omega
        · rw [if_neg h2] at h
          have hall := ih.1 h
          by_cases hji : j = i
          · subst hji; omega
          · exact hall j (by omega)
    · intro h
      have hi := h i (by omega)
      rw [if_neg (by omega), if_neg (by omega)]
      exact ih.2 (fun j hj => h j (by omega))

theorem BitVector.lex_cmp_highest (f g : Nat → Nat) (k i : Nat) (hi : i < k)
    (hne : f i ≠ g i) (hhigh : ∀ j, i < j → j < k → f j = g j) :
    BitVector.lex_cmp f g k = if f i > g i then 1 else -1 := by
  induction k with
  | zero => omega
  | succ n ih =>
    simp only [BitVector.lex_cmp]
    by_cases hin : i = n
    · subst hin
      by_cases h1 : f i > g i
      · rw [if_pos h1, if_pos h1]
      · rw [if_neg h1, if_neg h1, if_pos (by omega)]
    · have hn := hhigh n (by omega) (by omega)
      rw [if_neg (by omega), if_neg (by omega)]
      exact ih (by omega) (fun j h1 h2 => hhigh j h1 (by omega))

theorem BitVector.lex_cmp_trans (f g h : Nat → Nat) (k : Nat)
    (h1 : BitVector.lex_cmp f g k ≤ 0) (h2 : BitVector.lex_cmp g h k ≤ 0) :
    BitVector.lex_cmp f h k ≤ 0 := by
  induction k with
  | zero => simp [BitVector.lex_cmp]
  | succ i ih =>
    simp only [BitVector.lex_cmp] at h1 h2 ⊢
    by_cases a1 : f i > g i
    · rw [if_pos a1] at h1; omega
    · rw [if_neg a1] at h1
      by_cases b1 : g i > h i
      · rw [if_pos b1] at h2; omega
      · rw [if_neg b1] at h2
        by_cases a2 : f i < g i
        · rw [if_neg (by omega), if_pos (by omega)]; omega
        · rw [if_neg a2] at h1
          by_cases b2 : g i < h i
          · rw [if_neg (by omega), if_pos (by omega)]; omega
          · rw [if_neg b2] at h2
            rw [if_neg (by omega), if_neg (by omega)]
            exact ih h1 h2

theorem BitVector.cmp_eq (a p : BitVector) :
    a.cmp p = some (if a.nb_bits > p.nb_bits then 1
      else if a.nb_bits < p.nb_bits then -1
      else BitVector.lex_cmp a.raw_bit p.raw_bit a.nb_bits) := by
  unfold BitVector.cmp BitVector.get_nb_bits
  by_cases h1 : a.nb_bits > p.nb_bits
  · simp [h1]
  · by_cases h2 : a.nb_bits < p.nb_bits
    · simp [h1, h2]
    · simp only [h1, h2, if_false, if_true, neg_zero, ne_eq, not_true_eq_false]
      exact BitVector.cmp_loop_eq a p a.nb_bits (le_refl _) (by omega)
theorem BitVector.raw_bit_le_one (bv : BitVector) (n : Nat) : bv.raw_bit n ≤ 1 := by
  unfold BitVector.raw_bit; split_ifs <;> omega

theorem BitVector.cmp_props (a b c : BitVector) :
    (a.get_nb_bits > b.get_nb_bits → a.cmp b = some 1)
    ∧ (a.get_nb_bits < b.get_nb_bits → a.cmp b = some (-1))
    ∧ (a.get_nb_bits = b.get_nb_bits →
        ∀ i, i < a.get_nb_bits → a.get_nth_bit i ≠ b.get_nth_bit i →
          (∀ j, i < j → j < a.get_nb_bits → a.get_nth_bit j = b.get_nth_bit j) →
          a.cmp b = some (if a.get_nth_bit i = some 1 then 1 else -1))
    ∧ (a.cmp b = some 0 ↔
        (a.get_nb_bits = b.get_nb_bits
          ∧ ∀ i, i < a.get_nb_bits → a.get_nth_bit i = b.get_nth_bit i))
    ∧ (∃ x y, a.cmp b = some x ∧ b.cmp a = some y ∧ x = -y)
    ∧ (∀ x y, a.cmp b = some x → b.cmp c = some y → x ≤ 0 → y ≤ 0 →
        ∃ z, a.cmp c = some z ∧ z ≤ 0) := by
  simp only [BitVector.get_nb_bits]
  refine ⟨?_, ?_, ?_, ?_, ?_, ?_⟩
  · intro h; rw [BitVector.cmp_eq, if_pos h]
  · intro h; rw [BitVector.cmp_eq, if_neg (by omega), if_pos h]
  · intro hn i hi hne hhigh
    rw [BitVector.cmp_eq, if_neg (by omega), if_neg (by omega)]
    have hne1 : a.raw_bit i ≠ b.raw_bit i := by
      intro he; apply hne
      rw [BitVector.get_nth_bit_eq, BitVector.get_nth_bit_eq, if_pos hi, if_pos (by omega), he]
    have hhigh1 : ∀ j, i < j → j < a.nb_bits → a.raw_bit j = b.raw_bit j := by
      intro j h1 h2
      have := hhigh j h1 h2
      rw [BitVector.get_nth_bit_eq, BitVector.get_nth_bit_eq, if_pos h2, if_pos (by omega)] at this
      exact Option.some.inj this
    rw [BitVector.lex_cmp_highest _ _ _ i hi hne1 hhigh1]
    have ha1 := BitVector.raw_bit_le_one a i
    have hb1 := BitVector.raw_bit_le_one b i
    rw [BitVector.get_nth_bit_eq, if_pos hi]
    by_cases h1 : a.raw_bit i = 1
    · rw [if_pos (by omega), h1, if_pos rfl]
    · rw [if_neg (by omega), if_neg (by intro h; exact h1 (Option.some.inj h))]
  · rw [BitVector.cmp_eq]
    constructor
    · intro h
      have h := Option.some.inj h
      by_cases h1 : a.nb_bits > b.nb_bits
      · rw [if_pos h1] at h; omega
      · rw [if_neg h1] at h
        by_cases h2 : a.nb_bits < b.nb_bits
        · rw [if_pos h2] at h; omega
        · rw [if_neg h2] at h
          refine ⟨by omega, ?_⟩
          intro i hi
          rw [BitVector.get_nth_bit_eq, BitVector.get_nth_bit_eq, if_pos hi, if_pos (by omega),
            (BitVector.lex_cmp_eq_zero _ _ _).1 h i hi]
    · rintro ⟨hn, hall⟩
      rw [if_neg (by omega), if_neg (by omega)]
      congr 1
      apply (BitVector.lex_cmp_eq_zero _ _ _).2
      intro i hi
      have := hall i hi
      rw [BitVector.get_nth_bit_eq, BitVector.get_nth_bit_eq, if_pos hi, if_pos (by omega)] at this
      exact Option.some.inj this
  · refine ⟨_, _, BitVector.cmp_eq a b, BitVector.cmp_eq b a, ?_⟩
    by_cases h1 : a.nb_bits > b.nb_bits
    · rw [if_pos h1, if_neg (by omega), if_pos h1]; simp
    · by_cases h2 : a.nb_bits < b.nb_bits
      · rw [if_neg h1, if_pos h2, if_pos h2]
      · have he : b.nb_bits = a.nb_bits := by omega
        rw [if_neg h1, if_neg h2, if_neg (by omega), if_neg (by omega), he]
        exact BitVector.lex_cmp_antisymm _ _ _
  · intro x y hx hy hx0 hy0
    rw [BitVector.cmp_eq] at hx hy
    have hx := Option.some.inj hx
    have hy := Option.some.inj hy
    subst hx; subst hy
    refine ⟨_, BitVector.cmp_eq a c, ?_⟩
    by_cases a1 : a.nb_bits > b.nb_bits
    · rw [if_pos a1] at hx0; omega
    · rw [if_neg a1] at hx0
      by_cases b1 : b.nb_bits > c.nb_bits
      · rw [if_pos b1] at hy0; omega
      · rw [if_neg b1] at hy0
        by_cases a2 : a.nb_bits < b.nb_bits
        · rw [if_neg (by omega), if_pos (by omega)]; omega
        · rw [if_neg a2] at hx0
          by_cases b2 : b.nb_bits < c.nb_bits
          · rw [if_neg (by omega), if_pos (by omega)]; omega
          · rw [if_neg b2] at hy0
            have e1 : b.nb_bits = a.nb_bits := by omega
            rw [e1] at hy0
            rw [if_neg (by omega), if_neg (by omega)]
            exact BitVector.lex_cmp_trans _ _ _ _ hx0 hy0

/-- Claim C2. BitVector::cmp is a total order keyed first on the bit count and then
on the bits from the highest index down. For all BitVectors a, b, c built by
add_bit: a.cmp(b) is 1 if a has more bits than b and -1 if it has fewer; with
equal bit counts it is decided by the highest index at which the bits differ (1
if the bit of a is 1 there, -1 otherwise); a.cmp(b) = 0 iff a and b have the
same bit count and the same bits; a.cmp(b) = -b.cmp(a); and a.cmp(b) ≤ 0 with
b.cmp(c) ≤ 0 gives a.cmp(c) ≤ 0. The comparison never fails an assertion. -/
theorem BitVector.cmp_total_order (la lb lc : List Nat) :
    ((BitVector.build la).get_nb_bits > (BitVector.build lb).get_nb_bits →
        (BitVector.build la).cmp (BitVector.build lb) = some 1)
    ∧ ((BitVector.build la).get_nb_bits < (BitVector.build lb).get_nb_bits →
        (BitVector.build la).cmp (BitVector.build lb) = some (-1))
    ∧ ((BitVector.build la).get_nb_bits = (BitVector.build lb).get_nb_bits →
        ∀ i, i < (BitVector.build la).get_nb_bits →
          (BitVector.build la).get_nth_bit i ≠ (BitVector.build lb).get_nth_bit i →
          (∀ j, i < j → j < (BitVector.build la).get_nb_bits →
            (BitVector.build la).get_nth_bit j = (BitVector.build lb).get_nth_bit j) →
          (BitVector.build la).cmp (BitVector.build lb)
            = some (if (BitVector.build la).get_nth_bit i = some 1 then 1 else -1))
    ∧ ((BitVector.build la).cmp (BitVector.build lb) = some 0 ↔
        ((BitVector.build la).get_nb_bits = (BitVector.build lb).get_nb_bits
          ∧ ∀ i, i < (BitVector.build la).get_nb_bits →
              (BitVector.build la).get_nth_bit i = (BitVector.build lb).get_nth_bit i))
    ∧ (∃ x y, (BitVector.build la).cmp (BitVector.build lb) = some x
        ∧ (BitVector.build lb).cmp (BitVector.build la) = some y ∧ x = -y)
    ∧ (∀ x y, (BitVector.build la).cmp (BitVector.build lb) = some x →
        (BitVector.build lb).cmp (BitVector.build lc) = some y → x ≤ 0 → y ≤ 0 →
        ∃ z, (BitVector.build la).cmp (BitVector.build lc) = some z ∧ z ≤ 0) :=
  BitVector.cmp_props (BitVector.build la) (BitVector.build lb) (BitVector.build lc)

theorem BitVector.cmp_total_order_witness :
    (BitVector.build [1, 0, 1]).cmp (BitVector.build [1, 1]) = some 1
      ∧ (BitVector.build [1, 1]).cmp (BitVector.build [1, 0, 1]) = some (-1) :=
  ⟨(BitVector.cmp_total_order [1, 0, 1] [1, 1] []).1 (by decide),
   (BitVector.cmp_total_order [1, 1] [1, 0, 1] []).2.1 (by decide)⟩
theorem byte_eq_sum_bits (x : Nat) (hx : x < 256) :
    (∑ j in Finset.range 8, (x.testBit j).toNat * 2 ^ j) = x := by
  simp only [Finset.sum_range_succ, Finset.sum_range_zero, Nat.toNat_testBit]
  norm_num
  omega

/-- Claim C3. BitVector byte view: for every BitVector built from the empty one by n
calls of add_bit, n ≤ 255, get_nb_bytes() is the ceiling of n / 8 and, for every
k below it, get_nth_byte(k) is the sum over j < 8 of bit(8k+j) * 2^j, where
bit(m) is get_nth_bit(m) for m < n and 0 for m ≥ n. -/
theorem BitVector.byte_view (bs : List Nat) (hlen : bs.length ≤ 255) :
    (BitVector.build bs).get_nb_bytes = (bs.length + 7) / 8
      ∧ ∀ k, k < (BitVector.build bs).get_nb_bytes →
          (BitVector.build bs).get_nth_byte k =
            some (∑ j in Finset.range 8,
              (if 8 * k + j < bs.length then
                ((BitVector.build bs).get_nth_bit (8 * k + j)).getD 0 else 0) * 2 ^ j) := by
  have h := BitVector.build_holds bs hlen
  have hnb : (BitVector.build bs).nb_bits = bs.length := by have := h.1; simpa using this
  have hbytes : (BitVector.build bs).get_nb_bytes = (bs.length + 7) / 8 := by
    unfold BitVector.get_nb_bytes
    rw [hnb, shr_eq_div]
    norm_num
    omega
  refine ⟨hbytes, ?_⟩
  intro k hk
  unfold BitVector.get_nth_byte
  rw [if_pos hk]
  congr 1
  obtain ⟨_, _, _, _, hbits, hlt⟩ := h
  rw [← byte_eq_sum_bits _ (hlt k)]
  apply Finset.sum_congr rfl
  intro j hj
  have hj8 : j < 8 := Finset.mem_range.1 hj
  congr 1
  have hb := hbits (8 * k + j)
  unfold BitVector.bit_of at hb
  have e1 : (8 * k + j) / 8 = k := by omega
  have e2 : (8 * k + j) % 8 = j := by omega
  rw [e1, e2] at hb
  rw [hb]
  by_cases hm : 8 * k + j < bs.length
  · rw [if_pos hm, BitVector.holds_get_nth_bit _ _ (BitVector.build_holds bs hlen) _
      (by simpa using hm)]
    rfl
  · rw [if_neg hm]
    simp only [List.getD_eq_getElem?_getD]
    rw [List.getElem?_eq_none (by simp; omega)]
    rfl

theorem BitVector.byte_view_witness :
    (BitVector.build [1, 0, 1, 1, 0, 0, 0, 0, 1, 1]).get_nb_bytes = 2 :=
  (BitVector.byte_view [1, 0, 1, 1, 0, 0, 0, 0, 1, 1] (by decide)).1
/-! ## Band and Rail -/

theorem Rail.rail_learn_some (r : Rail) (d cnt bc : Nat)
    (h : (bc = 1 ∧ cnt = 0) → (d < r.b_short.inf ∨ d > r.b_short.sup)) :
    ∃ r2 cnt2 bc2, Rail.rail_learn r d cnt bc = some (r2, cnt2, bc2) := by
  unfold Rail.rail_learn
  by_cases h1 : bc = 1 ∧ cnt = 0
  · rw [if_pos h1]
    rcases h h1 with h2 | h2
    · rw [if_pos h2]
      simp only []
      split_ifs <;> exact ⟨_, _, _, rfl⟩
    · by_cases h3 : d < r.b_short.inf
      · rw [if_pos h3]
        simp only []
        split_ifs <;> exact ⟨_, _, _, rfl⟩
      · rw [if_neg h3, if_pos h2]
        simp only []
        split_ifs <;> exact ⟨_, _, _, rfl⟩
  · rw [if_neg h1]
    exact ⟨_, _, _, rfl⟩
theorem Band.init_eq (b : Band) (d : Nat) (hd : d < 65536) :
    b.init d = if 64 ≤ d ∧ d ≤ 30000 then
      { inf := d - d / 4, mid := d, sup := d + d / 4, got_it := true }
      else { b with got_it := false } := by
  unfold Band.init
  simp only [BAND_MIN_D, BAND_MAX_D, shr_eq_div, ge_iff_le]
  by_cases h : 64 ≤ d ∧ d ≤ 30000
  · rw [if_pos h, if_pos h]
    have e1 : (d + 65536 - d / 2 ^ 2) % 65536 = d - d / 4 := by norm_num; omega
    have e2 : (d + d / 2 ^ 2) % 65536 = d + d / 4 := by norm_num; omega
    rw [e1, e2]
  · rw [if_neg h, if_neg h]

theorem Band.init_learned (b : Band) (d : Nat) (hd : d < 65536) (h : (b.init d).got_it = true) :
    (b.init d).Learned ∧ (b.init d).mid = d ∧ (b.init d).inf = d - d / 4
      ∧ (b.init d).sup = d + d / 4 ∧ 64 ≤ d ∧ d ≤ 30000 := by
  rw [Band.init_eq b d hd] at h ⊢
  by_cases hr : 64 ≤ d ∧ d ≤ 30000
  · rw [if_pos hr]
    refine ⟨⟨⟨?_, ?_, ?_, ?_⟩, ?_, ?_⟩, rfl, rfl, rfl, hr.1, hr.2⟩ <;> simp only [] <;> omega
  · rw [if_neg hr] at h
    simp at h

theorem Band.init_failed (b : Band) (d : Nat) (h : (b.init d).got_it = false) :
    b.init d = { b with got_it := false } := by
  unfold Band.init at h ⊢
  by_cases hr : d ≥ BAND_MIN_D ∧ d ≤ BAND_MAX_D
  · rw [if_pos hr] at h; simp at h
  · rw [if_neg hr]

theorem Band.tviin_cases (b : Band) (d : Nat) (hd : d < 65536) :
    (b.mid = 0 ∧ (b.test_value_init_if_needed d).got_it = true
        ∧ b.test_value_init_if_needed d
            = { inf := d - d / 4, mid := d, sup := d + d / 4, got_it := true }
        ∧ 64 ≤ d ∧ d ≤ 30000)
    ∨ (b.mid = 0 ∧ b.test_value_init_if_needed d = { b with got_it := false }
        ∧ ¬ (64 ≤ d ∧ d ≤ 30000))
    ∨ (b.mid ≠ 0
        ∧ b.test_value_init_if_needed d = { b with got_it := decide (d ≥ b.inf ∧ d ≤ b.sup) }) := by
  unfold Band.test_value_init_if_needed
  by_cases hm : b.mid = 0
  · rw [if_pos hm, Band.init_eq b d hd]
    by_cases hr : 64 ≤ d ∧ d ≤ 30000
    · left; rw [if_pos hr]; exact ⟨hm, rfl, rfl, hr.1, hr.2⟩
    · right; left; rw [if_neg hr]; exact ⟨hm, rfl, hr⟩
  · right; right; rw [if_neg hm]; exact ⟨hm, rfl⟩

theorem Band.tviin_got_false (b : Band) (d : Nat)
    (hg : (b.test_value_init_if_needed d).got_it = false)
    (hm : (b.test_value_init_if_needed d).mid ≠ 0) :
    d < (b.test_value_init_if_needed d).inf ∨ d > (b.test_value_init_if_needed d).sup := by
  unfold Band.test_value_init_if_needed at hg hm ⊢
  by_cases h0 : b.mid = 0
  · rw [if_pos h0] at hg hm
    rw [Band.init_failed b d hg] at hm
    exact absurd h0 hm
  · rw [if_neg h0] at hg ⊢
    simp only [decide_eq_false_iff_not] at hg
    simp only []
    omega
theorem sub16 (a b : Nat) (hb : b ≤ a) (ha : a < 65536) : (a + 65536 - b) % 65536 = a - b := by
  omega

theorem Rail.rail_adjust_eq (r : Rail)
    (hs : r.b_short.mid ≤ 30000) (hl : r.b_long.mid ≤ 30000) :
    r.rail_adjust =
      { r with
        b_short :=
          { inf := r.b_short.mid / 2 - r.b_short.mid / 8
            mid := r.b_short.mid
            sup := if r.mood = 1 then (r.b_short.mid + r.b_long.mid) / 2 else r.b_short.sup
            got_it := r.b_short.got_it }
        b_long :=
          { inf := if r.mood = 1 then (r.b_short.mid + r.b_long.mid) / 2 + 1 else r.b_long.inf
            mid := r.b_long.mid
            sup := r.b_long.mid + r.b_long.mid / 2 + r.b_long.mid / 8
            got_it := r.b_long.got_it } } := by
  have e1 : ((r.b_short.mid >>> 1) + 65536 - (r.b_short.mid >>> 3)) % 65536
      = r.b_short.mid / 2 - r.b_short.mid / 8 := by
    rw [shr_eq_div, shr_eq_div]; norm_num
    apply sub16 <;> omega
  have e2 : ((r.b_short.mid + r.b_long.mid) % 65536) >>> 1
      = (r.b_short.mid + r.b_long.mid) / 2 := by
    rw [shr_eq_div, Nat.mod_eq_of_lt (by omega)]; norm_num
  have e3 : ((r.b_short.mid + r.b_long.mid) / 2 + 1) % 65536
      = (r.b_short.mid + r.b_long.mid) / 2 + 1 := Nat.mod_eq_of_lt (by omega)
  have e4 : (r.b_long.mid + (r.b_long.mid >>> 1) + (r.b_long.mid >>> 3)) % 65536
      = r.b_long.mid + r.b_long.mid / 2 + r.b_long.mid / 8 := by
    rw [shr_eq_div, shr_eq_div]; norm_num
    omega
  unfold Rail.rail_adjust
  simp only [RAIL_MOOD_LAXIST]
  by_cases hm : r.mood = 1
  · rw [if_pos hm, if_pos hm, if_pos hm]
    simp only []
    rw [e2, e3, e1, e4]
  · rw [if_neg hm, if_neg hm, if_neg hm]
    simp only []
    rw [e1, e4]
theorem shl2_u32 (x : Nat) (hx : x < 65536) : (x <<< 2) % 4294967296 = 4 * x := by
  rw [shl_eq_mul]; norm_num; omega

theorem Rail.rail_adjust_index (r : Rail) : r.rail_adjust.index = r.index := by
  unfold Rail.rail_adjust
  by_cases hm : r.mood = RAIL_MOOD_LAXIST <;> simp only [hm, if_true, if_false]

theorem Rail.rail_learn_cases (r : Rail) (d cnt bc : Nat) (hd : d < 65536)
    (hmid : r.b_short.mid < 65536)
    (hpre : (bc = 1 ∧ cnt = 0) → (d < r.b_short.inf ∨ d > r.b_short.sup)) :
    (Rail.rail_learn r d cnt bc = some (r, cnt, bc)
      ∧ ¬ (bc = 1 ∧ cnt = 0 ∧ 64 ≤ d ∧ d ≤ 30000
            ∧ ((d < r.b_short.inf ∧ r.b_short.mid ≤ 4 * d)
                ∨ (¬ d < r.b_short.inf ∧ d ≤ 4 * r.b_short.mid))))
    ∨ (Rail.rail_learn r d cnt bc
          = some ({ r with b_short := { r.b_short with got_it := false } }, cnt, bc)
        ∧ bc = 1 ∧ cnt = 0 ∧ d < r.b_short.inf ∧ r.b_short.mid ≤ 4 * d
        ∧ ¬ (64 ≤ d ∧ d ≤ 30000))
    ∨ (Rail.rail_learn r d cnt bc
          = some ({ r with b_long := { r.b_long with got_it := false } }, cnt, bc)
        ∧ bc = 1 ∧ cnt = 0 ∧ ¬ d < r.b_short.inf ∧ d > r.b_short.sup
        ∧ d ≤ 4 * r.b_short.mid ∧ ¬ (64 ≤ d ∧ d ≤ 30000))
    ∨ (Rail.rail_learn r d cnt bc
          = some ({ (Rail.rail_adjust { r with b_short :=
                      { inf := d - d / 4, mid := d, sup := d + d / 4, got_it := true } }) with
                    recorded := ((1 <<< r.index) + 65536 - 1) % 65536 }, 1, 2)
        ∧ bc = 1 ∧ cnt = 0 ∧ d < r.b_short.inf ∧ r.b_short.mid ≤ 4 * d
        ∧ 64 ≤ d ∧ d ≤ 30000)
    ∨ (Rail.rail_learn r d cnt bc
          = some (Rail.rail_adjust { r with b_long :=
                      { inf := d - d / 4, mid := d, sup := d + d / 4, got_it := true } }, 1, 2)
        ∧ bc = 1 ∧ cnt = 0 ∧ ¬ d < r.b_short.inf ∧ d > r.b_short.sup
        ∧ d ≤ 4 * r.b_short.mid ∧ 64 ≤ d ∧ d ≤ 30000) := by
  unfold Rail.rail_learn
  by_cases h1 : bc = 1 ∧ cnt = 0
  · rw [if_pos h1]
    have hp := hpre h1
    by_cases h2 : d < r.b_short.inf
    · rw [if_pos h2]
      simp only [shl2_u32 d hd, if_true, ge_iff_le]
      by_cases h3 : r.b_short.mid ≤ 4 * d
      · rw [if_pos h3]
        by_cases h4 : 64 ≤ d ∧ d ≤ 30000
        · right; right; right; left
          have hinit : r.b_short.init d
              = { inf := d - d / 4, mid := d, sup := d + d / 4, got_it := true } := by
            rw [Band.init_eq _ d hd, if_pos h4]
          simp only [hinit, if_true, Rail.rail_adjust_index]
          exact ⟨trivial, h1.1, h1.2, h2, h3, h4.1, h4.2⟩
        · right; left
          have hinit : r.b_short.init d = { r.b_short with got_it := false } := by
            rw [Band.init_eq _ d hd, if_neg h4]
          simp only [hinit]
          exact ⟨by simp, h1.1, h1.2, h2, h3, h4⟩
      · left
        rw [if_neg h3]
        exact ⟨rfl, by omega⟩
    · have h2b : d > r.b_short.sup := by omega
      rw [if_neg h2, if_pos h2b]
      simp only [shl2_u32 _ hmid, ge_iff_le]
      by_cases h3 : d ≤ 4 * r.b_short.mid
      · rw [if_pos h3]
        by_cases h4 : 64 ≤ d ∧ d ≤ 30000
        · right; right; right; right
          have hinit : r.b_long.init d
              = { inf := d - d / 4, mid := d, sup := d + d / 4, got_it := true } := by
            rw [Band.init_eq _ d hd, if_pos h4]
          simp only [hinit]
          exact ⟨by simp, h1.1, h1.2, h2, h2b, h3, h4.1, h4.2⟩
        · right; right; left
          have hinit : r.b_long.init d = { r.b_long with got_it := false } := by
            rw [Band.init_eq _ d hd, if_neg h4]
          simp only [hinit]
          exact ⟨by simp, h1.1, h1.2, h2, h2b, h3, h4⟩
      · left
        rw [if_neg h3]
        exact ⟨rfl, by omega⟩
  · rw [if_neg h1]
    left
    exact ⟨rfl, by omega⟩
theorem Rail.rail_adjust_spec (r : Rail)
    (hs : 64 ≤ r.b_short.mid ∧ r.b_short.mid ≤ 30000 ∧ r.b_short.mid ≤ r.b_short.sup
      ∧ r.b_short.sup ≤ 65535)
    (hl : r.b_long.Learned) (hlt : r.b_short.mid < r.b_long.mid) :
    r.rail_adjust.b_short.Learned ∧ r.rail_adjust.b_long.Learned
      ∧ r.rail_adjust.b_short.mid = r.b_short.mid ∧ r.rail_adjust.b_long.mid = r.b_long.mid
      ∧ r.rail_adjust.b_short.got_it = r.b_short.got_it
      ∧ r.rail_adjust.b_long.got_it = r.b_long.got_it
      ∧ r.rail_adjust.b_sep = r.b_sep ∧ r.rail_adjust.index = r.index
      ∧ r.rail_adjust.status = r.status ∧ r.rail_adjust.mood = r.mood
      ∧ r.rail_adjust.recorded = r.recorded
      ∧ r.rail_adjust.last_bit_recorded = r.last_bit_recorded := by
  obtain ⟨⟨hl1, hl2, hl3, hl4⟩, hl5, hl6⟩ := hl
  obtain ⟨hs1, hs2, hs3, hs4⟩ := hs
  rw [Rail.rail_adjust_eq r hs2 hl6]
  simp only [Band.Learned, Band.Ordered]
  refine ⟨⟨⟨?_, ?_, ?_, ?_⟩, ?_, ?_⟩, ⟨⟨?_, ?_, ?_, ?_⟩, ?_, ?_⟩, trivial, trivial, trivial,
    trivial, trivial, trivial, trivial, trivial, trivial, trivial⟩
  · omega
  · omega
  · split_ifs <;> omega
  · split_ifs <;> omega
  · omega
  · omega
  · split_ifs <;> omega
  · split_ifs <;> omega
  · omega
  · omega
  · omega
  · omega

theorem Rail.paired_after_tests (r : Rail) (d : Nat) (hd : d < 65536) (hp : r.Paired) :
    Rail.Paired { r with b_short := r.b_short.test_value_init_if_needed d
                         b_long := r.b_long.test_value_init_if_needed d } := by
  unfold Rail.Paired at hp ⊢
  simp only []
  rcases hp with ⟨hs, hl⟩ | ⟨hs, hl⟩
  · have hsm : r.b_short.mid = 0 := hs.2.1
    have hlm : r.b_long.mid = 0 := hl.2.1
    rcases Band.tviin_cases r.b_short d hd with ⟨_, _, e1, h1, h2⟩ | ⟨_, e1, h1⟩ | ⟨h, _⟩
    · rcases Band.tviin_cases r.b_long d hd with ⟨_, _, e2, _, _⟩ | ⟨_, _, h3⟩ | ⟨h, _⟩
      · right
        rw [e1, e2]
        simp only [Band.Learned, Band.Ordered]
        omega
      · exact absurd ⟨h1, h2⟩ h3
      · exact absurd hlm h
    · rcases Band.tviin_cases r.b_long d hd with ⟨_, _, _, h3, h4⟩ | ⟨_, e2, _⟩ | ⟨h, _⟩
      · exact absurd ⟨h3, h4⟩ h1
      · left
        rw [e1, e2]
        exact ⟨hs, hl⟩
      · exact absurd hlm h
    · exact absurd hsm h
  · have hsm : r.b_short.mid ≠ 0 := by have := hs.2.1; omega
    have hlm : r.b_long.mid ≠ 0 := by have := hl.2.1; omega
    right
    unfold Band.test_value_init_if_needed
    rw [if_neg hsm, if_neg hlm]
    exact ⟨hs, hl⟩

theorem Rail.rail_learn_props (r : Rail) (d cnt bc : Nat) (hd : d < 65536) (hp : r.Paired)
    (hbc : bc = r.get_band_count)
    (hcnt : cnt = (if r.b_short.got_it then 1 else 0) + (if r.b_long.got_it then 1 else 0))
    (hpre : (bc = 1 ∧ cnt = 0) → (d < r.b_short.inf ∨ d > r.b_short.sup)) :
    ∃ r2 cnt2 bc2, Rail.rail_learn r d cnt bc = some (r2, cnt2, bc2)
      ∧ r2.Paired ∧ r2.b_sep = r.b_sep ∧ r2.index = r.index ∧ r2.status = r.status
      ∧ r2.mood = r.mood
      ∧ (bc2 ≠ 0 → r2.b_short.Learned ∧ r2.b_long.Learned)
      ∧ (¬ (cnt2 = 0 ∨ (bc2 = 2 ∧ cnt2 = 2)) → bc2 = 2 →
          r2.b_short.got_it ≠ r2.b_long.got_it) := by
  have hmid : r.b_short.mid < 65536 := by
    rcases hp with ⟨hs, _⟩ | ⟨hs, _⟩
    · have := hs.2.1; omega
    · have := hs.2.2; omega
  have hlearned : bc ≠ 0 → r.b_short.Learned ∧ r.b_long.Learned := by
    intro h0
    rcases hp with ⟨hs, hl⟩ | h
    · exfalso; apply h0
      rw [hbc]; unfold Rail.get_band_count
      rw [hs.2.1, hl.2.1]; rfl
    · exact h
  have hbc1 : bc = 1 → r.b_short.mid = r.b_long.mid := by
    intro h1
    rw [hbc] at h1
    unfold Rail.get_band_count at h1
    by_contra hne
    rw [if_neg hne] at h1
    omega
  have hgot : ¬ (cnt = 0 ∨ (bc = 2 ∧ cnt = 2)) → bc = 2 →
      r.b_short.got_it ≠ r.b_long.got_it := by
    intro h1 h2
    rw [hcnt] at h1
    cases hs : r.b_short.got_it <;> cases hl : r.b_long.got_it <;> simp_all
  rcases Rail.rail_learn_cases r d cnt bc hd hmid hpre with
    ⟨e, _⟩ | ⟨e, b1, c0, _, _, _⟩ | ⟨e, b1, c0, _, _, _, _⟩ | ⟨e, b1, c0, hlt, _, h64, h30⟩
      | ⟨e, b1, c0, _, hgt, _, h64, h30⟩
  · exact ⟨_, _, _, e, hp, rfl, rfl, rfl, rfl, hlearned, hgot⟩
  · refine ⟨_, _, _, e, ?_, rfl, rfl, rfl, rfl, ?_, ?_⟩
    · exact hp
    · intro h; exact hlearned h
    · intro _ h2; omega
  · refine ⟨_, _, _, e, ?_, rfl, rfl, rfl, rfl, ?_, ?_⟩
    · exact hp
    · intro h; exact hlearned h
    · intro _ h2; omega
  · have hl := hlearned (by omega)
    have hm := hbc1 b1
    have hg : r.b_long.got_it = false := by
      rw [hcnt] at c0
      cases hx : r.b_long.got_it
      · rfl
      · rw [hx] at c0; simp at c0
    have hlo : d < r.b_long.mid := by
      have := hl.1.1.2.1; omega
    have hspec := Rail.rail_adjust_spec
      { r with b_short := { inf := d - d / 4, mid := d, sup := d + d / 4, got_it := true } }
      (by simp only []; omega) hl.2 hlo
    obtain ⟨a1, a2, _, _, a5, a6, a7, a8, a9, a10, _, _⟩ := hspec
    refine ⟨_, _, _, e, Or.inr ⟨a1, a2⟩, a7, a8, a9, a10, fun _ => ⟨a1, a2⟩, ?_⟩
    intro _ _
    simp only [a5, a6, hg]
    decide
  · have hl := hlearned (by omega)
    have hm := hbc1 b1
    have hg : r.b_short.got_it = false := by
      rw [hcnt] at c0
      cases hx : r.b_short.got_it
      · rfl
      · rw [hx] at c0; simp at c0
    have hlo : r.b_short.mid < d := by
      have := hl.1.1.2.2.1; omega
    have hspec := Rail.rail_adjust_spec
      { r with b_long := { inf := d - d / 4, mid := d, sup := d + d / 4, got_it := true } }
      (by have h1 := hl.1.1; have h2 := hl.1.2; simp only []; unfold Band.Ordered at h1; omega)
      (by simp only [Band.Learned, Band.Ordered]; omega) hlo
    obtain ⟨a1, a2, _, _, a5, a6, a7, a8, a9, a10, _, _⟩ := hspec
    refine ⟨_, _, _, e, Or.inr ⟨a1, a2⟩, a7, a8, a9, a10, fun _ => ⟨a1, a2⟩, ?_⟩
    intro _ _
    simp only [a5, a6, hg]
    decide
theorem Band.init_sep_eq (b : Band) (d : Nat) (hd : d < 65536) :
    b.init_sep d = { inf := d / 2 + d / 8, mid := d, sup := 65535, got_it := true } := by
  unfold Band.init_sep
  simp only [RF433ANY_MAX_SEP_DURATION, shr_eq_div]
  have e : (d / 2 ^ 1 + d / 2 ^ 1 / 2 ^ 2) % 65536 = d / 2 + d / 8 := by norm_num; omega
  rw [e]

theorem shl1_u16 (x : Nat) (hx : x ≤ 30000) : (x <<< 1) % 65536 = 2 * x := by
  rw [shl_eq_mul]; norm_num; omega

theorem Rail.rail_sep_props (r : Rail) (d : Nat) (hd : d < 65536)
    (hs : r.b_short.Learned) (hl : r.b_long.Learned) (hsep : r.b_sep.Ok) :
    (Rail.rail_sep r d).b_short = r.b_short ∧ (Rail.rail_sep r d).b_long = r.b_long
      ∧ (Rail.rail_sep r d).index = r.index ∧ (Rail.rail_sep r d).mood = r.mood
      ∧ (Rail.rail_sep r d).recorded = r.recorded
      ∧ (Rail.rail_sep r d).last_bit_recorded = r.last_bit_recorded
      ∧ (Rail.rail_sep r d).b_sep.Ok
      ∧ ((Rail.rail_sep r d).status = RailStatus.RAIL_STP_RCVD
          ∨ (Rail.rail_sep r d).status = RailStatus.RAIL_ERROR)
      ∧ ((Rail.rail_sep r d).status = RailStatus.RAIL_STP_RCVD → 0 < d) := by
  have hs64 := hs.2.1
  have hs30 := hs.2.2
  have hl30 := hl.2.2
  -- the rail after the optional init_sep
  have key : ∃ r1 : Rail,
      (if r.b_sep.mid = 0 then
        (if d ≥ (r.b_short.mid <<< 1) % 65536 ∧ d ≥ (r.b_long.mid <<< 1) % 65536 then
          { r with b_sep := r.b_sep.init_sep d } else r)
       else r) = r1
      ∧ r1.b_short = r.b_short ∧ r1.b_long = r.b_long ∧ r1.index = r.index
      ∧ r1.mood = r.mood ∧ r1.recorded = r.recorded
      ∧ r1.last_bit_recorded = r.last_bit_recorded ∧ r1.b_sep.Ok := by
    by_cases h0 : r.b_sep.mid = 0
    · rw [if_pos h0, shl1_u16 _ hs30, shl1_u16 _ hl30]
      by_cases hc : d ≥ 2 * r.b_short.mid ∧ d ≥ 2 * r.b_long.mid
      · rw [if_pos hc]
        refine ⟨_, rfl, rfl, rfl, rfl, rfl, rfl, rfl, ?_⟩
        right
        rw [Band.init_sep_eq _ d hd]
        simp only [Band.Ordered]
        omega
      · rw [if_neg hc]
        exact ⟨_, rfl, rfl, rfl, rfl, rfl, rfl, rfl, hsep⟩
    · rw [if_neg h0]
      exact ⟨_, rfl, rfl, rfl, rfl, rfl, rfl, rfl, hsep⟩
  obtain ⟨r1, e, k1, k2, k3, k4, k5, k6, k7⟩ := key
  unfold Rail.rail_sep
  simp only []
  rw [e]
  unfold Band.test_value
  by_cases hm : r1.b_sep.mid = 0
  · simp only [if_pos hm]
    refine ⟨k1, k2, k3, k4, k5, k6, ?_, ?_, ?_⟩
    · exact k7
    · right; simp
    · intro h; simp at h
  · simp only [if_neg hm]
    refine ⟨k1, k2, k3, k4, k5, k6, ?_, ?_, ?_⟩
    · exact k7
    · by_cases hg : d ≥ r1.b_sep.inf ∧ d ≤ r1.b_sep.sup
      · left; simp [hg]
      · right; simp [hg]
    · intro h
      by_cases hg : d ≥ r1.b_sep.inf ∧ d ≤ r1.b_sep.sup
      · rcases k7 with hz | ho
        · exact absurd hz.2.1 hm
        · have := ho.1; omega
      · simp [hg] at h

theorem Rail.rail_bit_props (r : Rail) (bc : Nat)
    (hgot : bc = 2 → r.b_short.got_it ≠ r.b_long.got_it) (hidx : r.index < 16) :
    ∃ r3, Rail.rail_bit r bc = some r3
      ∧ r3.b_short = r.b_short ∧ r3.b_long = r.b_long ∧ r3.b_sep = r.b_sep
      ∧ r3.mood = r.mood ∧ r3.index = r.index + 1
      ∧ r3.status = (if r.index + 1 = 16 then RailStatus.RAIL_FULL else r.status) := by
  have hi : (r.index + 1) % 256 = r.index + 1 := by omega
  unfold Rail.rail_bit
  by_cases h2 : bc = 2
  · rw [if_pos h2, if_neg (hgot h2)]
    simp only [hi, BITS_PER_RECORD]
    exact ⟨_, rfl, rfl, rfl, rfl, rfl, rfl, rfl⟩
  · rw [if_neg h2]
    simp only [hi, BITS_PER_RECORD]
    exact ⟨_, rfl, rfl, rfl, rfl, rfl, rfl, rfl⟩
theorem Rail.rail_eat_not_open (r : Rail) (d : Nat) (h : r.status ≠ RailStatus.RAIL_OPEN) :
    r.rail_eat d = some (r, false) := by
  unfold Rail.rail_eat
  rw [if_pos h]

theorem Rail.rail_eat_open (r : Rail) (d : Nat) (hd : d < 65536) (hinv : r.Inv)
    (hopen : r.status = RailStatus.RAIL_OPEN) :
    ∃ r1, r.rail_eat d = some (r1, decide (r1.status = RailStatus.RAIL_OPEN))
      ∧ r1.Inv ∧ r1.mood = r.mood
      ∧ r1.status ≠ RailStatus.RAIL_CLOSED
      ∧ (r1.status = RailStatus.RAIL_STP_RCVD → 0 < d)
      ∧ (r1.index = r.index ∨ r1.index = r.index + 1) := by
  obtain ⟨hp, hsep, hidx, hfull⟩ := hinv
  simp only [BITS_PER_RECORD] at hidx hfull
  have hne16 : r.index ≠ 16 := by
    intro h; have := hfull.2 h; rw [hopen] at this; exact absurd this (by decide)
  have hpre : (Rail.get_band_count
        { r with b_short := r.b_short.test_value_init_if_needed d
                 b_long := r.b_long.test_value_init_if_needed d } = 1
      ∧ (if (r.b_short.test_value_init_if_needed d).got_it then 1 else 0)
          + (if (r.b_long.test_value_init_if_needed d).got_it then 1 else 0) = 0) →
      (d < (r.b_short.test_value_init_if_needed d).inf
        ∨ d > (r.b_short.test_value_init_if_needed d).sup) := by
    rintro ⟨h1, h2⟩
    apply Band.tviin_got_false
    · cases hg : (r.b_short.test_value_init_if_needed d).got_it
      · rfl
      · rw [hg] at h2; simp at h2
    · unfold Rail.get_band_count at h1
      simp only [] at h1
      intro h0
      rw [h0] at h1
      split_ifs at h1 with h3 h4
      · exact h4 rfl
      · omega
  obtain ⟨r2, cnt2, bc2, e, p1, p2, p3, p4, p5, p6, p7⟩ :=
    Rail.rail_learn_props
      { r with b_short := r.b_short.test_value_init_if_needed d
               b_long := r.b_long.test_value_init_if_needed d } d _ _ hd
      (Rail.paired_after_tests r d hd hp) rfl rfl hpre
  simp only [] at p2 p3 p4 p5
  unfold Rail.rail_eat
  rw [if_neg (not_not.2 hopen)]
  simp only []
  rw [e]
  simp only []
  by_cases hb0 : bc2 = 0
  · rw [if_pos hb0]
    refine ⟨_, rfl, ⟨p1, ?_, ?_, ?_⟩, p5, by simp, by simp, Or.inl p3⟩
    · simp only []; rw [p2]; exact hsep
    · simp only [BITS_PER_RECORD]; omega
    · simp only [BITS_PER_RECORD]
      constructor
      · intro h; exact absurd h (by decide)
      · intro h; omega
  · rw [if_neg hb0]
    obtain ⟨l1, l2⟩ := p6 hb0
    by_cases hs : cnt2 = 0 ∨ (bc2 = 2 ∧ cnt2 = 2)
    · rw [if_pos hs]
      obtain ⟨s1, s2, s3, s4, _, _, s7, s8, s9⟩ :=
        Rail.rail_sep_props r2 d hd l1 l2 (by rw [p2]; exact hsep)
      refine ⟨_, rfl, ⟨?_, s7, ?_, ?_⟩, by rw [s4, p5], ?_, s9, Or.inl (by rw [s3, p3])⟩
      · unfold Rail.Paired; rw [s1, s2]; exact Or.inr ⟨l1, l2⟩
      · simp only [BITS_PER_RECORD]; omega
      · simp only [BITS_PER_RECORD]
        constructor
        · intro h; rcases s8 with h1 | h1 <;> rw [h1] at h <;> exact absurd h (by decide)
        · intro h; omega
      · rcases s8 with h1 | h1 <;> rw [h1] <;> decide
    · rw [if_neg hs]
      obtain ⟨r3, e3, b1, b2, b3, b4, b5, b6⟩ :=
        Rail.rail_bit_props r2 bc2 (p7 hs) (by omega)
      rw [e3]
      simp only []
      refine ⟨_, rfl, ⟨?_, ?_, ?_, ?_⟩, by rw [b4, p5], ?_, ?_, Or.inr (by rw [b5, p3])⟩
      · unfold Rail.Paired; rw [b1, b2]; exact Or.inr ⟨l1, l2⟩
      · rw [b3, p2]; exact hsep
      · simp only [BITS_PER_RECORD]; omega
      · simp only [BITS_PER_RECORD]
        rw [b6, b5, p4, hopen]
        constructor
        · intro h; split_ifs at h with h1; omega
        · intro h; rw [if_pos h]
      · rw [b6, p4, hopen]; split_ifs <;> decide
      · rw [b6, p4, hopen]; split_ifs <;> intro h <;> exact absurd h (by decide)
theorem Rail.rail_reachable_inv (r : Rail) (h : Rail.Reachable r) : r.Inv := by
  induction h with
  | construct g m =>
    refine ⟨Or.inl ⟨⟨rfl, rfl, rfl⟩, ⟨rfl, rfl, rfl⟩⟩, Or.inl ⟨rfl, rfl, rfl⟩, ?_, ?_⟩
    · simp [Rail.construct, Rail.rreset, Rail.rreset_soft, BITS_PER_RECORD]
    · simp [Rail.construct, Rail.rreset, Rail.rreset_soft, BITS_PER_RECORD]
  | eat r d r1 b _ hd he ih =>
    by_cases ho : r.status = RailStatus.RAIL_OPEN
    · obtain ⟨r2, e2, hinv, _⟩ := Rail.rail_eat_open r d hd ih ho
      rw [e2] at he
      have := (Prod.mk.inj (Option.some.inj he)).1
      rw [← this]; exact hinv
    · rw [Rail.rail_eat_not_open r d ho] at he
      have := (Prod.mk.inj (Option.some.inj he)).1
      rw [← this]; exact ih
  | soft r _ ih =>
    obtain ⟨hp, hsep, _, _⟩ := ih
    refine ⟨hp, hsep, ?_, ?_⟩
    · simp [Rail.rreset_soft, BITS_PER_RECORD]
    · simp [Rail.rreset_soft, BITS_PER_RECORD]
  | hard r _ _ =>
    refine ⟨Or.inl ⟨⟨rfl, rfl, rfl⟩, ⟨rfl, rfl, rfl⟩⟩, Or.inl ⟨rfl, rfl, rfl⟩, ?_, ?_⟩
    · simp [Rail.rreset, Rail.rreset_soft, BITS_PER_RECORD]
    · simp [Rail.rreset, Rail.rreset_soft, BITS_PER_RECORD]
  | close r _ ho ih =>
    obtain ⟨hp, hsep, hidx, hfull⟩ := ih
    refine ⟨hp, hsep, hidx, ?_⟩
    simp only []
    constructor
    · intro h; exact absurd h (by decide)
    · intro h; have := hfull.2 h; rw [ho] at this; exact absurd this (by decide)

theorem Band.ok_of_learned (b : Band) (h : b.Learned) : b.Ok := Or.inr h.1

/-- Claim C6. Band invariant: for each of the three bands (b_short, b_long, b_sep) of
every Rail reachable from construction through any sequence of rail_eat,
rreset_soft and rreset calls (and of promotions to RAIL_CLOSED by Track), in
either mood, either inf = mid = sup = 0 or 0 < inf ≤ mid ≤ sup ≤ 65535. -/
theorem Rail.band_invariant (r : Rail) (h : Rail.Reachable r) :
    ((r.b_short.inf = 0 ∧ r.b_short.mid = 0 ∧ r.b_short.sup = 0)
      ∨ (0 < r.b_short.inf ∧ r.b_short.inf ≤ r.b_short.mid ∧ r.b_short.mid ≤ r.b_short.sup
          ∧ r.b_short.sup ≤ 65535))
    ∧ ((r.b_long.inf = 0 ∧ r.b_long.mid = 0 ∧ r.b_long.sup = 0)
      ∨ (0 < r.b_long.inf ∧ r.b_long.inf ≤ r.b_long.mid ∧ r.b_long.mid ≤ r.b_long.sup
          ∧ r.b_long.sup ≤ 65535))
    ∧ ((r.b_sep.inf = 0 ∧ r.b_sep.mid = 0 ∧ r.b_sep.sup = 0)
      ∨ (0 < r.b_sep.inf ∧ r.b_sep.inf ≤ r.b_sep.mid ∧ r.b_sep.mid ≤ r.b_sep.sup
          ∧ r.b_sep.sup ≤ 65535)) := by
  obtain ⟨hp, hsep, _, _⟩ := Rail.rail_reachable_inv r h
  refine ⟨?_, ?_, hsep⟩
  · rcases hp with ⟨hs, _⟩ | ⟨hs, _⟩
    · exact Or.inl hs
    · exact Or.inr hs.1
  · rcases hp with ⟨_, hl⟩ | ⟨_, hl⟩
    · exact Or.inl hl
    · exact Or.inr hl.1

/-- Claim C7. Rail index bound: in every Rail state reachable from construction
through rail_eat, rreset_soft and rreset (and promotions to RAIL_CLOSED by
Track), index ≤ BITS_PER_RECORD = 16 and status is RAIL_FULL exactly when index
is 16; every call rail_eat(d) returns, it leaves the rail with status RAIL_FULL
and not so before exactly when it leaves index at 16 and not so before, and on
a rail that is RAIL_FULL it changes nothing and returns false. -/
theorem Rail.index_bound (r : Rail) (h : Rail.Reachable r) :
    r.index ≤ BITS_PER_RECORD
      ∧ (r.status = RailStatus.RAIL_FULL ↔ r.index = BITS_PER_RECORD)
      ∧ ∀ d, d < 65536 →
          ∃ r1 b, r.rail_eat d = some (r1, b)
            ∧ r1.index ≤ BITS_PER_RECORD
            ∧ ((r1.status = RailStatus.RAIL_FULL ∧ r.status ≠ RailStatus.RAIL_FULL)
                ↔ (r1.index = BITS_PER_RECORD ∧ r.index ≠ BITS_PER_RECORD))
            ∧ (r.status = RailStatus.RAIL_FULL → r1 = r ∧ b = false) := by
  have hinv := Rail.rail_reachable_inv r h
  refine ⟨hinv.2.2.1, hinv.2.2.2, ?_⟩
  intro d hd
  by_cases ho : r.status = RailStatus.RAIL_OPEN
  · obtain ⟨r1, e1, hinv1, _⟩ := Rail.rail_eat_open r d hd hinv ho
    refine ⟨r1, _, e1, hinv1.2.2.1, ?_, ?_⟩
    · rw [ne_eq, ne_eq, hinv1.2.2.2, hinv.2.2.2]
    · intro hf; rw [ho] at hf; exact absurd hf (by decide)
  · refine ⟨r, false, Rail.rail_eat_not_open r d ho, hinv.2.2.1, ?_, fun _ => ⟨rfl, rfl⟩⟩
    rw [ne_eq, ne_eq, hinv.2.2.2]

theorem Rail.band_invariant_witness :
    ∃ r1, (Rail.construct Rail.zeroed RAIL_MOOD_LAXIST).rail_eat 620 = some (r1, true)
      ∧ 0 < r1.b_short.inf ∧ r1.b_short.inf ≤ r1.b_short.mid
      ∧ r1.b_short.mid ≤ r1.b_short.sup ∧ r1.b_short.sup ≤ 65535 := by
  have he : (Rail.construct Rail.zeroed RAIL_MOOD_LAXIST).rail_eat 620
      = some ({ b_short := { inf := 465, mid := 620, sup := 775, got_it := true }
                b_long := { inf := 465, mid := 620, sup := 775, got_it := true }
                b_sep := Band.zeroed, last_bit_recorded := 0, recorded := 0
                status := RailStatus.RAIL_OPEN, index := 1, mood := 1 }, true) := by decide
  have hr := Rail.Reachable.eat _ 620 _ _
    (Rail.Reachable.construct Rail.zeroed RAIL_MOOD_LAXIST) (by decide) he
  rcases (Rail.band_invariant _ hr).1 with h | h
  · exact absurd h.2.1 (by decide)
  · exact ⟨_, he, h⟩

theorem Rail.index_bound_witness :
    ∃ r1, (Rail.construct Rail.zeroed RAIL_MOOD_LAXIST).rail_eat 620 = some (r1, true)
      ∧ r1.index ≤ 16 := by
  have he : (Rail.construct Rail.zeroed RAIL_MOOD_LAXIST).rail_eat 620
      = some ({ b_short := { inf := 465, mid := 620, sup := 775, got_it := true }
                b_long := { inf := 465, mid := 620, sup := 775, got_it := true }
                b_sep := Band.zeroed, last_bit_recorded := 0, recorded := 0
                status := RailStatus.RAIL_OPEN, index := 1, mood := 1 }, true) := by decide
  have hr := Rail.Reachable.eat _ 620 _ _
    (Rail.Reachable.construct Rail.zeroed RAIL_MOOD_LAXIST) (by decide) he
  exact ⟨_, he, (Rail.index_bound _ hr).1⟩
/-! ## Track -/

theorem Rail.inv_rreset (r : Rail) : r.rreset.Inv := by
  refine ⟨Or.inl ⟨⟨rfl, rfl, rfl⟩, ⟨rfl, rfl, rfl⟩⟩, Or.inl ⟨rfl, rfl, rfl⟩, ?_, ?_⟩
  · simp [Rail.rreset, Rail.rreset_soft, BITS_PER_RECORD]
  · simp [Rail.rreset, Rail.rreset_soft, BITS_PER_RECORD]

theorem Rail.inv_rreset_soft (r : Rail) (h : r.Inv) : r.rreset_soft.Inv := by
  obtain ⟨hp, hsep, _, _⟩ := h
  refine ⟨hp, hsep, ?_, ?_⟩
  · simp [Rail.rreset_soft, BITS_PER_RECORD]
  · simp [Rail.rreset_soft, BITS_PER_RECORD]

theorem Rail.inv_promote (r : Rail) (h : r.Inv) :
    Rail.Inv (if r.status = RailStatus.RAIL_OPEN then
      { r with status := RailStatus.RAIL_CLOSED } else r) := by
  by_cases ho : r.status = RailStatus.RAIL_OPEN
  · rw [if_pos ho]
    obtain ⟨hp, hsep, hidx, hfull⟩ := h
    refine ⟨hp, hsep, hidx, ?_⟩
    simp only []
    constructor
    · intro h; exact absurd h (by decide)
    · intro h; have := hfull.2 h; rw [ho] at this; exact absurd this (by decide)
  · rw [if_neg ho]; exact h

theorem Rail.inv_flags (r : Rail) (g1 g2 : Bool) (h : r.Inv) :
    Rail.Inv { r with b_short := { r.b_short with got_it := g1 }
                      b_long := { r.b_long with got_it := g2 } } := h

theorem Band.test_value_eq (b : Band) (d : Nat) :
    ∃ g, b.test_value d = { b with got_it := g } := by
  unfold Band.test_value
  split_ifs <;> exact ⟨_, rfl⟩

theorem Track.same_timings_eq (lo hi : Rail) :
    ∃ g1 g2, (Track.same_timings lo hi).1
      = { lo with b_short := { lo.b_short with got_it := g1 }
                  b_long := { lo.b_long with got_it := g2 } } := by
  unfold Track.same_timings
  simp only []
  obtain ⟨a1, h1⟩ := Band.test_value_eq lo.b_short hi.b_short.mid
  rw [h1]
  obtain ⟨a2, h2⟩ := Band.test_value_eq { lo.b_short with got_it := a1 } hi.b_long.mid
  rw [h2]
  obtain ⟨a3, h3⟩ := Band.test_value_eq lo.b_long hi.b_short.mid
  rw [h3]
  obtain ⟨a4, h4⟩ := Band.test_value_eq { lo.b_long with got_it := a3 } hi.b_long.mid
  rw [h4]
  simp only []
  cases a1 <;> cases a2 <;> cases a3 <;> simp only [Bool.not_true, Bool.not_false, if_true,
    if_false, Bool.false_eq_true] <;> exact ⟨_, _, rfl⟩

theorem Track.wait_step (t : Track) (r d fuel : Nat) (ht : t.trk = trk_t.TRK_WAIT)
    (hlo : t.r_low.Inv) (hhi : t.r_high.Inv) (hnb : t.rawcode.nb_sections = 0) :
    ∃ t1, Track.track_eat (fuel + 1) t r d = Except.ok t1 ∧ t1.Inv := by
  unfold Track.track_eat
  rw [if_pos ht]
  by_cases h : r = 1 ∧ d ≥ TRACK_MIN_INITSEQ_DURATION
  · rw [if_pos h]
    refine ⟨_, rfl, Rail.inv_rreset _, Rail.inv_rreset _, ?_, ?_, ?_, ?_⟩
    · simp [Track.reset_border_mgmt, hnb]
    · intro h; simp at h
    · intro _
      simp [Track.reset_border_mgmt, hnb, RF433ANY_MAX_SECTIONS, Rail.rreset, Rail.rreset_soft]
    · intro i hi
      simp [Track.reset_border_mgmt, hnb] at hi
  · rw [if_neg h]
    refine ⟨t, rfl, hlo, hhi, ?_, fun _ => hnb, ?_, ?_⟩
    · rw [hnb]; simp
    · intro h2; rw [ht] at h2; exact absurd h2 (by decide)
    · intro i hi; rw [hnb] at hi; omega
theorem Track.section_sts_sep (lo hi : Rail)
    (h : Track.section_sts lo hi = section_term_status_t.STS_SHORT_SEP
      ∨ Track.section_sts lo hi = section_term_status_t.STS_LONG_SEP
      ∨ Track.section_sts lo hi = section_term_status_t.STS_SEP_SEP) :
    hi.status = RailStatus.RAIL_STP_RCVD := by
  unfold Track.section_sts at h
  by_cases h1 : lo.status = RailStatus.RAIL_FULL ∧ hi.status = RailStatus.RAIL_FULL
  · rw [if_pos h1] at h
    rcases h with h | h | h <;> exact absurd h (by decide)
  · rw [if_neg h1] at h
    by_cases h2 : hi.status = RailStatus.RAIL_STP_RCVD
    · exact h2
    · rw [if_neg h2] at h
      rcases h with h | h | h <;> exact absurd h (by decide)

theorem Track.make_section_sts (t : Track) (lo : Rail) (shared : Bool)
    (sts : section_term_status_t) (d : Nat) :
    (Track.make_section t lo shared sts d).sts = sts := rfl

theorem Track.make_section_sep (t : Track) (lo : Rail) (shared : Bool)
    (sts : section_term_status_t) (d : Nat) :
    (Track.make_section t lo shared sts d).ts.sep =
      if sts = section_term_status_t.STS_SHORT_SEP ∨ sts = section_term_status_t.STS_LONG_SEP
        ∨ sts = section_term_status_t.STS_SEP_SEP then d else 0 := by
  unfold Track.make_section
  cases shared <;> rfl

theorem Track.make_section_sep_ok (t : Track) (lo : Rail) (shared : Bool)
    (sts : section_term_status_t) (d : Nat)
    (hd : (sts = section_term_status_t.STS_SHORT_SEP ∨ sts = section_term_status_t.STS_LONG_SEP
        ∨ sts = section_term_status_t.STS_SEP_SEP) → 0 < d) :
    (Track.make_section t lo shared sts d).SepOk := by
  unfold Section.SepOk
  rw [Track.make_section_sts, Track.make_section_sep]
  constructor
  · intro h; rw [if_pos h]; exact hd h
  · intro h; rw [if_neg (by rw [h]; decide)]

theorem Track.close_step (recurse : Track → Nat → Nat → Except Fault Track)
    (t0 : Track) (r d : Nat)
    (hlo : t0.r_low.Inv) (hhi : t0.r_high.Inv)
    (hnb : t0.rawcode.nb_sections < RF433ANY_MAX_SECTIONS)
    (hsec : ∀ i, i < t0.rawcode.nb_sections → (t0.rawcode.sections i).SepOk)
    (hd : t0.r_high.status = RailStatus.RAIL_STP_RCVD → 0 < d)
    (P : Except Fault Track → Prop) (hok : ∀ t1 : Track, t1.Inv → P (Except.ok t1))
    (hrec : ∀ t1 : Track, t1.trk = trk_t.TRK_WAIT → t1.r_low.Inv → t1.r_high.Inv →
      t1.rawcode.nb_sections = 0 → P (recurse t1 r d)) :
    P (Track.close_section recurse t0 r d) := by
  have hloP := Rail.inv_promote _ hlo
  have hhiP := Rail.inv_promote _ hhi
  have hstp : (if t0.r_high.status = RailStatus.RAIL_OPEN then
      ({ t0.r_high with status := RailStatus.RAIL_CLOSED } : Rail) else t0.r_high).status
        = RailStatus.RAIL_STP_RCVD → 0 < d := by
    by_cases ho : t0.r_high.status = RailStatus.RAIL_OPEN
    · rw [if_pos ho]; intro h; simp at h
    · rw [if_neg ho]; exact hd
  unfold Track.close_section
  simp only []
  generalize (if t0.r_low.status = RailStatus.RAIL_OPEN then
      ({ t0.r_low with status := RailStatus.RAIL_CLOSED } : Rail) else t0.r_low) = lo at hloP ⊢
  generalize (if t0.r_high.status = RailStatus.RAIL_OPEN then
      ({ t0.r_high with status := RailStatus.RAIL_CLOSED } : Rail) else t0.r_high) = hi
        at hhiP hstp ⊢
  have hsts := Track.section_sts_sep lo hi
  generalize Track.section_sts lo hi = sts at hsts ⊢
  simp only [RF433ANY_MAX_SECTIONS] at hnb ⊢
  rw [if_neg (by omega)]
  generalize (if decide (lo.index < TRACK_MIN_BITS ∨ hi.index < TRACK_MIN_BITS) = true then
      decide (sts ≠ section_term_status_t.STS_ERROR ∧ t0.rawcode.nb_sections ≠ 0
        ∧ (t0.rawcode.sections (t0.rawcode.nb_sections - 1)).sts
            = section_term_status_t.STS_CONTINUED)
      else decide (sts ≠ section_term_status_t.STS_ERROR)) = rcs
  have hnb1 : (t0.rawcode.nb_sections + 1) % 256 = t0.rawcode.nb_sections + 1 := by omega
  obtain ⟨g1, g2, hst⟩ := Track.same_timings_eq lo hi
  have hloS : (Track.same_timings lo hi).1.Inv := by
    rw [hst]; exact Rail.inv_flags lo g1 g2 hloP
  have hsecs : ∀ (tt : Track) (i : Nat), i < t0.rawcode.nb_sections + 1 →
      (if i = t0.rawcode.nb_sections then
        Track.make_section tt (Track.same_timings lo hi).1 (Track.same_timings lo hi).2 sts d
       else t0.rawcode.sections i).SepOk := by
    intro tt i hi
    by_cases hin : i = t0.rawcode.nb_sections
    · rw [if_pos hin]
      exact Track.make_section_sep_ok _ _ _ _ _ (fun h => hstp (hsts h))
    · rw [if_neg hin]; exact hsec i (by omega)
  cases rcs
  · -- the section is not recorded
    rw [if_neg (by decide)]
    by_cases h0 : t0.rawcode.nb_sections ≠ 0
    · rw [if_pos h0]
      apply hok
      refine ⟨hloP, hhiP, ?_, ?_, ?_, hsec⟩
      · simp only [RF433ANY_MAX_SECTIONS]; omega
      · intro h; simp at h
      · intro h; simp at h
    · rw [if_neg h0]
      exact hrec _ rfl hloP hhiP rfl
  · -- the section is recorded
    rw [if_pos rfl, if_neg (by omega), hnb1]
    by_cases h8 : t0.rawcode.nb_sections + 1 = 8
    · rw [if_pos h8, if_neg (by decide)]
      apply hok
      refine ⟨hloS, hhiP, ?_, ?_, ?_, ?_⟩
      · simp only [RF433ANY_MAX_SECTIONS]; omega
      · intro h; simp at h
      · intro h; simp at h
      · exact hsecs _
    · rw [if_neg h8, if_pos rfl]
      by_cases hc : sts ≠ section_term_status_t.STS_CONTINUED
      · rw [if_pos hc]
        apply hok
        refine ⟨Rail.inv_rreset_soft _ hloS, Rail.inv_rreset_soft _ hhiP, ?_, ?_, ?_, ?_⟩
        · simp only [Track.reset_border_mgmt, RF433ANY_MAX_SECTIONS]; omega
        · intro h; simp [Track.reset_border_mgmt] at h
        · intro _
          simp only [Track.reset_border_mgmt, RF433ANY_MAX_SECTIONS, Rail.rreset_soft]
          exact ⟨by omega, trivial⟩
        · exact hsecs _
      · rw [if_neg hc]
        apply hok
        refine ⟨Rail.inv_rreset_soft _ hloS, Rail.inv_rreset_soft _ hhiP, ?_, ?_, ?_, ?_⟩
        · simp only [RF433ANY_MAX_SECTIONS]; omega
        · intro h; simp at h
        · intro _
          simp only [RF433ANY_MAX_SECTIONS, Rail.rreset_soft]
          exact ⟨by omega, trivial⟩
        · exact hsecs _
theorem Track.eat_edge_cases (t : Track) (prail : Rail) (enforce0 : Bool) (d : Nat)
    (hd : d < 65536) (hinv : prail.Inv) (hopen : prail.status = RailStatus.RAIL_OPEN) :
    Track.eat_edge t prail enforce0 d = some (prail, true, false)
    ∨ ∃ p, Track.eat_edge t prail enforce0 d
          = some (p, false, decide (p.status = RailStatus.RAIL_OPEN))
        ∧ p.Inv ∧ (p.status = RailStatus.RAIL_STP_RCVD → 0 < d)
        ∧ prail.rail_eat d = some (p, decide (p.status = RailStatus.RAIL_OPEN)) := by
  unfold Track.eat_edge
  by_cases h1 : (d < BAND_MIN_D ∨ d ≥ t.rawcode.max_code_d) ∧ t.count < TRACK_MIN_BITS
  · left; rw [if_pos h1]
  · rw [if_neg h1]
    by_cases h2 : Int.natAbs ((t.r_low.index : Int) - (t.r_high.index : Int)) ≥ 2
    · left; rw [if_pos h2]
    · rw [if_neg h2]
      cases enforce0
      · right
        obtain ⟨p, e, hp, _, _, hstp, _⟩ := Rail.rail_eat_open prail d hd hinv hopen
        refine ⟨p, ?_, hp, hstp, e⟩
        simp only [Bool.not_false, if_true]
        rw [e]
      · left
        simp

theorem Track.recv_step (recurse : Track → Nat → Nat → Except Fault Track)
    (t : Track) (r d : Nat) (hinv : t.Inv) (ht : t.trk = trk_t.TRK_RECV) (hr : r ≤ 1)
    (hd : d < 65536)
    (P : Except Fault Track → Prop) (hok : ∀ t1 : Track, t1.Inv → P (Except.ok t1))
    (hrec : ∀ (t1 : Track) (r1 : Nat), t1.trk = trk_t.TRK_WAIT → t1.r_low.Inv → t1.r_high.Inv →
      t1.rawcode.nb_sections = 0 → P (recurse t1 r1 d)) :
    P (Track.track_eat_recv recurse t r d) := by
  obtain ⟨hlo, hhi, hnb, hwait, hrecv, hsec⟩ := hinv
  obtain ⟨hnb8, hhopen⟩ := hrecv ht
  unfold Track.track_eat_recv
  simp only []
  by_cases hc1 : (t.count + 1) % 256 = 1
  · rw [if_pos hc1]
    split_ifs
    · exact hrec _ _ rfl hlo hhi rfl
    · exact hok _ ⟨hlo, hhi, hnb, hwait, fun _ => ⟨hnb8, hhopen⟩, hsec⟩
  · rw [if_neg hc1]
    by_cases hc2 : (t.count + 1) % 256 = 2
    · rw [if_pos hc2]
      split_ifs
      · exact hrec _ _ rfl hlo hhi rfl
      · exact hok _ ⟨hlo, hhi, hnb, hwait, fun _ => ⟨hnb8, hhopen⟩, hsec⟩
    · rw [if_neg hc2]
      have hr01 : r = 0 ∨ r = 1 := by omega
      rcases hr01 with rfl | rfl
      · -- a LOW edge
        simp only [if_true]
        by_cases hs : t.r_low.status ≠ RailStatus.RAIL_OPEN
        · rw [if_pos hs]
          exact hok _ ⟨hlo, hhi, hnb, hwait, fun _ => ⟨hnb8, hhopen⟩, hsec⟩
        · rw [if_neg hs]
          rcases Track.eat_edge_cases
              { t with prev_r := 0, count := (t.count + 1) % 256, last_low := d }
              t.r_low (decide (0 = t.prev_r)) d hd hlo (not_not.1 hs) with e | ⟨p, e, hp, _, _⟩
          · rw [e]
            simp only [if_true, Bool.not_false, true_or, and_self]
            refine Track.close_step recurse _ 1 d ?_ ?_ ?_ ?_ ?_ P hok (fun t1 => hrec t1 1)
            · exact hlo
            · exact hhi
            · exact hnb8
            · exact hsec
            · intro h; rw [hhopen] at h; exact absurd h (by decide)
          · rw [e]
            simp only [Bool.false_eq_true, if_false]
            rw [if_neg (by omega)]
            exact hok _ ⟨hp, hhi, hnb, hwait, fun _ => ⟨hnb8, hhopen⟩, hsec⟩
      · -- a HIGH edge
        simp only [Nat.one_ne_zero, if_false]
        rw [if_neg (not_not.2 hhopen)]
        rcases Track.eat_edge_cases
            { t with prev_r := 1, count := (t.count + 1) % 256 }
            t.r_high (decide (1 = t.prev_r)) d hd hhi hhopen with e | ⟨p, e, hp, hstp, _⟩
        · rw [e]
          simp only [if_true, Bool.not_false, true_or, and_self]
          refine Track.close_step recurse _ 1 d ?_ ?_ ?_ ?_ ?_ P hok (fun t1 => hrec t1 1)
          · exact hlo
          · exact hhi
          · exact hnb8
          · exact hsec
          · intro h; rw [hhopen] at h; exact absurd h (by decide)
        · rw [e]
          simp only [Bool.false_eq_true, if_false]
          by_cases hcl : True ∧ ((!decide (p.status = RailStatus.RAIL_OPEN)) = true
              ∨ t.r_low.status ≠ RailStatus.RAIL_OPEN)
          · rw [if_pos hcl]
            refine Track.close_step recurse _ 1 d ?_ ?_ ?_ ?_ ?_ P hok (fun t1 => hrec t1 1)
            · exact hlo
            · exact hp
            · exact hnb8
            · exact hsec
            · exact hstp
          · rw [if_neg hcl]
            have hpo : p.status = RailStatus.RAIL_OPEN := by
              by_contra hne
              apply hcl
              refine ⟨trivial, Or.inl ?_⟩
              simp [hne]
            exact hok _ ⟨hlo, hp, hnb, hwait, fun _ => ⟨hnb8, hpo⟩, hsec⟩
theorem Track.track_eat_total (t : Track) (r d fuel : Nat) (hinv : t.Inv) (hr : r ≤ 1)
    (hd : d < 65536) (hf : 2 ≤ fuel) :
    ∃ t1, Track.track_eat fuel t r d = Except.ok t1 ∧ t1.Inv := by
  obtain ⟨n, rfl⟩ : ∃ n, fuel = n + 2 := ⟨fuel - 2, by omega⟩
  by_cases hw : t.trk = trk_t.TRK_WAIT
  · exact Track.wait_step t r d (n + 1) hw hinv.1 hinv.2.1 (hinv.2.2.2.1 hw)
  · by_cases hrv : t.trk = trk_t.TRK_RECV
    · have e : Track.track_eat (n + 2) t r d
          = Track.track_eat_recv (Track.track_eat (n + 1)) t r d := by
        rw [Track.track_eat, if_neg hw, if_neg (not_not.2 hrv)]
      rw [e]
      exact Track.recv_step _ t r d hinv hrv hr hd
        (fun res => ∃ t1, res = Except.ok t1 ∧ t1.Inv) (fun t1 h => ⟨t1, rfl, h⟩)
        (fun t1 r1 h1 h2 h3 h4 => Track.wait_step t1 r1 d n h1 h2 h3 h4)
    · refine ⟨t, ?_, hinv⟩
      rw [Track.track_eat, if_neg hw, if_pos hrv]

theorem Track.track_eat_inv (t : Track) (r d fuel : Nat) (t1 : Track) (hinv : t.Inv)
    (hr : r ≤ 1) (hd : d < 65536) (h : Track.track_eat fuel t r d = Except.ok t1) :
    t1.Inv := by
  rcases fuel with _ | n
  · rw [Track.track_eat] at h; exact absurd h (by simp)
  · by_cases hw : t.trk = trk_t.TRK_WAIT
    · obtain ⟨t2, e, h2⟩ := Track.wait_step t r d n hw hinv.1 hinv.2.1 (hinv.2.2.2.1 hw)
      rw [e] at h
      rw [← Except.ok.inj h]; exact h2
    · by_cases hrv : t.trk = trk_t.TRK_RECV
      · have e : Track.track_eat (n + 1) t r d
            = Track.track_eat_recv (Track.track_eat n) t r d := by
          rw [Track.track_eat, if_neg hw, if_neg (not_not.2 hrv)]
        rw [e] at h
        refine Track.recv_step _ t r d hinv hrv hr hd
          (fun res => ∀ t1, res = Except.ok t1 → t1.Inv) ?_ ?_ t1 h
        · intro t2 h2 t3 h3
          rw [← Except.ok.inj h3]; exact h2
        · intro t2 r1 h1 h2 h3 h4 t3 h5
          rcases n with _ | m
          · rw [Track.track_eat] at h5; exact absurd h5 (by simp)
          · obtain ⟨t4, e4, h6⟩ := Track.wait_step t2 r1 d m h1 h2 h3 h4
            rw [e4] at h5
            rw [← Except.ok.inj h5]; exact h6
      · rw [Track.track_eat, if_neg hw, if_pos hrv] at h
        rw [← Except.ok.inj h]; exact hinv

theorem Track.construct_inv (g : Track) (mood : Nat) : (Track.construct g mood).Inv := by
  refine ⟨Rail.inv_rreset _, Rail.inv_rreset _, ?_, ?_, ?_, ?_⟩
  · simp [Track.construct, Track.treset]
  · intro _; rfl
  · intro h; simp [Track.construct, Track.treset] at h
  · intro i hi; simp [Track.construct, Track.treset] at hi

theorem Track.track_reachable_inv (t : Track) (h : Track.Reachable t) : t.Inv := by
  induction h with
  | construct g m => exact Track.construct_inv g m
  | eat t r d fuel t1 _ hr hd he ih => exact Track.track_eat_inv t r d fuel t1 ih hr hd he
theorem Track.feed_reachable (fuel : Nat) (es : List (Nat × Nat)) (t t1 : Track)
    (h : Track.Reachable t) (hes : ∀ e ∈ es, e.1 ≤ 1 ∧ e.2 < 65536)
    (hf : Track.feed fuel t es = Except.ok t1) : Track.Reachable t1 := by
  induction es generalizing t with
  | nil =>
    rw [Track.feed] at hf
    rw [← Except.ok.inj hf]; exact h
  | cons e es ih =>
    obtain ⟨r, d⟩ := e
    rw [Track.feed] at hf
    have he := hes (r, d) (List.mem_cons_self _ _)
    cases hstep : Track.track_eat fuel t r d with
    | error x => rw [hstep] at hf; exact absurd hf (by simp)
    | ok t2 =>
      rw [hstep] at hf
      exact ih t2 (Track.Reachable.eat t r d fuel t2 h he.1 he.2 hstep)
        (fun e' he' => hes e' (List.mem_cons_of_mem _ he')) hf

theorem Track.scenario_S1_section :
    Track.first_section_after (alternate_levels 1 scenario_S1)
      = some (1, section_term_status_t.STS_SHORT_SEP, 11000) := by
  decide
/-- Claim C8. Section count bound: in every Track state reached from a freshly
constructed Track by feeding edges through track_eat, rawcode.nb_sections is at
most RF433ANY_MAX_SECTIONS = 8, and when it is 8 the Track is in TRK_DATA; every
further call of track_eat returns without a failed assertion and without an
access to rawcode.sections at an index that is not below 8 (recursion depth 2 is
enough), leaves nb_sections at most 8, and changes nothing when the Track is in
TRK_DATA. -/
theorem Track.section_count_bound (t : Track) (h : Track.Reachable t) :
    t.rawcode.nb_sections ≤ RF433ANY_MAX_SECTIONS
      ∧ (t.rawcode.nb_sections = RF433ANY_MAX_SECTIONS → t.trk = trk_t.TRK_DATA)
      ∧ ∀ r d fuel, r ≤ 1 → d < 65536 → 2 ≤ fuel →
          ∃ t1, Track.track_eat fuel t r d = Except.ok t1
            ∧ t1.rawcode.nb_sections ≤ RF433ANY_MAX_SECTIONS
            ∧ (t1.rawcode.nb_sections = RF433ANY_MAX_SECTIONS → t1.trk = trk_t.TRK_DATA)
            ∧ (t.trk = trk_t.TRK_DATA → t1 = t) := by
  have hinv := Track.track_reachable_inv t h
  have hdata : ∀ t2 : Track, t2.Inv → t2.rawcode.nb_sections = RF433ANY_MAX_SECTIONS →
      t2.trk = trk_t.TRK_DATA := by
    intro t2 h2 h8
    obtain ⟨_, _, _, hw, hr, _⟩ := h2
    cases ht : t2.trk with
    | TRK_WAIT => have := hw ht; rw [this] at h8; exact absurd h8 (by decide)
    | TRK_RECV => have := (hr ht).1; omega
    | TRK_DATA => rfl
  refine ⟨hinv.2.2.1, hdata t hinv, ?_⟩
  intro r d fuel hr hd hf
  obtain ⟨t1, e, h1⟩ := Track.track_eat_total t r d fuel hinv hr hd hf
  refine ⟨t1, e, h1.2.2.1, hdata t1 h1, ?_⟩
  intro htd
  obtain ⟨n, rfl⟩ : ∃ n, fuel = n + 1 := ⟨fuel - 1, by omega⟩
  rw [Track.track_eat, if_neg (by rw [htd]; decide), if_pos (by rw [htd]; decide)] at e
  exact (Except.ok.inj e).symm

theorem Track.section_count_bound_witness :
    ∃ t, Track.feed 2 (Track.construct Track.zeroed RAIL_MOOD_LAXIST)
          (alternate_levels 1 scenario_S1) = Except.ok t
      ∧ t.rawcode.nb_sections ≤ RF433ANY_MAX_SECTIONS := by
  have hs := Track.scenario_S1_section
  unfold Track.first_section_after at hs
  cases hf : Track.feed 2 (Track.construct Track.zeroed RAIL_MOOD_LAXIST)
      (alternate_levels 1 scenario_S1) with
  | error x => rw [hf] at hs; exact absurd hs (by simp)
  | ok t =>
    have hr : Track.Reachable t :=
      Track.feed_reachable 2 _ _ t (Track.Reachable.construct _ _) (by decide) hf
    exact ⟨t, rfl, (Track.section_count_bound t hr).1⟩

/-- Claim C9. Separator timing of sections: for every section recorded by track_eat on
any edge sequence fed to a fresh Track, if sts is STS_SHORT_SEP, STS_LONG_SEP or
STS_SEP_SEP then ts.sep > 0, and if sts is STS_CONTINUED then ts.sep = 0. -/
theorem Track.separator_timing (t : Track) (h : Track.Reachable t) (i : Nat)
    (hi : i < t.rawcode.nb_sections) :
    (((t.rawcode.sections i).sts = section_term_status_t.STS_SHORT_SEP
        ∨ (t.rawcode.sections i).sts = section_term_status_t.STS_LONG_SEP
        ∨ (t.rawcode.sections i).sts = section_term_status_t.STS_SEP_SEP) →
      0 < (t.rawcode.sections i).ts.sep)
    ∧ ((t.rawcode.sections i).sts = section_term_status_t.STS_CONTINUED →
      (t.rawcode.sections i).ts.sep = 0) :=
  (Track.track_reachable_inv t h).2.2.2.2.2 i hi

theorem Track.separator_timing_witness :
    ∃ t, Track.feed 2 (Track.construct Track.zeroed RAIL_MOOD_LAXIST)
          (alternate_levels 1 scenario_S1) = Except.ok t
      ∧ (t.rawcode.sections 0).sts = section_term_status_t.STS_SHORT_SEP
      ∧ 0 < (t.rawcode.sections 0).ts.sep := by
  have hs := Track.scenario_S1_section
  unfold Track.first_section_after at hs
  cases hf : Track.feed 2 (Track.construct Track.zeroed RAIL_MOOD_LAXIST)
      (alternate_levels 1 scenario_S1) with
  | error x => rw [hf] at hs; exact absurd hs (by simp)
  | ok t =>
    rw [hf] at hs
    have hs1 := Option.some.inj hs
    have hnb : t.rawcode.nb_sections = 1 := (Prod.mk.inj hs1).1
    have hsts : (t.rawcode.sections 0).sts = section_term_status_t.STS_SHORT_SEP :=
      (Prod.mk.inj (Prod.mk.inj hs1).2).1
    have hr : Track.Reachable t :=
      Track.feed_reachable 2 _ _ t (Track.Reachable.construct _ _) (by decide) hf
    exact ⟨t, rfl, hsts,
      (Track.separator_timing t hr 0 (by rw [hnb]; decide)).1 (Or.inl hsts)⟩
/-! ## The assertions of rail_eat -/

/-- Claim C20. Assertions never fire in the Rail classifier: for every Rail
reachable from construction through rail_eat, rreset_soft and rreset (and the
promotions to RAIL_CLOSED by Track), in either mood, and for every 16-bit
duration d, rail_eat(d) returns: it reaches neither of its two assert(false)
statements, which are the only places where the model of rail_eat gives none. -/
theorem Rail.assertions_never_fire (r : Rail) (h : Rail.Reachable r) (d : Nat)
    (hd : d < 65536) :
    ∃ r1 b, r.rail_eat d = some (r1, b) := by
  by_cases ho : r.status = RailStatus.RAIL_OPEN
  · obtain ⟨r1, e, _⟩ := Rail.rail_eat_open r d hd (Rail.rail_reachable_inv r h) ho
    exact ⟨r1, _, e⟩
  · exact ⟨r, false, Rail.rail_eat_not_open r d ho⟩

theorem Rail.assertions_never_fire_witness :
    ∃ r1 b, (Rail.construct Rail.zeroed RAIL_MOOD_STRICT).rail_eat 1240 = some (r1, b) :=
  Rail.assertions_never_fire _ (Rail.Reachable.construct Rail.zeroed RAIL_MOOD_STRICT) 1240
    (by decide)

/-! ## The ring of edges -/

/-- Claim C18. Ring overflow drops the oldest: for every ring state (heads
below IH_SIZE = 4) and every edge (r, d), after the write the write head is
advanced by one slot and that slot holds the new edge (r, d saturated at
65535); if the ring held IH_SIZE - 1 = 3 pending entries, the read head is
advanced by one slot and the pending count stays 3; otherwise the read head is
unchanged and the pending count grows by one. -/
theorem IHRing.write_drops_oldest (ring : IHRing) (r d : Nat)
    (hw : ring.IH_write_head < IH_SIZE) (hr : ring.IH_read_head < IH_SIZE) :
    (ring.ih_write r d).IH_write_head = (ring.IH_write_head + 1) % IH_SIZE
      ∧ (ring.ih_write r d).IH_timings (ring.ih_write r d).IH_write_head
          = (r, if d > 65535 then 65535 else d)
      ∧ (ring.pending = 3 →
          (ring.ih_write r d).IH_read_head = (ring.IH_read_head + 1) % IH_SIZE
            ∧ (ring.ih_write r d).pending = 3)
      ∧ (ring.pending ≠ 3 →
          (ring.ih_write r d).IH_read_head = ring.IH_read_head
            ∧ (ring.ih_write r d).pending = ring.pending + 1) := by
  obtain ⟨tm, w, rd, mx⟩ := ring
  simp only [IH_SIZE] at hw hr
  refine ⟨?_, ?_, ?_, ?_⟩
  · simp only [IHRing.ih_write, IH_MASK, IH_SIZE]
    interval_cases w <;> rfl
  · simp [IHRing.ih_write, RF433ANY_MAX_DURATION]
  · intro hp
    simp only [IHRing.ih_write, IHRing.pending, IH_MASK, IH_SIZE] at hp ⊢
    interval_cases w <;> interval_cases rd <;> first | (exact absurd hp (by decide)) | decide
  · intro hp
    simp only [IHRing.ih_write, IHRing.pending, IH_MASK, IH_SIZE] at hp ⊢
    interval_cases w <;> interval_cases rd <;> first | (exact absurd rfl hp) | decide

theorem IHRing.write_drops_oldest_witness :
    (IHRing.initial.ih_write 1 9000).IH_timings 1 = (1, 9000)
      ∧ (IHRing.initial.ih_write 1 9000).pending = 1 := by
  have h := IHRing.write_drops_oldest IHRing.initial 1 9000 (by decide) (by decide)
  exact ⟨h.2.1, (h.2.2.2 (by decide)).2⟩

/-- Claim C17 fails on the code at k = 1: from the initial ring, after the write
of the edge (1, 9000) the reads until the ring reports empty return one timing,
the content (0, 0) of slot 0, and not the edge written, which stays unread in
slot 1; after the writes of (1, 9000) and (0, 620) the reads return (0, 0) and
(1, 9000). -/
theorem IHRing.read_returns_stale_slot :
    (IHRing.read_all 4 (IHRing.initial.write_all [(1, 9000)])).1 = [(0, 0)]
      ∧ (IHRing.read_all 4 (IHRing.initial.write_all [(1, 9000)])).2.IH_timings 1 = (1, 9000)
      ∧ (IHRing.read_all 4 (IHRing.initial.write_all [(1, 9000), (0, 620)])).1
          = [(0, 0), (1, 9000)] := by
  decide
/-! ## The filters of get_data -/

theorem and_coding_bits (x : Nat) :
    x &&& (RF433ANY_FD_TRI ||| RF433ANY_FD_TRN ||| RF433ANY_FD_MAN) ≠ 0 ↔
      (x &&& RF433ANY_FD_TRI ≠ 0 ∨ x &&& RF433ANY_FD_TRN ≠ 0 ∨ x &&& RF433ANY_FD_MAN ≠ 0) := by
  have h8 : RF433ANY_FD_TRI = 2 ^ 3 := rfl
  have h16 : RF433ANY_FD_TRN = 2 ^ 4 := rfl
  have h32 : RF433ANY_FD_MAN = 2 ^ 5 := rfl
  rw [h8, h16, h32, and_two_pow_ne_zero, and_two_pow_ne_zero, and_two_pow_ne_zero]
  constructor
  · intro h
    by_contra hc
    simp only [not_or, Bool.not_eq_true] at hc
    apply h
    apply Nat.eq_of_testBit_eq
    intro i
    rw [Nat.testBit_and, Nat.testBit_or, Nat.testBit_or, Nat.testBit_two_pow,
      Nat.testBit_two_pow, Nat.testBit_two_pow, Nat.zero_testBit]
    by_cases h3 : 3 = i
    · subst h3; simp [hc.1]
    · by_cases h4 : 4 = i
      · subst h4; simp [hc.2.1]
      · by_cases h5 : 5 = i
        · subst h5; simp [hc.2.2]
        · simp [h3, h4, h5]
  · intro h h0
    have hb : ∀ i, (x &&& (2 ^ 3 ||| 2 ^ 4 ||| 2 ^ 5)).testBit i = false := by
      intro i; rw [h0]; exact Nat.zero_testBit i
    rcases h with h | h | h
    · have := hb 3
      rw [Nat.testBit_and, h] at this
      exact absurd this (by decide)
    · have := hb 4
      rw [Nat.testBit_and, h] at this
      exact absurd this (by decide)
    · have := hb 5
      rw [Nat.testBit_and, h] at this
      exact absurd this (by decide)
theorem Track.get_data_loop_no_dedup (filter : Nat)
    (h4 : filter &&& RF433ANY_FD_DEDUP = 0) (rest kept : List Decoder) :
    Track.get_data_loop filter kept rest =
      Except.ok (kept.reverse ++ (rest.map Decoder.reset_repeats).filter
        (fun p => Track.keep_coding filter p (Track.keep_decoded_no_error filter p))) := by
  induction rest generalizing kept with
  | nil => simp [Track.get_data_loop]
  | cons p rest ih =>
    unfold Track.get_data_loop
    simp only [h4, ne_eq, not_true_eq_false, if_false]
    by_cases hk : Track.keep_coding filter p.reset_repeats
        (Track.keep_decoded_no_error filter p.reset_repeats) = true
    · rw [if_pos hk, ih]
      simp [List.filter_cons, hk]
    · rw [if_neg hk, ih]
      simp [List.filter_cons, hk]

theorem Track.keep_coding_eq (filter : Nat) (p : Decoder) (keep : Bool) :
    Track.keep_coding filter p keep =
      (keep && decide ((filter &&& RF433ANY_FD_TRI ≠ 0 ∨ filter &&& RF433ANY_FD_TRN ≠ 0
          ∨ filter &&& RF433ANY_FD_MAN ≠ 0) →
        ¬ (p.get_id = RF433ANY_ID_TRIBIT ∧ filter &&& RF433ANY_FD_TRI = 0)
          ∧ ¬ (p.get_id = RF433ANY_ID_TRIBIT_INV ∧ filter &&& RF433ANY_FD_TRN = 0)
          ∧ ¬ (p.get_id = RF433ANY_ID_MANCHESTER ∧ filter &&& RF433ANY_FD_MAN = 0))) := by
  unfold Track.keep_coding
  by_cases hc : filter &&& (RF433ANY_FD_TRI ||| RF433ANY_FD_TRN ||| RF433ANY_FD_MAN) ≠ 0
  · rw [if_pos hc]
    have hc2 := (and_coding_bits filter).1 hc
    simp only [hc2, true_implies]
    by_cases a1 : filter &&& RF433ANY_FD_TRI = 0 ∧ p.get_id = RF433ANY_ID_TRIBIT
    · have : ¬ (filter &&& RF433ANY_FD_MAN = 0 ∧ p.get_id = RF433ANY_ID_MANCHESTER) ∨ True :=
        Or.inr trivial
      simp [a1]
    · by_cases a2 : filter &&& RF433ANY_FD_TRN = 0 ∧ p.get_id = RF433ANY_ID_TRIBIT_INV
      · simp [a2]
      · by_cases a3 : filter &&& RF433ANY_FD_MAN = 0 ∧ p.get_id = RF433ANY_ID_MANCHESTER
        · simp [a3]
        · simp only [a1, a2, a3, if_false]
          have b1 : ¬ (p.get_id = RF433ANY_ID_TRIBIT ∧ filter &&& RF433ANY_FD_TRI = 0) :=
            fun h => a1 ⟨h.2, h.1⟩
          have b2 : ¬ (p.get_id = RF433ANY_ID_TRIBIT_INV ∧ filter &&& RF433ANY_FD_TRN = 0) :=
            fun h => a2 ⟨h.2, h.1⟩
          have b3 : ¬ (p.get_id = RF433ANY_ID_MANCHESTER ∧ filter &&& RF433ANY_FD_MAN = 0) :=
            fun h => a3 ⟨h.2, h.1⟩
          simp [b1, b2, b3]
  · rw [if_neg hc]
    have hc2 : ¬ (filter &&& RF433ANY_FD_TRI ≠ 0 ∨ filter &&& RF433ANY_FD_TRN ≠ 0
        ∨ filter &&& RF433ANY_FD_MAN ≠ 0) := fun h => hc ((and_coding_bits filter).2 h)
    simp [hc2]
theorem Track.keep_no_error_eq (filter : Nat) (p : Decoder)
    (h1 : filter &&& RF433ANY_FD_DECODED = 0) :
    Track.keep_decoded_no_error filter p
      = decide (filter &&& RF433ANY_FD_NO_ERROR ≠ 0 → p.get_nb_errors = 0) := by
  unfold Track.keep_decoded_no_error
  simp only [h1, ne_eq, not_true_eq_false, if_false]
  by_cases h2 : filter &&& RF433ANY_FD_NO_ERROR = 0
  · simp [h2]
  · by_cases he : p.get_nb_errors = 0 <;> simp [h2, he]

/-- Claim C16. Error and coding filters: for every filter value without the
DECODED and DEDUP bits, get_data returns exactly, and in their original order,
the nodes of the core chain (each after reset_repeats) that satisfy both
(NO_ERROR set ⇒ nb_errors = 0) and (at least one of TRI/TRN/MAN set ⇒ the node
is not a TRIBIT, TRIBIT_INV or MANCHESTER node whose own bit is unset); a node
of a raw kind (I, S, U) that passes the NO_ERROR condition is always returned,
and with filter ALL (0) the whole chain is returned. -/
theorem Track.error_and_coding_filters (filter : Nat) (chain : List Decoder)
    (h1 : filter &&& RF433ANY_FD_DECODED = 0) (h4 : filter &&& RF433ANY_FD_DEDUP = 0) :
    Track.get_data_filter filter chain =
        Except.ok ((chain.map Decoder.reset_repeats).filter (fun p =>
          decide ((filter &&& RF433ANY_FD_NO_ERROR ≠ 0 → p.get_nb_errors = 0)
            ∧ ((filter &&& RF433ANY_FD_TRI ≠ 0 ∨ filter &&& RF433ANY_FD_TRN ≠ 0
                  ∨ filter &&& RF433ANY_FD_MAN ≠ 0) →
                ¬ (p.get_id = RF433ANY_ID_TRIBIT ∧ filter &&& RF433ANY_FD_TRI = 0)
                  ∧ ¬ (p.get_id = RF433ANY_ID_TRIBIT_INV ∧ filter &&& RF433ANY_FD_TRN = 0)
                  ∧ ¬ (p.get_id = RF433ANY_ID_MANCHESTER
                        ∧ filter &&& RF433ANY_FD_MAN = 0)))))
      ∧ (∀ p ∈ chain,
          (p.get_id = RF433ANY_ID_RAW_INCONSISTENT ∨ p.get_id = RF433ANY_ID_RAW_SYNC
            ∨ p.get_id = RF433ANY_ID_RAW_UNKNOWN_CODING) →
          (filter &&& RF433ANY_FD_NO_ERROR ≠ 0 → p.get_nb_errors = 0) →
          ∃ res, Track.get_data_filter filter chain = Except.ok res ∧ p.reset_repeats ∈ res)
      ∧ Track.get_data_filter RF433ANY_FD_ALL chain
          = Except.ok (chain.map Decoder.reset_repeats) := by
  have hmain : ∀ f : Nat, f &&& RF433ANY_FD_DECODED = 0 → f &&& RF433ANY_FD_DEDUP = 0 →
      Track.get_data_filter f chain =
        Except.ok ((chain.map Decoder.reset_repeats).filter (fun p =>
          decide ((f &&& RF433ANY_FD_NO_ERROR ≠ 0 → p.get_nb_errors = 0)
            ∧ ((f &&& RF433ANY_FD_TRI ≠ 0 ∨ f &&& RF433ANY_FD_TRN ≠ 0
                  ∨ f &&& RF433ANY_FD_MAN ≠ 0) →
                ¬ (p.get_id = RF433ANY_ID_TRIBIT ∧ f &&& RF433ANY_FD_TRI = 0)
                  ∧ ¬ (p.get_id = RF433ANY_ID_TRIBIT_INV ∧ f &&& RF433ANY_FD_TRN = 0)
                  ∧ ¬ (p.get_id = RF433ANY_ID_MANCHESTER
                        ∧ f &&& RF433ANY_FD_MAN = 0))))) := by
    intro f g1 g4
    unfold Track.get_data_filter
    rw [Track.get_data_loop_no_dedup f g4]
    simp only [List.reverse_nil, List.nil_append]
    congr 1
    apply List.filter_congr
    intro p _
    rw [Track.keep_coding_eq, Track.keep_no_error_eq f p g1, ← Bool.decide_and]
  refine ⟨hmain filter h1 h4, ?_, ?_⟩
  · intro p hp hraw herr
    refine ⟨_, hmain filter h1 h4, ?_⟩
    rw [List.mem_filter]
    refine ⟨List.mem_map_of_mem _ hp, ?_⟩
    have hid : p.reset_repeats.get_id = p.get_id := rfl
    have hne : p.reset_repeats.get_nb_errors = p.get_nb_errors := rfl
    rw [decide_eq_true_iff, hid, hne]
    refine ⟨herr, fun _ => ⟨?_, ?_, ?_⟩⟩
    · rintro ⟨h, _⟩; rw [h] at hraw; revert hraw; decide
    · rintro ⟨h, _⟩; rw [h] at hraw; revert hraw; decide
    · rintro ⟨h, _⟩; rw [h] at hraw; revert hraw; decide
  · rw [hmain RF433ANY_FD_ALL (by decide) (by decide)]
    congr 1
    rw [List.filter_eq_self]
    intro p _
    rw [decide_eq_true_iff]
    refine ⟨fun h => absurd rfl h, fun h => ?_⟩
    rcases h with h | h | h <;> exact absurd rfl h

theorem Track.error_and_coding_filters_witness :
    Track.get_data_filter (RF433ANY_FD_NO_ERROR ||| RF433ANY_FD_TRN)
        [Decoder.new_tribit Decoder.zeroed 0, Decoder.new_tribit_inv Decoder.zeroed 0,
          Decoder.new_raw_unknown_coding Decoder.zeroed]
      = Except.ok [(Decoder.new_tribit_inv Decoder.zeroed 0).reset_repeats,
          (Decoder.new_raw_unknown_coding Decoder.zeroed).reset_repeats] := by
  rw [(Track.error_and_coding_filters (RF433ANY_FD_NO_ERROR ||| RF433ANY_FD_TRN)
    [Decoder.new_tribit Decoder.zeroed 0, Decoder.new_tribit_inv Decoder.zeroed 0,
      Decoder.new_raw_unknown_coding Decoder.zeroed] (by decide) (by decide)).1]
  rfl
/-- Claim C15 fails on the code: the frame frame_unknown_coding is decoded by
get_data(ALL) into one node of kind RAW_UNKNOWN_CODING (5) whose pdata holds 16
bits, and get_data(DECODED) on the same track returns no node: the node is
dropped although its bit vector is non-empty. -/
theorem Track.decoded_drops_raw_unknown :
    Track.get_data_after (alternate_levels 1 frame_unknown_coding) RF433ANY_FD_ALL RF433ANY_CONV0
        Indeterminate.zeroed = some (trk_t.TRK_RECV, [(5, 0, 16, 0, [0, 132])])
      ∧ Track.get_data_after (alternate_levels 1 frame_unknown_coding) RF433ANY_FD_DECODED
          RF433ANY_CONV0 Indeterminate.zeroed = some (trk_t.TRK_RECV, []) :=
  ⟨rfl, rfl⟩

/-- Claim C15, amended. With filter = DECODED alone, get_data returns, in their
original order, the nodes of the core chain (each after reset_repeats) whose
kind is TRIBIT, TRIBIT_INV or MANCHESTER and whose bit vector pdata is
non-empty; a node of a raw kind is dropped whatever its bits. -/
theorem Track.decoded_filter (chain : List Decoder) :
    Track.get_data_filter RF433ANY_FD_DECODED chain =
      Except.ok ((chain.map Decoder.reset_repeats).filter (fun p =>
        decide ((p.get_id = RF433ANY_ID_TRIBIT ∨ p.get_id = RF433ANY_ID_TRIBIT_INV
            ∨ p.get_id = RF433ANY_ID_MANCHESTER) ∧ p.pdata.get_nb_bits ≠ 0))) := by
  unfold Track.get_data_filter
  rw [Track.get_data_loop_no_dedup RF433ANY_FD_DECODED (by decide)]
  simp only [List.reverse_nil, List.nil_append]
  congr 1
  apply List.filter_congr
  intro p _
  have hk : ∀ k, Track.keep_coding RF433ANY_FD_DECODED p k = k := by
    intro k
    unfold Track.keep_coding
    rw [if_neg (by decide)]
  rw [hk]
  unfold Track.keep_decoded_no_error Decoder.data_got_decoded
  by_cases hid : p.get_id = RF433ANY_ID_TRIBIT ∨ p.get_id = RF433ANY_ID_TRIBIT_INV
      ∨ p.get_id = RF433ANY_ID_MANCHESTER
  · by_cases hb : p.pdata.get_nb_bits = 0
    · simp [hid, hb, RF433ANY_FD_DECODED, RF433ANY_FD_NO_ERROR]
    · simp [hid, hb, RF433ANY_FD_DECODED, RF433ANY_FD_NO_ERROR]
  · simp [hid, RF433ANY_FD_DECODED, RF433ANY_FD_NO_ERROR]
theorem Track.get_data_loop_dedup (filter : Nat)
    (h4 : filter &&& RF433ANY_FD_DEDUP ≠ 0) (rest : List Decoder) (q : Decoder)
    (ks : List Decoder) (hq : q.repeats < 256)
    (hsame : ∀ p ∈ rest, p.get_id = q.get_id ∧ p.pdata.cmp q.pdata = some 0) :
    Track.get_data_loop filter (q :: ks) rest =
      Except.ok (({ q with repeats := (q.repeats + rest.length) % 256 } :: ks).reverse) := by
  induction rest generalizing q with
  | nil =>
    unfold Track.get_data_loop
    have e : ({ q with repeats := (q.repeats + ([] : List Decoder).length) % 256 } : Decoder)
        = q := by
      cases q
      simp only [List.length_nil, Nat.add_zero] at hq ⊢
      congr 1
      exact Nat.mod_eq_of_lt hq
    rw [e]
  | cons p rest ih =>
    obtain ⟨hid, hcmp⟩ := hsame p (List.mem_cons_self _ _)
    unfold Track.get_data_loop
    have hid2 : p.reset_repeats.get_id = q.get_id := hid
    have hcmp2 : p.reset_repeats.pdata.cmp q.pdata = some 0 := hcmp
    simp only [h4, ne_eq, not_false_eq_true, if_true, hid2, hcmp2]
    have hkc : Track.keep_coding filter p.reset_repeats false = false := by
      rw [Track.keep_coding_eq]; rfl
    rw [hkc]
    simp only [Bool.false_eq_true, if_false]
    rw [ih q.inc_repeats (Nat.mod_lt _ (by decide))
      (fun p2 hp2 => hsame p2 (List.mem_cons_of_mem _ hp2))]
    have e : ({ q.inc_repeats with repeats := (q.inc_repeats.repeats + rest.length) % 256 }
        : Decoder) = { q with repeats := (q.repeats + (p :: rest).length) % 256 } := by
      cases q
      simp only [Decoder.inc_repeats, List.length_cons]
      congr 1
      omega
    rw [e]

-- The DEDUP rule on a chain: with the filter DEDUP alone, or DEDUP with NO_ERROR
-- on error-free nodes, a core chain made of k ≥ 1 decoders (k ≤ 256, the
-- repeat-count being a byte) of the same kind whose bit vectors compare equal to
-- the first one's is returned by get_data as a single node, the first one, with
-- repeat-count k - 1.
theorem Track.dedup_counts_repeats (filter : Nat) (q : Decoder) (rest : List Decoder)
    (hf : filter = RF433ANY_FD_DEDUP
      ∨ (filter = RF433ANY_FD_DEDUP ||| RF433ANY_FD_NO_ERROR ∧ q.get_nb_errors = 0))
    (hk : rest.length < 256)
    (hsame : ∀ p ∈ rest, p.get_id = q.get_id ∧ p.pdata.cmp q.pdata = some 0) :
    Track.get_data_filter filter (q :: rest)
      = Except.ok [{ q with repeats := (q :: rest).length - 1 }] := by
  have h4 : filter &&& RF433ANY_FD_DEDUP ≠ 0 := by
    rcases hf with h | ⟨h, _⟩ <;> rw [h] <;> decide
  have hkeep : Track.keep_coding filter q.reset_repeats
      (Track.keep_decoded_no_error filter q.reset_repeats) = true := by
    rcases hf with h | ⟨h, he⟩
    · rw [h]; rfl
    · rw [h]
      have he2 : q.reset_repeats.get_nb_errors = 0 := he
      unfold Track.keep_coding Track.keep_decoded_no_error
      rw [he2]
      rfl
  unfold Track.get_data_filter
  unfold Track.get_data_loop
  simp only [h4, ne_eq, not_false_eq_true, if_true, hkeep]
  rw [Track.get_data_loop_dedup filter h4 rest q.reset_repeats []
    (show (0 : Nat) < 256 by decide) hsame]
  simp only [List.reverse_cons, List.reverse_nil, List.nil_append, List.length_cons,
    Nat.add_sub_cancel]
  congr 3
  simp only [Decoder.reset_repeats, Nat.zero_add]
  exact Nat.mod_eq_of_lt hk

theorem Track.dedup_counts_repeats_witness :
    Track.get_data_filter RF433ANY_FD_DEDUP
        [(Decoder.new_tribit Decoder.zeroed 0).add_data_bit 1,
          (Decoder.new_tribit Decoder.zeroed 0).add_data_bit 1]
      = Except.ok [{ (Decoder.new_tribit Decoder.zeroed 0).add_data_bit 1 with
          repeats := 2 - 1 }] :=
  Track.dedup_counts_repeats RF433ANY_FD_DEDUP ((Decoder.new_tribit Decoder.zeroed 0).add_data_bit 1)
    [(Decoder.new_tribit Decoder.zeroed 0).add_data_bit 1] (Or.inl rfl) (by decide)
    (by decide)
/-! ## Runs from the edges to the decoders -/

/-- Claim C13 fails on the code: the number of bits decoded from the edges of
scenario S1 depends on what the uninitialized locals b_short and b_long of
take_into_account_first_low_high hold. The section is recorded with
ts.high_short = ts.high_long = 0, so that Band::init rejects them for
first_high and the bands tested are whatever the memory held: with zeroed
memory get_data(ALL, CONV0) returns one TRIBIT node with 11 bits (0x25c), the
first bit being lost; with the bands left by the previous turn of the loop it
returns 12 bits (0x0a5c). -/
theorem Track.s1_first_bit_depends_on_stack :
    Track.get_data_after (alternate_levels 1 scenario_S1) RF433ANY_FD_ALL RF433ANY_CONV0
        Indeterminate.zeroed = some (trk_t.TRK_RECV, [(2, 0, 11, 0, [92, 2])])
      ∧ Track.get_data_after (alternate_levels 1 scenario_S1) RF433ANY_FD_ALL RF433ANY_CONV0
          Indeterminate.stale = some (trk_t.TRK_RECV, [(2, 0, 12, 0, [92, 10])]) :=
  ⟨rfl, rfl⟩

/-- Claim C19 fails on the code: after the edges of scenario S1 the track is in
RECV with count = 0 and one section recorded; force_stop_recv then leaves it in
RECV (count = 2, one section), not in DATA: the two synthetic edges are taken as
the first low and high edges of a new section. -/
theorem Track.force_stop_stays_in_recv :
    Track.force_stop_after (alternate_levels 1 scenario_S1)
      = some ((trk_t.TRK_RECV, 0, 1), (trk_t.TRK_RECV, 2, 1)) :=
  rfl
/-! ## The decoders never fault -/

theorem Decoder.add_buf_ok (dec : Decoder) (r : Nat) (h : dec.buf_pos < 3) :
    ∃ d1, dec.add_buf r = Except.ok d1 ∧ d1.get_id = dec.get_id
      ∧ d1.buf_pos = dec.buf_pos + 1 := by
  unfold Decoder.add_buf
  rw [if_neg (not_not.2 h)]
  refine ⟨_, rfl, ?_, ?_⟩
  · dsimp only
    split_ifs <;> rfl
  · dsimp only
    exact Nat.mod_eq_of_lt (by omega)

theorem Decoder.consume_buf_ok (dec : Decoder) (h : dec.buf_pos ≤ 3) :
    dec.consume_buf.get_id = dec.get_id ∧ dec.consume_buf.buf_pos ≤ 1 := by
  unfold Decoder.consume_buf
  by_cases h2 : dec.buf_pos ≥ 2
  · rw [if_pos h2]
    dsimp only
    have key : ∀ d1 : Decoder, d1.get_id = dec.get_id → d1.buf_pos = dec.buf_pos →
        ({ d1 with buf0 := d1.buf2, buf_pos := (d1.buf_pos + 256 - 2) % 256 } : Decoder).get_id
            = dec.get_id
          ∧ ({ d1 with buf0 := d1.buf2, buf_pos := (d1.buf_pos + 256 - 2) % 256 }
              : Decoder).buf_pos ≤ 1 := by
      intro d1 e1 e2
      refine ⟨e1, ?_⟩
      dsimp only
      rw [e2]
      omega
    apply key
    · split_ifs <;> rfl
    · split_ifs <;> rfl
  · rw [if_neg h2]
    exact ⟨rfl, by omega⟩

theorem Decoder.manchester_half_ok (dec : Decoder) (i : Nat) (sgn : Signal)
    (h : dec.buf_pos ≤ 1) :
    ∃ d1, dec.manchester_half i sgn = Except.ok d1 ∧ d1.get_id = dec.get_id
      ∧ d1.buf_pos ≤ 1 := by
  unfold Decoder.manchester_half
  obtain ⟨d1, e1, g1, p1⟩ := Decoder.add_buf_ok dec i (by omega)
  rw [e1]
  dsimp only
  by_cases hs : sgn = Signal.LONG
  · rw [if_pos hs]
    obtain ⟨d2, e2, g2, p2⟩ := Decoder.add_buf_ok d1 i (by omega)
    rw [e2]
    dsimp only
    have hc := Decoder.consume_buf_ok d2 (by omega)
    exact ⟨_, rfl, by rw [hc.1, g2, g1], hc.2⟩
  · rw [if_neg hs]
    have hc := Decoder.consume_buf_ok d1 (by omega)
    exact ⟨_, rfl, by rw [hc.1, g1], hc.2⟩

theorem Decoder.manchester_step_ok (dec : Decoder) (lo hi : Signal) (h : dec.buf_pos ≤ 1) :
    ∃ d1, dec.manchester_step lo hi = Except.ok d1 ∧ d1.get_id = dec.get_id
      ∧ d1.buf_pos ≤ 1 := by
  unfold Decoder.manchester_step
  by_cases hl : lo = Signal.OTHER
  · rw [if_pos hl]
    exact ⟨_, rfl, rfl, h⟩
  · rw [if_neg hl]
    obtain ⟨d1, e1, g1, p1⟩ := Decoder.manchester_half_ok dec 0 lo h
    rw [e1]
    dsimp only
    obtain ⟨d2, e2, g2, p2⟩ := Decoder.manchester_half_ok d1 1 hi p1
    exact ⟨d2, e2, by rw [g2, g1], p2⟩

theorem Decoder.add_signal_step_ok (dec : Decoder) (lo hi : Signal) (hw : dec.Wf) :
    ∃ d1, dec.add_signal_step lo hi = Except.ok d1 ∧ d1.get_id = dec.get_id ∧ d1.Wf
      ∧ (dec.get_id = RF433ANY_ID_RAW_UNKNOWN_CODING → d1.nb_errors = dec.nb_errors) := by
  unfold Decoder.add_signal_step
  by_cases h1 : dec.get_id = RF433ANY_ID_RAW_SYNC
  · rw [if_pos h1]
    have g : (dec.raw_sync_step lo hi).get_id = dec.get_id := by
      unfold Decoder.raw_sync_step
      dsimp only
      split_ifs <;> rfl
    refine ⟨_, rfl, g, ?_, ?_⟩
    · intro hm; rw [g, h1] at hm; exact absurd hm (by decide)
    · intro h5; rw [h1] at h5; exact absurd h5 (by decide)
  rw [if_neg h1]
  by_cases h2 : dec.get_id = RF433ANY_ID_TRIBIT
  · rw [if_pos h2]
    have g : (dec.tribit_step lo hi).get_id = dec.get_id := by
      unfold Decoder.tribit_step
      split_ifs <;> rfl
    refine ⟨_, rfl, g, ?_, ?_⟩
    · intro hm; rw [g, h2] at hm; exact absurd hm (by decide)
    · intro h5; rw [h2] at h5; exact absurd h5 (by decide)
  rw [if_neg h2]
  by_cases h3 : dec.get_id = RF433ANY_ID_TRIBIT_INV
  · rw [if_pos h3]
    have g : (dec.tribit_inv_step lo hi).get_id = dec.get_id := by
      unfold Decoder.tribit_inv_step
      dsimp only
      split_ifs <;> rfl
    refine ⟨_, rfl, g, ?_, ?_⟩
    · intro hm; rw [g, h3] at hm; exact absurd hm (by decide)
    · intro h5; rw [h3] at h5; exact absurd h5 (by decide)
  rw [if_neg h3]
  by_cases h4 : dec.get_id = RF433ANY_ID_MANCHESTER
  · rw [if_pos h4]
    obtain ⟨d1, e1, g1, p1⟩ := Decoder.manchester_step_ok dec lo hi (hw h4)
    refine ⟨d1, e1, g1, fun _ => p1, ?_⟩
    intro h5; rw [h4] at h5; exact absurd h5 (by decide)
  rw [if_neg h4]
  by_cases h5 : dec.get_id = RF433ANY_ID_RAW_UNKNOWN_CODING
  · rw [if_pos h5]
    have g : (dec.raw_unknown_step lo hi).get_id = dec.get_id := by
      unfold Decoder.raw_unknown_step
      split_ifs <;> rfl
    have ge : (dec.raw_unknown_step lo hi).nb_errors = dec.nb_errors := by
      unfold Decoder.raw_unknown_step
      split_ifs <;> rfl
    refine ⟨_, rfl, g, ?_, fun _ => ge⟩
    intro hm; rw [g, h5] at hm; exact absurd hm (by decide)
  rw [if_neg h5]
  exact ⟨dec, rfl, rfl, hw, fun _ => rfl⟩
theorem Decoder.take_first_ok (dec : Decoder) (psec : Section) (is_cont : Bool)
    (uninit : Nat → Band) (hw : dec.Wf) :
    ∃ d1, dec.take_into_account_first_low_high psec is_cont uninit = Except.ok d1
      ∧ d1.get_id = dec.get_id ∧ d1.Wf
      ∧ (dec.get_id = RF433ANY_ID_RAW_UNKNOWN_CODING → d1.nb_errors = dec.nb_errors) := by
  unfold Decoder.take_into_account_first_low_high
  by_cases hc : is_cont = true
  · rw [if_pos hc]
    exact ⟨dec, rfl, rfl, hw, fun _ => rfl⟩
  · rw [if_neg hc]
    dsimp only
    split_ifs with he
    · obtain ⟨d2, e2, g2, w2, n2⟩ := Decoder.add_signal_step_ok
        { dec with tsext := { dec.tsext with
          first_low := psec.first_low, first_high := psec.first_high
          last_low := psec.last_low } }
        (Decoder.classify_first (uninit 0) (uninit 1) psec.first_low
          psec.ts.low_short psec.ts.low_long)
        (Decoder.classify_first (uninit 2) (uninit 3) psec.first_high
          psec.ts.high_short psec.ts.high_long) hw
      rw [e2]
      exact ⟨_, rfl, g2, w2, n2⟩
    · exact ⟨_, rfl, rfl, hw, fun _ => rfl⟩

theorem Decoder.decode_loop_ok (psec : Section) (n : Nat) :
    ∀ (pos_low pos_high : Nat) (dec : Decoder), dec.Wf → pos_low + pos_high ≤ n →
    ∃ d1, Decoder.decode_loop psec n pos_low pos_high dec = Except.ok d1
      ∧ d1.get_id = dec.get_id ∧ d1.Wf
      ∧ (dec.get_id = RF433ANY_ID_RAW_UNKNOWN_CODING → d1.nb_errors = dec.nb_errors) := by
  induction n with
  | zero =>
    intro pl ph dec hw hn
    unfold Decoder.decode_loop
    rw [if_neg (by omega)]
    exact ⟨dec, rfl, rfl, hw, fun _ => rfl⟩
  | succ n ih =>
    intro pl ph dec hw hn
    unfold Decoder.decode_loop
    by_cases hp : pl ≥ 1 ∨ ph ≥ 1
    · rw [if_pos hp]
      dsimp only
      obtain ⟨d1, e1, g1, w1, n1⟩ := Decoder.add_signal_step_ok dec
        (if pl ≥ 1 then Decoder.signal_at psec.low_rec (if pl ≥ 1 then pl - 1 else pl)
          else Signal.OTHER)
        (if ph ≥ 1 then Decoder.signal_at psec.high_rec (if ph ≥ 1 then ph - 1 else ph)
          else Signal.OTHER) hw
      rw [e1]
      dsimp only
      obtain ⟨d2, e2, g2, w2, n2⟩ := ih (if pl ≥ 1 then pl - 1 else pl)
        (if ph ≥ 1 then ph - 1 else ph) d1 w1 (by split_ifs <;> omega)
      refine ⟨d2, e2, by rw [g2, g1], w2, ?_⟩
      intro h5
      rw [n2 (by rw [g1]; exact h5), n1 h5]
    · rw [if_neg hp]
      exact ⟨dec, rfl, rfl, hw, fun _ => rfl⟩

theorem Decoder.decode_section_ok (dec : Decoder) (psec : Section) (is_cont : Bool)
    (uninit : Nat → Band) (hw : dec.Wf) :
    ∃ d1, dec.decode_section psec is_cont uninit = Except.ok d1
      ∧ d1.get_id = dec.get_id ∧ d1.Wf
      ∧ (dec.get_id = RF433ANY_ID_RAW_UNKNOWN_CODING → d1.nb_errors = dec.nb_errors) := by
  unfold Decoder.decode_section
  obtain ⟨d1, e1, g1, w1, n1⟩ := Decoder.take_first_ok dec psec is_cont uninit hw
  rw [e1]
  dsimp only
  obtain ⟨d2, e2, g2, w2, n2⟩ := Decoder.decode_loop_ok psec _ psec.low_bits psec.high_bits d1 w1
    (le_refl _)
  refine ⟨d2, e2, by rw [g2, g1], w2, ?_⟩
  intro h5
  rw [n2 (by rw [g1]; exact h5), n1 h5]

theorem Decoder.build_decoder_ok (g : Decoder) (id convention : Nat)
    (h1 : RF433ANY_ID_START ≤ id) (h5 : id ≤ RF433ANY_ID_END) :
    ∃ d, Decoder.build_decoder g id convention = Except.ok d ∧ d.get_id = id ∧ d.Wf
      ∧ d.nb_errors = 0 := by
  simp only [RF433ANY_ID_START, RF433ANY_ID_END] at h1 h5
  have : id = 1 ∨ id = 2 ∨ id = 3 ∨ id = 4 ∨ id = 5 := by omega
  rcases this with h | h | h | h | h <;> subst h
  · exact ⟨_, rfl, rfl, fun h => absurd h (show (1 : Nat) ≠ 4 by decide), rfl⟩
  · exact ⟨_, rfl, rfl, fun h => absurd h (show (2 : Nat) ≠ 4 by decide), rfl⟩
  · exact ⟨_, rfl, rfl, fun h => absurd h (show (3 : Nat) ≠ 4 by decide), rfl⟩
  · exact ⟨_, rfl, rfl, fun _ => Nat.zero_le 1, rfl⟩
  · exact ⟨_, rfl, rfl, fun h => absurd h (show (5 : Nat) ≠ 4 by decide), rfl⟩
/-! ## The choice of the decoder of a section -/

theorem Track.decoded_with_ok (convention : Nat) (u : Indeterminate) (i : Nat) (psec : Section)
    (id : Nat) (h1 : RF433ANY_ID_START ≤ id) (h5 : id ≤ RF433ANY_ID_END) :
    ∃ d, Track.decoded_with convention u i psec id = Except.ok d ∧ d.get_id = id ∧ d.Wf
      ∧ (id = RF433ANY_ID_RAW_UNKNOWN_CODING → d.nb_errors = 0) := by
  unfold Track.decoded_with
  obtain ⟨d0, e0, g0, w0, n0⟩ := Decoder.build_decoder_ok (u.decoder i id) id convention h1 h5
  rw [e0]
  dsimp only
  obtain ⟨d1, e1, g1, w1, n1⟩ := Decoder.decode_section_ok d0 psec false (u.band i id) w0
  refine ⟨d1, e1, by rw [g1, g0], w1, ?_⟩
  intro hid
  rw [n1 (by rw [g0]; exact hid), n0]

theorem Track.try_decoders_eq (convention : Nat) (u : Indeterminate) (i : Nat) (psec : Section)
    (n e : Nat) :
    Track.try_decoders convention u i psec (n + 1) e =
      match Track.decoded_with convention u i psec e with
      | Except.error err => Except.error err
      | Except.ok d1 =>
        if d1.get_nb_errors ≠ 0 then Track.try_decoders convention u i psec n (e + 1)
        else Except.ok (some d1) := by
  rw [Track.try_decoders]
  unfold Track.decoded_with
  cases Decoder.build_decoder (u.decoder i e) e convention with
  | error err => rfl
  | ok pdec => rfl

theorem Track.try_decoders_spec (convention : Nat) (u : Indeterminate) (i : Nat)
    (psec : Section) (n : Nat) :
    ∀ e, RF433ANY_ID_START ≤ e → e + n = RF433ANY_ID_END →
    ∃ d id, Track.try_decoders convention u i psec (n + 1) e = Except.ok (some d) ∧ d.Wf
      ∧ e ≤ id ∧ id ≤ RF433ANY_ID_END
      ∧ Track.decoded_with convention u i psec id = Except.ok d ∧ d.get_id = id
      ∧ d.get_nb_errors = 0
      ∧ ∀ id2, e ≤ id2 → id2 < id →
          ∃ d2, Track.decoded_with convention u i psec id2 = Except.ok d2
            ∧ d2.get_nb_errors ≠ 0 := by
  have hs : RF433ANY_ID_START = 1 := rfl
  have he5 : RF433ANY_ID_END = 5 := rfl
  have hu : RF433ANY_ID_RAW_UNKNOWN_CODING = 5 := rfl
  induction n with
  | zero =>
    intro e h1 he
    obtain ⟨d, ed, gd, wd, nd⟩ := Track.decoded_with_ok convention u i psec e h1 (by omega)
    have hz : d.get_nb_errors = 0 := nd (by omega)
    refine ⟨d, e, ?_, wd, le_refl _, by omega, ed, gd, hz, ?_⟩
    · rw [Track.try_decoders_eq, ed]
      dsimp only
      rw [if_neg (not_not.2 hz)]
    · intro id2 h2 h3; omega
  | succ n ih =>
    intro e h1 he
    obtain ⟨d, ed, gd, wd, nd⟩ := Track.decoded_with_ok convention u i psec e h1 (by omega)
    by_cases hz : d.get_nb_errors = 0
    · refine ⟨d, e, ?_, wd, le_refl _, by omega, ed, gd, hz, ?_⟩
      · rw [Track.try_decoders_eq, ed]
        dsimp only
        rw [if_neg (not_not.2 hz)]
      · intro id2 h2 h3; omega
    · obtain ⟨d3, id, e3, w3, l3, u3, dw3, g3, z3, f3⟩ := ih (e + 1) (by omega) (by omega)
      refine ⟨d3, id, ?_, w3, by omega, u3, dw3, g3, z3, ?_⟩
      · rw [Track.try_decoders_eq, ed]
        dsimp only
        rw [if_pos hz]
        exact e3
      · intro id2 h2 h3
        by_cases h4 : id2 = e
        · subst h4
          exact ⟨d, ed, hz⟩
        · exact f3 id2 (by omega) h3

/-- Claim C11 fails on the code: in the frame frame_two_sections the second
section starts a new decoder (the first one is closed SHORT_SEP), both its rails
have two bands and its bit counts are 8 and 7; on it TRIBIT and TRIBIT_INV have
7 errors each and MANCHESTER has none, yet the node that get_data(ALL, CONV0)
returns for it is of kind RAW_SYNC (1), not MANCHESTER (4): RAW_SYNC is tried
before the three others. -/
theorem Track.raw_sync_is_tried_first :
    (Track.rawcode_after (alternate_levels 1 frame_two_sections)).nb_sections = 2
      ∧ ((Track.rawcode_after (alternate_levels 1 frame_two_sections)).sections 0).sts
          = section_term_status_t.STS_SHORT_SEP
      ∧ ((Track.rawcode_after (alternate_levels 1 frame_two_sections)).sections 1).low_bands = 2
      ∧ ((Track.rawcode_after (alternate_levels 1 frame_two_sections)).sections 1).high_bands = 2
      ∧ ((Track.rawcode_after (alternate_levels 1 frame_two_sections)).sections 1).low_bits = 8
      ∧ ((Track.rawcode_after (alternate_levels 1 frame_two_sections)).sections 1).high_bits = 7
      ∧ (List.range 6).map (fun id =>
          match Track.decoded_with RF433ANY_CONV0 Indeterminate.zeroed 1
            ((Track.rawcode_after (alternate_levels 1 frame_two_sections)).sections 1) id with
          | Except.ok d => some (d.get_id, d.get_nb_errors)
          | Except.error _ => none)
        = [none, some (1, 0), some (2, 7), some (3, 7), some (4, 0), some (5, 0)]
      ∧ Track.get_data_after (alternate_levels 1 frame_two_sections) RF433ANY_FD_ALL
          RF433ANY_CONV0 Indeterminate.zeroed
        = some (trk_t.TRK_RECV, [(4, 0, 9, 0, [16, 1]), (1, 0, 7, 0, [])]) :=
  ⟨rfl, rfl, rfl, rfl, rfl, rfl, rfl, rfl⟩

/-- Claim C11, amended. Decoder selection: for every section that starts a new
decoder (pdec is null on entry) and whose two rails both have two bands with bit
counts differing by less than 2, get_data_core keeps the first decoder, in the
order RAW_SYNC (1), TRIBIT (2), TRIBIT_INV (3), MANCHESTER (4),
RAW_UNKNOWN_CODING (5), whose error count after decoding the section is 0: every
decoder tried before it has errors; and the RAW_UNKNOWN_CODING decoder, tried
last, always has nb_errors = 0 (so that a decoder is always kept and neither
assertion fires). -/
theorem Track.decoder_selection (convention : Nat) (u : Indeterminate) (i : Nat)
    (psec : Section) (hb : psec.low_bands = 2 ∧ psec.high_bands = 2)
    (hd : Int.natAbs ((psec.low_bits : Int) - (psec.high_bits : Int)) < 2) :
    (∃ d id, Track.core_decoder convention u i psec none = Except.ok d
        ∧ RF433ANY_ID_START ≤ id ∧ id ≤ RF433ANY_ID_END
        ∧ Track.decoded_with convention u i psec id = Except.ok d ∧ d.get_id = id
        ∧ d.get_nb_errors = 0
        ∧ ∀ id2, RF433ANY_ID_START ≤ id2 → id2 < id →
            ∃ d2, Track.decoded_with convention u i psec id2 = Except.ok d2
              ∧ d2.get_nb_errors ≠ 0)
      ∧ ∃ d5, Track.decoded_with convention u i psec RF433ANY_ID_RAW_UNKNOWN_CODING
            = Except.ok d5 ∧ d5.get_id = RF433ANY_ID_RAW_UNKNOWN_CODING
          ∧ d5.get_nb_errors = 0 := by
  constructor
  · obtain ⟨d, id, e, w, l, up, dw, g, z, f⟩ := Track.try_decoders_spec convention u i psec 4
      RF433ANY_ID_START (le_refl _) rfl
    refine ⟨d, id, ?_, l, up, dw, g, z, f⟩
    unfold Track.core_decoder
    rw [if_neg (by omega), if_neg (by rw [hb.1]; intro h; exact absurd h.1 (by decide)),
      if_neg (by rw [hb.1, hb.2]; intro h; rcases h with h | h <;> exact absurd h (by decide))]
    dsimp only
    have e2 : Track.try_decoders convention u i psec
        (RF433ANY_ID_END + 1 - RF433ANY_ID_START) RF433ANY_ID_START = Except.ok (some d) := e
    rw [e2]
  · obtain ⟨d, ed, gd, _, nd⟩ := Track.decoded_with_ok convention u i psec
      RF433ANY_ID_RAW_UNKNOWN_CODING (by decide) (by decide)
    exact ⟨d, ed, gd, nd rfl⟩

theorem Track.decoder_selection_witness :
    ∃ d5, Track.decoded_with RF433ANY_CONV0 Indeterminate.zeroed 1
          ((Track.rawcode_after (alternate_levels 1 frame_two_sections)).sections 1)
          RF433ANY_ID_RAW_UNKNOWN_CODING = Except.ok d5
        ∧ d5.get_id = RF433ANY_ID_RAW_UNKNOWN_CODING ∧ d5.get_nb_errors = 0 :=
  (Track.decoder_selection RF433ANY_CONV0 Indeterminate.zeroed 1
    ((Track.rawcode_after (alternate_levels 1 frame_two_sections)).sections 1)
    ⟨rfl, rfl⟩ (by decide)).2
/-! ## The shape of the chain of get_data_core -/

theorem Track.core_decoder_ok (convention : Nat) (u : Indeterminate) (i : Nat) (psec : Section)
    (pdec : Option Decoder) (hw : ∀ d, pdec = some d → d.Wf) :
    ∃ d, Track.core_decoder convention u i psec pdec = Except.ok d ∧ d.Wf := by
  have h0 : (Decoder.new_raw_inconsistent (u.decoder i RF433ANY_ID_RAW_INCONSISTENT)).Wf :=
    fun h => absurd h (show (0 : Nat) ≠ 4 by decide)
  unfold Track.core_decoder
  by_cases c1 : Int.natAbs ((psec.low_bits : Int) - (psec.high_bits : Int)) ≥ 2
  · rw [if_pos c1]
    cases pdec with
    | none => exact ⟨_, rfl, h0⟩
    | some d => exact ⟨d, rfl, hw d rfl⟩
  rw [if_neg c1]
  by_cases c2 : psec.low_bands = 1 ∧ psec.high_bands = 1
  · rw [if_pos c2]
    dsimp only
    cases pdec with
    | none =>
      dsimp only
      obtain ⟨d1, e1, _, w1, _⟩ := Decoder.take_first_ok
        (Decoder.new_raw_sync (u.decoder i RF433ANY_ID_RAW_SYNC)
          (if psec.low_bits < psec.high_bits then psec.low_bits else psec.high_bits))
        psec false (u.band i RF433ANY_ID_RAW_SYNC)
        (fun h => absurd h (show (1 : Nat) ≠ 4 by decide))
      exact ⟨d1, e1, w1⟩
    | some d =>
      refine ⟨_, rfl, ?_⟩
      have hd := hw d rfl
      unfold Decoder.add_sync
      by_cases h1 : d.get_id = RF433ANY_ID_RAW_SYNC
      · rw [if_pos h1]
        intro h4
        have h4b : d.get_id = RF433ANY_ID_MANCHESTER := h4
        exact hd h4b
      · rw [if_neg h1]
        exact hd
  rw [if_neg c2]
  by_cases c3 : psec.low_bands = 1 ∨ psec.high_bands = 1
  · rw [if_pos c3]
    cases pdec with
    | none => exact ⟨_, rfl, h0⟩
    | some d => exact ⟨d, rfl, hw d rfl⟩
  rw [if_neg c3]
  cases pdec with
  | none =>
    dsimp only
    obtain ⟨d, id, e, w, _⟩ := Track.try_decoders_spec convention u i psec 4
      RF433ANY_ID_START (le_refl _) rfl
    have e2 : Track.try_decoders convention u i psec
        (RF433ANY_ID_END + 1 - RF433ANY_ID_START) RF433ANY_ID_START = Except.ok (some d) := e
    rw [e2]
    exact ⟨d, rfl, w⟩
  | some d =>
    dsimp only
    obtain ⟨d1, e1, _, w1, _⟩ := Decoder.decode_section_ok d psec true (u.band i d.get_id)
      (hw d rfl)
    exact ⟨d1, e1, w1⟩

theorem Decoder.set_ts_timings (d : Decoder) (a : Nat) (ts : Timings) :
    (d.set_ts a ts).timings = ts ∧ ((d.set_ts a ts).Wf ↔ d.Wf) :=
  ⟨rfl, Iff.rfl⟩

theorem Track.core_loop_spec (rawcode : RawCode) (convention : Nat) (u : Indeterminate)
    (n : Nat) :
    ∀ (i : Nat) (chain : List Decoder) (pdec : Option Decoder),
      i + n ≤ RF433ANY_MAX_SECTIONS → (∀ d, pdec = some d → d.Wf) →
      ∃ res, Track.core_loop rawcode convention u n i chain pdec = Except.ok res
        ∧ res.map Decoder.timings = chain.map Decoder.timings ++
            ((List.range' i n).filter (fun j =>
              decide ((rawcode.sections j).sts ≠ section_term_status_t.STS_CONTINUED
                ∨ j = rawcode.nb_sections - 1))).map (fun j => (rawcode.sections j).ts) := by
  induction n with
  | zero =>
    intro i chain pdec _ _
    exact ⟨chain, rfl, by simp⟩
  | succ n ih =>
    intro i chain pdec hi hw
    unfold Track.core_loop
    rw [if_neg (not_not.2 (by omega))]
    dsimp only
    obtain ⟨d, ed, wd⟩ := Track.core_decoder_ok convention u i (rawcode.sections i) pdec hw
    rw [ed]
    dsimp only
    by_cases hf : (rawcode.sections i).sts ≠ section_term_status_t.STS_CONTINUED
        ∨ i = rawcode.nb_sections - 1
    · rw [if_pos hf]
      obtain ⟨res, er, mr⟩ := ih (i + 1)
        (chain ++ [d.set_ts (if chain ≠ [] then 0 else rawcode.initseq) (rawcode.sections i).ts])
        none (by omega) (fun _ h => by cases h)
      refine ⟨res, er, ?_⟩
      have hfd : decide ((rawcode.sections i).sts ≠ section_term_status_t.STS_CONTINUED
          ∨ i = rawcode.nb_sections - 1) = true := decide_eq_true hf
      rw [mr, List.range'_succ, List.filter_cons, if_pos hfd, List.map_append, List.map_cons,
        List.map_nil, List.map_cons, (Decoder.set_ts_timings d _ _).1, List.append_assoc]
      rfl
    · rw [if_neg hf]
      obtain ⟨res, er, mr⟩ := ih (i + 1) chain
        (some (d.set_ts (if chain ≠ [] then 0 else rawcode.initseq) (rawcode.sections i).ts))
        (by omega) (fun d2 h => by cases h; exact wd)
      refine ⟨res, er, ?_⟩
      have hfd : ¬ decide ((rawcode.sections i).sts ≠ section_term_status_t.STS_CONTINUED
          ∨ i = rawcode.nb_sections - 1) = true := fun h => hf (of_decide_eq_true h)
      rw [mr, List.range'_succ, List.filter_cons, if_neg hfd]
theorem Decoder.add_signal_steps_nil (dec : Decoder) :
    dec.add_signal_steps [] = Except.ok dec := rfl

theorem Spec.steps_nil (lr hr : Nat) : Spec.steps lr hr 0 0 = [] := rfl

theorem Rail.rail_sep_keeps (r : Rail) (d : Nat) :
    (Rail.rail_sep r d).b_short = r.b_short ∧ (Rail.rail_sep r d).b_long = r.b_long
      ∧ (Rail.rail_sep r d).recorded = r.recorded ∧ (Rail.rail_sep r d).index = r.index
      ∧ (Rail.rail_sep r d).mood = r.mood
      ∧ (Rail.rail_sep r d).last_bit_recorded = r.last_bit_recorded := by
  unfold Rail.rail_sep
  simp only []
  split_ifs <;> exact ⟨rfl, rfl, rfl, rfl, rfl, rfl⟩

theorem Rail.foldl_reachable (ds : List Nat) (hds : ∀ d ∈ ds, d < 65536) :
    ∀ r : Rail, Rail.Reachable r →
      Rail.Reachable (ds.foldl (fun r d => match r.rail_eat d with
        | some (r1, _) => r1
        | none => r) r) := by
  induction ds with
  | nil => intro r hr; exact hr
  | cons d ds ih =>
    intro r hr
    rw [List.foldl_cons]
    apply ih (fun x hx => hds x (List.mem_cons_of_mem _ hx))
    cases he : r.rail_eat d with
    | none => exact hr
    | some p =>
      obtain ⟨r1, b⟩ := p
      exact Rail.Reachable.eat r d r1 b hr (hds d (List.mem_cons_self _ _)) he

theorem Rail.after_reachable (mood : Nat) (ds : List Nat) (hds : ∀ d ∈ ds, d < 65536) :
    Rail.Reachable (Rail.after mood ds) :=
  Rail.foldl_reachable ds hds _ (Rail.Reachable.construct Rail.zeroed mood)

theorem Track.close_section_cases (recurse : Track → Nat → Nat → Except Fault Track)
    (t0 : Track) (r d : Nat) (hnb : t0.rawcode.nb_sections < RF433ANY_MAX_SECTIONS) :
    ((t0.close_sts ≠ section_term_status_t.STS_ERROR
        ∧ (¬ (t0.r_low.index < TRACK_MIN_BITS ∨ t0.r_high.index < TRACK_MIN_BITS)
          ∨ (t0.rawcode.nb_sections ≠ 0
            ∧ (t0.rawcode.sections (t0.rawcode.nb_sections - 1)).sts
                = section_term_status_t.STS_CONTINUED))) →
      ∃ t1, Track.close_section recurse t0 r d = Except.ok t1
        ∧ t1.rawcode.nb_sections = t0.rawcode.nb_sections + 1
        ∧ t1.rawcode.sections t0.rawcode.nb_sections
            = Track.make_section t0.promoted
                (Track.same_timings t0.promoted.r_low t0.promoted.r_high).1
                (Track.same_timings t0.promoted.r_low t0.promoted.r_high).2 t0.close_sts d
        ∧ (∀ i, i ≠ t0.rawcode.nb_sections → t1.rawcode.sections i = t0.rawcode.sections i)
        ∧ t1.trk = (if t0.rawcode.nb_sections + 1 = RF433ANY_MAX_SECTIONS then trk_t.TRK_DATA
            else trk_t.TRK_RECV)
        ∧ t1.rawcode.initseq = t0.rawcode.initseq)
    ∧ (¬ (t0.close_sts ≠ section_term_status_t.STS_ERROR
        ∧ (¬ (t0.r_low.index < TRACK_MIN_BITS ∨ t0.r_high.index < TRACK_MIN_BITS)
          ∨ (t0.rawcode.nb_sections ≠ 0
            ∧ (t0.rawcode.sections (t0.rawcode.nb_sections - 1)).sts
                = section_term_status_t.STS_CONTINUED))) →
      Track.close_section recurse t0 r d =
        if t0.rawcode.nb_sections ≠ 0 then Except.ok { t0.promoted with trk := trk_t.TRK_DATA }
        else recurse t0.promoted.treset r d) := by
  have hlo : t0.promoted.r_low.index = t0.r_low.index := by
    unfold Track.promoted; simp only []; split_ifs <;> rfl
  have hhi : t0.promoted.r_high.index = t0.r_high.index := by
    unfold Track.promoted; simp only []; split_ifs <;> rfl
  have hnb1 : (t0.rawcode.nb_sections + 1) % 256 = t0.rawcode.nb_sections + 1 := by
    simp only [RF433ANY_MAX_SECTIONS] at hnb
    omega
  have hb : ¬ (decide (t0.promoted.r_low.index < TRACK_MIN_BITS
        ∨ t0.promoted.r_high.index < TRACK_MIN_BITS) = true
      ∧ Track.section_sts t0.promoted.r_low t0.promoted.r_high ≠ section_term_status_t.STS_ERROR
      ∧ t0.promoted.rawcode.nb_sections ≠ 0
      ∧ ¬ (t0.promoted.rawcode.nb_sections - 1 < RF433ANY_MAX_SECTIONS)) := by
    rintro ⟨_, _, _, h4⟩
    apply h4
    have : t0.promoted.rawcode.nb_sections = t0.rawcode.nb_sections := rfl
    rw [this]
    omega
  have hunf : Track.close_section recurse t0 r d =
      if (if decide (t0.promoted.r_low.index < TRACK_MIN_BITS
              ∨ t0.promoted.r_high.index < TRACK_MIN_BITS) = true then
            decide (t0.close_sts ≠ section_term_status_t.STS_ERROR
              ∧ t0.rawcode.nb_sections ≠ 0
              ∧ (t0.rawcode.sections (t0.rawcode.nb_sections - 1)).sts
                  = section_term_status_t.STS_CONTINUED)
          else decide (t0.close_sts ≠ section_term_status_t.STS_ERROR)) = true then
        (if ¬ (t0.rawcode.nb_sections < RF433ANY_MAX_SECTIONS) then Except.error Fault.bounds
         else
          let st := Track.same_timings t0.promoted.r_low t0.promoted.r_high
          let sec := Track.make_section t0.promoted st.1 st.2 t0.close_sts d
          let nb1 := (t0.rawcode.nb_sections + 1) % 256
          let trk1 : trk_t :=
            if nb1 = RF433ANY_MAX_SECTIONS then trk_t.TRK_DATA else trk_t.TRK_RECV
          let t1 : Track :=
            { t0.promoted with
              r_low := st.1
              trk := trk1
              rawcode := { t0.promoted.rawcode with
                nb_sections := nb1
                sections := fun i => if i = t0.rawcode.nb_sections then sec
                  else t0.promoted.rawcode.sections i } }
          if trk1 = trk_t.TRK_RECV then
            let t2 : Track :=
              { t1 with r_low := t1.r_low.rreset_soft, r_high := t1.r_high.rreset_soft }
            if t0.close_sts ≠ section_term_status_t.STS_CONTINUED then
              Except.ok t2.reset_border_mgmt
            else Except.ok t2
          else Except.ok t1)
      else
        if t0.rawcode.nb_sections ≠ 0 then Except.ok { t0.promoted with trk := trk_t.TRK_DATA }
        else recurse t0.promoted.treset r d := by
    have h1 : Track.close_section recurse t0 r d = _ := rfl
    rw [h1]
    exact if_neg hb
  rw [hunf]
  constructor
  · rintro ⟨hsts, hrec⟩
    have hcond : (if decide (t0.promoted.r_low.index < TRACK_MIN_BITS
              ∨ t0.promoted.r_high.index < TRACK_MIN_BITS) = true then
            decide (t0.close_sts ≠ section_term_status_t.STS_ERROR
              ∧ t0.rawcode.nb_sections ≠ 0
              ∧ (t0.rawcode.sections (t0.rawcode.nb_sections - 1)).sts
                  = section_term_status_t.STS_CONTINUED)
          else decide (t0.close_sts ≠ section_term_status_t.STS_ERROR)) = true := by
      rw [hlo, hhi]
      by_cases ht : t0.r_low.index < TRACK_MIN_BITS ∨ t0.r_high.index < TRACK_MIN_BITS
      · rw [if_pos (decide_eq_true ht)]
        rcases hrec with h | h
        · exact absurd ht h
        · exact decide_eq_true ⟨hsts, h.1, h.2⟩
      · rw [if_neg (by simpa using ht)]
        exact decide_eq_true hsts
    rw [if_pos hcond, if_neg (not_not.2 hnb)]
    simp only [hnb1]
    by_cases h8 : t0.rawcode.nb_sections + 1 = RF433ANY_MAX_SECTIONS
    · rw [if_pos h8, if_neg (by decide)]
      refine ⟨_, rfl, rfl, ?_, ?_, rfl, rfl⟩
      · simp only [if_true]
      · intro i hi
        simp only [if_neg hi]
        rfl
    · rw [if_neg h8, if_pos rfl]
      by_cases hc : t0.close_sts ≠ section_term_status_t.STS_CONTINUED
      · rw [if_pos hc]
        refine ⟨_, rfl, rfl, ?_, ?_, rfl, rfl⟩
        · simp only [Track.reset_border_mgmt, if_true]
        · intro i hi
          simp only [Track.reset_border_mgmt, if_neg hi]
          rfl
      · rw [if_neg hc]
        refine ⟨_, rfl, rfl, ?_, ?_, rfl, rfl⟩
        · simp only [if_true]
        · intro i hi
          simp only [if_neg hi]
          rfl
  · intro hno
    have hcond : ¬ (if decide (t0.promoted.r_low.index < TRACK_MIN_BITS
              ∨ t0.promoted.r_high.index < TRACK_MIN_BITS) = true then
            decide (t0.close_sts ≠ section_term_status_t.STS_ERROR
              ∧ t0.rawcode.nb_sections ≠ 0
              ∧ (t0.rawcode.sections (t0.rawcode.nb_sections - 1)).sts
                  = section_term_status_t.STS_CONTINUED)
          else decide (t0.close_sts ≠ section_term_status_t.STS_ERROR)) = true := by
      rw [hlo, hhi]
      by_cases ht : t0.r_low.index < TRACK_MIN_BITS ∨ t0.r_high.index < TRACK_MIN_BITS
      · rw [if_pos (decide_eq_true ht)]
        intro hh
        have := of_decide_eq_true hh
        exact hno ⟨this.1, Or.inr ⟨this.2.1, this.2.2⟩⟩
      · rw [if_neg (by simpa using ht)]
        intro hh
        exact hno ⟨of_decide_eq_true hh, Or.inl ht⟩
    rw [if_neg hcond]
theorem Track.promoted_status (t0 : Track) :
    t0.promoted.r_low.status ≠ RailStatus.RAIL_OPEN
      ∧ t0.promoted.r_high.status ≠ RailStatus.RAIL_OPEN
      ∧ t0.promoted.r_low.last_bit_recorded = t0.r_low.last_bit_recorded
      ∧ (t0.r_low.status ≠ RailStatus.RAIL_OPEN → t0.promoted.r_low = t0.r_low)
      ∧ (t0.r_high.status ≠ RailStatus.RAIL_OPEN → t0.promoted.r_high = t0.r_high)
      ∧ (t0.r_low.status = RailStatus.RAIL_OPEN →
          t0.promoted.r_low.status = RailStatus.RAIL_CLOSED)
      ∧ (t0.r_high.status = RailStatus.RAIL_OPEN →
          t0.promoted.r_high.status = RailStatus.RAIL_CLOSED) := by
  unfold Track.promoted
  simp only []
  by_cases h1 : t0.r_low.status = RailStatus.RAIL_OPEN <;>
    by_cases h2 : t0.r_high.status = RailStatus.RAIL_OPEN <;>
    simp [h1, h2]

/-- Claim C23. Terminal status table: at every section close in track_eat, after
any still-open rail has been promoted to CLOSED (no rail is OPEN any more), sts
is CONTINUED if both rails are FULL; otherwise, if the high rail is
STOP_RECEIVED, sts is SEP_SEP when the low rail is STOP_RECEIVED and, when the
low rail is CLOSED, FULL or ERROR, SHORT_SEP if the low rail's
last_bit_recorded is 0 and LONG_SEP if it is not (1 is the other value rail_eat
writes); in every other combination sts is ERROR. This value is the sts of the
section when the close records one. -/
theorem Track.terminal_status_table (recurse : Track → Nat → Nat → Except Fault Track)
    (t0 : Track) (r d : Nat) (hnb : t0.rawcode.nb_sections < RF433ANY_MAX_SECTIONS) :
    t0.promoted.r_low.status ≠ RailStatus.RAIL_OPEN
      ∧ t0.promoted.r_high.status ≠ RailStatus.RAIL_OPEN
      ∧ (t0.promoted.r_low.status = RailStatus.RAIL_FULL
          ∧ t0.promoted.r_high.status = RailStatus.RAIL_FULL →
          t0.close_sts = section_term_status_t.STS_CONTINUED)
      ∧ (t0.promoted.r_high.status = RailStatus.RAIL_STP_RCVD →
          t0.promoted.r_low.status = RailStatus.RAIL_STP_RCVD →
          t0.close_sts = section_term_status_t.STS_SEP_SEP)
      ∧ (t0.promoted.r_high.status = RailStatus.RAIL_STP_RCVD →
          (t0.promoted.r_low.status = RailStatus.RAIL_CLOSED
            ∨ t0.promoted.r_low.status = RailStatus.RAIL_FULL
            ∨ t0.promoted.r_low.status = RailStatus.RAIL_ERROR) →
          (t0.r_low.last_bit_recorded = 0 →
              t0.close_sts = section_term_status_t.STS_SHORT_SEP)
            ∧ (t0.r_low.last_bit_recorded ≠ 0 →
              t0.close_sts = section_term_status_t.STS_LONG_SEP))
      ∧ (¬ (t0.promoted.r_low.status = RailStatus.RAIL_FULL
            ∧ t0.promoted.r_high.status = RailStatus.RAIL_FULL) →
          t0.promoted.r_high.status ≠ RailStatus.RAIL_STP_RCVD →
          t0.close_sts = section_term_status_t.STS_ERROR)
      ∧ (∀ t1, Track.close_section recurse t0 r d = Except.ok t1 →
          t0.close_sts ≠ section_term_status_t.STS_ERROR
            ∧ (¬ (t0.r_low.index < TRACK_MIN_BITS ∨ t0.r_high.index < TRACK_MIN_BITS)
              ∨ (t0.rawcode.nb_sections ≠ 0
                ∧ (t0.rawcode.sections (t0.rawcode.nb_sections - 1)).sts
                    = section_term_status_t.STS_CONTINUED)) →
          (t1.rawcode.sections t0.rawcode.nb_sections).sts = t0.close_sts) := by
  obtain ⟨p1, p2, p3, _⟩ := Track.promoted_status t0
  refine ⟨p1, p2, ?_, ?_, ?_, ?_, ?_⟩
  · intro hf
    unfold Track.close_sts Track.section_sts
    rw [if_pos hf]
  · intro hh hl
    unfold Track.close_sts Track.section_sts
    rw [if_neg (by rw [hh]; intro h; exact absurd h.2 (by decide)), if_pos hh,
      if_neg (by rw [hl]; intro h; rcases h with h | h | h <;> exact absurd h (by decide)),
      if_pos hl]
  · intro hh hl
    unfold Track.close_sts Track.section_sts
    rw [if_neg (by rw [hh]; intro h; exact absurd h.2 (by decide)), if_pos hh, if_pos hl, p3]
    constructor
    · intro h0; rw [if_neg (not_not.2 h0)]
    · intro h1; rw [if_pos h1]
  · intro hf hh
    unfold Track.close_sts Track.section_sts
    rw [if_neg hf, if_neg hh]
  · intro t1 he hc
    obtain ⟨t2, e2, _, hsec, _⟩ := (Track.close_section_cases recurse t0 r d hnb).1 hc
    rw [e2] at he
    rw [← Except.ok.inj he, hsec]
    rfl

theorem Track.terminal_status_table_witness :
    (Track.fed (alternate_levels 1 scenario_S1.dropLast)).promoted.r_low.status
        ≠ RailStatus.RAIL_OPEN
      ∧ (Track.fed (alternate_levels 1 scenario_S1.dropLast)).promoted.r_high.status
        ≠ RailStatus.RAIL_OPEN :=
  ⟨(Track.terminal_status_table (Track.track_eat 1)
      (Track.fed (alternate_levels 1 scenario_S1.dropLast)) 1 11000 (by decide)).1,
   (Track.terminal_status_table (Track.track_eat 1)
      (Track.fed (alternate_levels 1 scenario_S1.dropLast)) 1 11000 (by decide)).2.1⟩
/-- Claim C24. Record decision table: at every section close (nb_sections being
below RF433ANY_MAX_SECTIONS, as in every Track that is receiving), with
tiny ⇔ min(r_low.index, r_high.index) < 7, the section is recorded (nb_sections
grows by one, the new section is written at the old nb_sections, the others are
left as they are) if sts ≠ ERROR and (not tiny, or (nb_sections > 0 and the
previously recorded section has sts = CONTINUED)); otherwise it is not recorded
and the Track goes to DATA if nb_sections > 0, and else restarts: treset, which
leaves it in WAIT with no section, then the re-entrant call of track_eat. -/
theorem Track.record_decision_table (recurse : Track → Nat → Nat → Except Fault Track)
    (t0 : Track) (r d : Nat) (hnb : t0.rawcode.nb_sections < RF433ANY_MAX_SECTIONS) :
    ((t0.close_sts ≠ section_term_status_t.STS_ERROR
        ∧ (¬ (min t0.r_low.index t0.r_high.index < TRACK_MIN_BITS)
          ∨ (0 < t0.rawcode.nb_sections
            ∧ (t0.rawcode.sections (t0.rawcode.nb_sections - 1)).sts
                = section_term_status_t.STS_CONTINUED))) →
      ∃ t1, Track.close_section recurse t0 r d = Except.ok t1
        ∧ t1.rawcode.nb_sections = t0.rawcode.nb_sections + 1
        ∧ (t1.rawcode.sections t0.rawcode.nb_sections).sts = t0.close_sts
        ∧ (∀ i, i ≠ t0.rawcode.nb_sections → t1.rawcode.sections i = t0.rawcode.sections i)
        ∧ t1.trk = (if t0.rawcode.nb_sections + 1 = RF433ANY_MAX_SECTIONS then trk_t.TRK_DATA
            else trk_t.TRK_RECV))
    ∧ (¬ (t0.close_sts ≠ section_term_status_t.STS_ERROR
        ∧ (¬ (min t0.r_low.index t0.r_high.index < TRACK_MIN_BITS)
          ∨ (0 < t0.rawcode.nb_sections
            ∧ (t0.rawcode.sections (t0.rawcode.nb_sections - 1)).sts
                = section_term_status_t.STS_CONTINUED))) →
      (0 < t0.rawcode.nb_sections →
          Track.close_section recurse t0 r d
              = Except.ok { t0.promoted with trk := trk_t.TRK_DATA }
            ∧ t0.promoted.rawcode = t0.rawcode)
        ∧ (t0.rawcode.nb_sections = 0 →
          Track.close_section recurse t0 r d = recurse t0.promoted.treset r d
            ∧ t0.promoted.treset.trk = trk_t.TRK_WAIT
            ∧ t0.promoted.treset.rawcode.nb_sections = 0)) := by
  have hmin : min t0.r_low.index t0.r_high.index < TRACK_MIN_BITS
      ↔ (t0.r_low.index < TRACK_MIN_BITS ∨ t0.r_high.index < TRACK_MIN_BITS) := min_lt_iff
  have hpos : 0 < t0.rawcode.nb_sections ↔ t0.rawcode.nb_sections ≠ 0 := Nat.pos_iff_ne_zero
  rw [hmin, hpos]
  obtain ⟨c1, c2⟩ := Track.close_section_cases recurse t0 r d hnb
  constructor
  · intro hc
    obtain ⟨t1, e, h1, h2, h3, h4, _⟩ := c1 hc
    refine ⟨t1, e, h1, ?_, h3, h4⟩
    rw [h2]
    rfl
  · intro hc
    have e := c2 hc
    constructor
    · intro hp
      rw [e, if_pos hp]
      exact ⟨rfl, rfl⟩
    · intro h0
      rw [e, if_neg (not_not.2 h0)]
      exact ⟨rfl, rfl, rfl⟩

theorem Track.record_decision_table_witness :
    Track.close_section (Track.track_eat 1) (Track.fed [(1, 9000), (0, 620), (1, 620)]) 1 8000
        = Track.track_eat 1 (Track.fed [(1, 9000), (0, 620), (1, 620)]).promoted.treset 1 8000
      ∧ (Track.fed [(1, 9000), (0, 620), (1, 620)]).promoted.treset.trk = trk_t.TRK_WAIT
      ∧ (Track.fed [(1, 9000), (0, 620), (1, 620)]).promoted.treset.rawcode.nb_sections = 0 :=
  ((Track.record_decision_table (Track.track_eat 1) (Track.fed [(1, 9000), (0, 620), (1, 620)])
    1 8000 (by decide)).2 (by decide)).2 (by decide)

theorem Band.test_value_got (b : Band) (v : Nat) :
    (b.test_value v).got_it = decide (b.mid ≠ 0 ∧ b.inf ≤ v ∧ v ≤ b.sup)
      ∧ (b.test_value v).mid = b.mid ∧ (b.test_value v).inf = b.inf
      ∧ (b.test_value v).sup = b.sup := by
  unfold Band.test_value
  by_cases h : b.mid = 0
  · rw [if_pos h]
    simp [h]
  · rw [if_neg h]
    simp [h]

theorem Track.same_timings_iff (lo hi : Rail) :
    ((Track.same_timings lo hi).2 = true ↔
        ((lo.b_short.test_value hi.b_short.mid).got_it = true
          ∧ (lo.b_short.test_value hi.b_long.mid).got_it = false
          ∧ (lo.b_long.test_value hi.b_short.mid).got_it = false
          ∧ (lo.b_long.test_value hi.b_long.mid).got_it = true))
      ∧ (Track.same_timings lo hi).1.b_short.mid = lo.b_short.mid
      ∧ (Track.same_timings lo hi).1.b_long.mid = lo.b_long.mid
      ∧ (Track.same_timings lo hi).1.recorded = lo.recorded
      ∧ (Track.same_timings lo hi).1.index = lo.index := by
  have key : ∀ (b : Band) (g : Bool) (v : Nat),
      (({ b with got_it := g } : Band).test_value v).got_it = (b.test_value v).got_it := by
    intro b g v
    rw [(Band.test_value_got _ v).1, (Band.test_value_got b v).1]
  have key2 : ∀ (b : Band) (v : Nat), ∃ g, b.test_value v = { b with got_it := g } := by
    intro b v
    unfold Band.test_value
    split_ifs <;> exact ⟨_, rfl⟩
  unfold Track.same_timings
  simp only []
  obtain ⟨g1, e1⟩ := key2 lo.b_short hi.b_short.mid
  rw [e1]
  obtain ⟨g2, e2⟩ := key2 { lo.b_short with got_it := g1 } hi.b_long.mid
  rw [e2]
  have e2b : (lo.b_short.test_value hi.b_long.mid).got_it = g2 := by
    rw [← key lo.b_short g1, e2]
  rw [e2b]
  obtain ⟨g3, e3⟩ := key2 lo.b_long hi.b_short.mid
  rw [e3]
  obtain ⟨g4, e4⟩ := key2 { lo.b_long with got_it := g3 } hi.b_long.mid
  rw [e4]
  have e4b : (lo.b_long.test_value hi.b_long.mid).got_it = g4 := by
    rw [← key lo.b_long g3, e4]
  rw [e4b]
  cases g1 <;> cases g2 <;> cases g3 <;> cases g4 <;> simp
theorem Rail.inv_mid_le (r : Rail) (h : r.Inv) :
    r.b_short.mid ≤ 30000 ∧ r.b_long.mid ≤ 30000 := by
  rcases h.1 with ⟨hs, hl⟩ | ⟨hs, hl⟩
  · rw [hs.2.1, hl.2.1]; exact ⟨by omega, by omega⟩
  · exact ⟨hs.2.2, hl.2.2⟩

theorem Track.promoted_rails (t0 : Track) :
    t0.promoted.r_low.b_short = t0.r_low.b_short ∧ t0.promoted.r_low.b_long = t0.r_low.b_long
      ∧ t0.promoted.r_high.b_short = t0.r_high.b_short
      ∧ t0.promoted.r_high.b_long = t0.r_high.b_long := by
  unfold Track.promoted
  simp only []
  by_cases h1 : t0.r_low.status = RailStatus.RAIL_OPEN <;>
    by_cases h2 : t0.r_high.status = RailStatus.RAIL_OPEN <;>
    simp [h1, h2]

/-- Claim C25. Section timings: when a section is recorded at a close (the rails
satisfying the Rail invariant, as the rails of every reachable Track do), if the
low rail's short band accepts (test_value) the high rail's short mid, the low
long band accepts the high long mid, and neither cross-acceptance holds (low
short does not accept high long, low long does not accept high short), then
ts.low_short = ⌊(low.b_short.mid + high.b_short.mid)/2⌋,
ts.low_long = ⌊(low.b_long.mid + high.b_long.mid)/2⌋ and
ts.high_short = ts.high_long = 0; otherwise the four timings are the four band
mids; the two sums are below 65536. -/
theorem Track.section_timings (recurse : Track → Nat → Nat → Except Fault Track)
    (t0 : Track) (r d : Nat) (hnb : t0.rawcode.nb_sections < RF433ANY_MAX_SECTIONS)
    (hlo : t0.r_low.Inv) (hhi : t0.r_high.Inv) (t1 : Track)
    (he : Track.close_section recurse t0 r d = Except.ok t1)
    (hrec : t0.close_sts ≠ section_term_status_t.STS_ERROR
        ∧ (¬ (t0.r_low.index < TRACK_MIN_BITS ∨ t0.r_high.index < TRACK_MIN_BITS)
          ∨ (t0.rawcode.nb_sections ≠ 0
            ∧ (t0.rawcode.sections (t0.rawcode.nb_sections - 1)).sts
                = section_term_status_t.STS_CONTINUED))) :
    t1.rawcode.nb_sections = t0.rawcode.nb_sections + 1
      ∧ (((t0.r_low.b_short.test_value t0.r_high.b_short.mid).got_it = true
            ∧ (t0.r_low.b_long.test_value t0.r_high.b_long.mid).got_it = true
            ∧ (t0.r_low.b_short.test_value t0.r_high.b_long.mid).got_it = false
            ∧ (t0.r_low.b_long.test_value t0.r_high.b_short.mid).got_it = false) →
          (t1.rawcode.sections t0.rawcode.nb_sections).ts.low_short
              = (t0.r_low.b_short.mid + t0.r_high.b_short.mid) / 2
            ∧ (t1.rawcode.sections t0.rawcode.nb_sections).ts.low_long
              = (t0.r_low.b_long.mid + t0.r_high.b_long.mid) / 2
            ∧ (t1.rawcode.sections t0.rawcode.nb_sections).ts.high_short = 0
            ∧ (t1.rawcode.sections t0.rawcode.nb_sections).ts.high_long = 0)
      ∧ (¬ ((t0.r_low.b_short.test_value t0.r_high.b_short.mid).got_it = true
            ∧ (t0.r_low.b_long.test_value t0.r_high.b_long.mid).got_it = true
            ∧ (t0.r_low.b_short.test_value t0.r_high.b_long.mid).got_it = false
            ∧ (t0.r_low.b_long.test_value t0.r_high.b_short.mid).got_it = false) →
          (t1.rawcode.sections t0.rawcode.nb_sections).ts.low_short = t0.r_low.b_short.mid
            ∧ (t1.rawcode.sections t0.rawcode.nb_sections).ts.low_long = t0.r_low.b_long.mid
            ∧ (t1.rawcode.sections t0.rawcode.nb_sections).ts.high_short
              = t0.r_high.b_short.mid
            ∧ (t1.rawcode.sections t0.rawcode.nb_sections).ts.high_long
              = t0.r_high.b_long.mid)
      ∧ t0.r_low.b_short.mid + t0.r_high.b_short.mid < 65536
      ∧ t0.r_low.b_long.mid + t0.r_high.b_long.mid < 65536 := by
  obtain ⟨t2, e2, h1, hsec, _⟩ := (Track.close_section_cases recurse t0 r d hnb).1 hrec
  rw [e2] at he
  have ht : t2 = t1 := Except.ok.inj he
  subst ht
  obtain ⟨l1, l2⟩ := Rail.inv_mid_le _ hlo
  obtain ⟨g1, g2⟩ := Rail.inv_mid_le _ hhi
  obtain ⟨p1, p2, p3, p4⟩ := Track.promoted_rails t0
  obtain ⟨s1, s2, s3, _⟩ := Track.same_timings_iff t0.promoted.r_low t0.promoted.r_high
  simp only [p1, p2, p3, p4] at s1 s2 s3
  refine ⟨h1, ?_, ?_, by omega, by omega⟩
  · rintro ⟨a1, a2, a3, a4⟩
    have hsh : (Track.same_timings t0.promoted.r_low t0.promoted.r_high).2 = true :=
      s1.2 ⟨a1, a3, a4, a2⟩
    rw [hsec]
    unfold Track.make_section
    simp only [hsh, if_true]
    rw [s2, s3, p3, p4, Nat.mod_eq_of_lt (by omega), Nat.mod_eq_of_lt (by omega), shr_eq_div,
      shr_eq_div]
    exact ⟨rfl, rfl, trivial, trivial⟩
  · intro hn
    have hsh : (Track.same_timings t0.promoted.r_low t0.promoted.r_high).2 = false := by
      cases hx : (Track.same_timings t0.promoted.r_low t0.promoted.r_high).2
      · rfl
      · exfalso
        obtain ⟨a1, a3, a4, a2⟩ := s1.1 hx
        exact hn ⟨a1, a2, a3, a4⟩
    rw [hsec]
    unfold Track.make_section
    simp only [hsh, Bool.false_eq_true, if_false]
    rw [s2, s3, p3, p4]
    exact ⟨rfl, rfl, rfl, rfl⟩
theorem Track.eat_edge_enforced (t : Track) (prail : Rail) (d : Nat) :
    Track.eat_edge t prail true d = some (prail, true, false) := by
  unfold Track.eat_edge
  by_cases h1 : (d < BAND_MIN_D ∨ d ≥ t.rawcode.max_code_d) ∧ t.count < TRACK_MIN_BITS
  · rw [if_pos h1]
  · rw [if_neg h1]
    by_cases h2 : Int.natAbs ((t.r_low.index : Int) - (t.r_high.index : Int)) ≥ 2
    · rw [if_pos h2]
    · rw [if_neg h2]
      rfl

theorem Track.close_sts_error (t0 : Track) (h : t0.r_high.status = RailStatus.RAIL_OPEN) :
    t0.close_sts = section_term_status_t.STS_ERROR := by
  have hc := (Track.promoted_status t0).2.2.2.2.2.2 h
  unfold Track.close_sts Track.section_sts
  rw [if_neg (by rw [hc]; intro hh; exact absurd hh.2 (by decide)),
    if_neg (by rw [hc]; decide)]

theorem Track.missed_edge_step (recurse : Track → Nat → Nat → Except Fault Track)
    (t : Track) (r d : Nat) (hprev : r = t.prev_r)
    (hcount : 2 ≤ t.count ∧ t.count < 256)
    (hnb : t.rawcode.nb_sections < RF433ANY_MAX_SECTIONS)
    (hhigh : t.r_high.status = RailStatus.RAIL_OPEN)
    (hopen : (if r = 0 then t.r_low else t.r_high).status = RailStatus.RAIL_OPEN) :
    ∃ t3 : Track, t3.rawcode = t.rawcode
      ∧ Track.track_eat_recv recurse t r d =
        if t.rawcode.nb_sections ≠ 0 then Except.ok { t3.promoted with trk := trk_t.TRK_DATA }
        else recurse t3.promoted.treset 1 d := by
  have hc1 : ¬ (t.count + 1) % 256 = 1 := by omega
  have hc2 : ¬ (t.count + 1) % 256 = 2 := by omega
  unfold Track.track_eat_recv
  simp only []
  rw [if_neg hc1, if_neg hc2, if_neg (not_not.2 hopen), decide_eq_true hprev,
    Track.eat_edge_enforced]
  simp only [if_true, Bool.not_false, true_or, and_self]
  by_cases hr0 : r = 0
  · simp only [hr0, if_true]
    have hno := (Track.close_section_cases recurse
      { trk := t.trk, count := (t.count + 1) % 256, r_low := t.r_low, r_high := t.r_high
        prev_r := 0, first_low := t.first_low, first_high := t.first_high, last_low := d
        rawcode := t.rawcode } 1 d hnb).2
      (fun hh => hh.1 (Track.close_sts_error _ hhigh))
    exact ⟨{ trk := t.trk, count := (t.count + 1) % 256, r_low := t.r_low, r_high := t.r_high
             prev_r := 0, first_low := t.first_low, first_high := t.first_high, last_low := d
             rawcode := t.rawcode }, rfl, hno⟩
  · simp only [hr0, if_false]
    have hno := (Track.close_section_cases recurse
      { trk := t.trk, count := (t.count + 1) % 256, r_low := t.r_low, r_high := t.r_high
        prev_r := r, first_low := t.first_low, first_high := t.first_high
        last_low := t.last_low, rawcode := t.rawcode } 1 d hnb).2
      (fun hh => hh.1 (Track.close_sts_error _ hhigh))
    exact ⟨{ trk := t.trk, count := (t.count + 1) % 256, r_low := t.r_low, r_high := t.r_high
             prev_r := r, first_low := t.first_low, first_high := t.first_high
             last_low := t.last_low, rawcode := t.rawcode }, rfl, hno⟩
/-- Claim C21 fails on the code: a fresh Track fed (HIGH, 9000), (LOW, 620),
(HIGH, 620) is in RECV with count = 2 and initseq = 9000; the LOW edge
(0, 8000), too long for a code (max_code_d = 6750), is the third edge of the
section: enforce_b_to_false is set, r is overwritten with 1, the section is
closed as an error and discarded, and the re-entrant call track_eat(r, d) after
treset is made with r = 1: it takes the LOW edge as the init sequence of a new
frame (RECV, count = 0, initseq = 8000, max_code_d = 6000, prev_r = 1). -/
theorem Track.low_edge_starts_a_frame :
    (Track.fed [(1, 9000), (0, 620), (1, 620)]).trk = trk_t.TRK_RECV
      ∧ (Track.fed [(1, 9000), (0, 620), (1, 620)]).count = 2
      ∧ (Track.fed [(1, 9000), (0, 620), (1, 620)]).rawcode.initseq = 9000
      ∧ (Track.fed [(1, 9000), (0, 620), (1, 620)]).rawcode.max_code_d = 6750
      ∧ (match Track.track_eat 2 (Track.fed [(1, 9000), (0, 620), (1, 620)]) 0 8000 with
          | Except.ok t => some (t.trk, t.count, t.rawcode.initseq, t.rawcode.max_code_d,
              t.prev_r, t.rawcode.nb_sections, t.r_low.get_band_count, t.r_high.get_band_count)
          | Except.error _ => none)
        = some (trk_t.TRK_RECV, 0, 8000, 6000, 1, 0, 0, 0) :=
  ⟨rfl, rfl, rfl, rfl, rfl⟩

/-- Claim C22 fails on the code: a fresh Track fed (HIGH, 9000) is in RECV with
prev_r = 1 and count = 0; the edge (HIGH, 620), whose level is that of the
previous edge, is not taken as a missed edge: it is the first edge of the
section and is stored as first_low; the Track stays in RECV with count = 1, the
same initseq, and has not been restarted. The second edge of a section is kept
the same way: after (HIGH, 9000), (LOW, 620) the edge (LOW, 620) is stored as
first_high and the Track stays in RECV with count = 2. The flag that the test
r == prev_r sets is read only after the branches count == 1 and count == 2 have
returned. -/
theorem Track.missed_first_edge_is_kept :
    (Track.fed [(1, 9000)]).trk = trk_t.TRK_RECV
      ∧ (Track.fed [(1, 9000)]).prev_r = 1
      ∧ (Track.fed [(1, 9000)]).count = 0
      ∧ (match Track.track_eat 2 (Track.fed [(1, 9000)]) 1 620 with
          | Except.ok t => some (t.trk, t.count, t.first_low, t.rawcode.initseq,
              t.rawcode.nb_sections)
          | Except.error _ => none)
        = some (trk_t.TRK_RECV, 1, 620, 9000, 0)
      ∧ (Track.fed [(1, 9000), (0, 620)]).prev_r = 0
      ∧ (match Track.track_eat 2 (Track.fed [(1, 9000), (0, 620)]) 0 620 with
          | Except.ok t => some (t.trk, t.count, t.first_low, t.first_high, t.rawcode.initseq,
              t.rawcode.nb_sections)
          | Except.error _ => none)
        = some (trk_t.TRK_RECV, 2, 620, 620, 9000, 0) :=
  ⟨rfl, rfl, rfl, rfl, rfl, rfl⟩

-- A same-level edge once the two leading edges of the section have been taken
-- (2 ≤ count) and while its rail is open: track_eat closes the section without
-- recording it; the Track goes to DATA if sections had been recorded, and is
-- otherwise restarted with the edge fed again from WAIT, its level having been
-- overwritten with 1.
theorem Track.missed_edge (t : Track) (h : Track.Reachable t) (r d fuel : Nat)
    (ht : t.trk = trk_t.TRK_RECV) (hprev : r = t.prev_r)
    (hcount : 2 ≤ t.count ∧ t.count < 256)
    (hopen : (if r = 0 then t.r_low else t.r_high).status = RailStatus.RAIL_OPEN) :
    ∃ t1, Track.track_eat (fuel + 2) t r d = Except.ok t1
      ∧ t1.rawcode.nb_sections = t.rawcode.nb_sections
      ∧ t1.rawcode.sections = t.rawcode.sections
      ∧ (t.rawcode.nb_sections ≠ 0 → t1.trk = trk_t.TRK_DATA)
      ∧ (t.rawcode.nb_sections = 0 →
          (TRACK_MIN_INITSEQ_DURATION ≤ d →
              t1.trk = trk_t.TRK_RECV ∧ t1.count = 0 ∧ t1.rawcode.initseq = d)
            ∧ (d < TRACK_MIN_INITSEQ_DURATION → t1.trk = trk_t.TRK_WAIT)) := by
  have hinv := Track.track_reachable_inv t h
  obtain ⟨hnb, hhigh⟩ := hinv.2.2.2.2.1 ht
  have e : Track.track_eat (fuel + 2) t r d
      = Track.track_eat_recv (Track.track_eat (fuel + 1)) t r d := by
    rw [Track.track_eat, if_neg (by rw [ht]; decide), if_neg (not_not.2 ht)]
  obtain ⟨t3, hr, e3⟩ := Track.missed_edge_step (Track.track_eat (fuel + 1)) t r d hprev hcount
    hnb hhigh hopen
  rw [e, e3]
  by_cases h0 : t.rawcode.nb_sections ≠ 0
  · rw [if_pos h0]
    refine ⟨_, rfl, ?_, ?_, fun _ => rfl, fun hh => absurd hh h0⟩
    · show t3.rawcode.nb_sections = _
      rw [hr]
    · show t3.rawcode.sections = _
      rw [hr]
  · rw [if_neg h0]
    have h00 : t.rawcode.nb_sections = 0 := not_not.1 h0
    rw [Track.track_eat, if_pos (show t3.promoted.treset.trk = trk_t.TRK_WAIT from rfl)]
    by_cases hd4 : TRACK_MIN_INITSEQ_DURATION ≤ d
    · rw [if_pos ⟨rfl, hd4⟩]
      refine ⟨_, rfl, ?_, ?_, fun hh => absurd hh h0, fun _ => ⟨fun _ => ⟨rfl, rfl, rfl⟩, ?_⟩⟩
      · show 0 = _
        rw [h00]
      · show t3.rawcode.sections = _
        rw [hr]
      · intro hh; omega
    · rw [if_neg (fun hh => hd4 hh.2)]
      refine ⟨_, rfl, ?_, ?_, fun hh => absurd hh h0, fun _ => ⟨fun hh => absurd hh hd4, ?_⟩⟩
      · show 0 = _
        rw [h00]
      · show t3.rawcode.sections = _
        rw [hr]
      · intro _; rfl
theorem Track.fed_reachable (es : List (Nat × Nat)) (hes : ∀ e ∈ es, e.1 ≤ 1 ∧ e.2 < 65536) :
    Track.Reachable (Track.fed es) := by
  unfold Track.fed
  cases hf : Track.feed 2 (Track.construct Track.zeroed RAIL_MOOD_LAXIST) es with
  | error e => exact Track.Reachable.construct Track.zeroed 0
  | ok t =>
    exact Track.feed_reachable 2 es _ t (Track.Reachable.construct Track.zeroed RAIL_MOOD_LAXIST)
      hes hf

theorem Track.missed_edge_witness :
    ∃ t1, Track.track_eat 2 (Track.fed [(1, 9000), (0, 620), (1, 620), (0, 1240)]) 0 620
        = Except.ok t1 ∧ t1.trk = trk_t.TRK_WAIT := by
  obtain ⟨t1, e, _, _, _, h0⟩ := Track.missed_edge
    (Track.fed [(1, 9000), (0, 620), (1, 620), (0, 1240)])
    (Track.fed_reachable _ (by decide)) 0 620 0 (by decide) (by decide) (by decide) (by decide)
  exact ⟨t1, e, (h0 (by decide)).2 (by decide)⟩

theorem Track.section_timings_witness :
    Track.sample_closed.rawcode.nb_sections = Track.sample_at_close.rawcode.nb_sections + 1
      ∧ (Track.sample_closed.rawcode.sections Track.sample_at_close.rawcode.nb_sections).ts.low_short
          = (Track.sample_at_close.r_low.b_short.mid
              + Track.sample_at_close.r_high.b_short.mid) / 2 := by
  have hw := Track.section_timings (Track.track_eat 1) Track.sample_at_close 1 11000
    (by decide)
    (Rail.rail_reachable_inv _ (Rail.after_reachable RAIL_MOOD_LAXIST
      [1240, 620, 1240, 620, 620, 1240, 620] (by decide)))
    (Rail.rail_reachable_inv _ (Rail.after_reachable RAIL_MOOD_LAXIST
      [620, 1240, 620, 1240, 1240, 620, 1240, 11000] (by decide)))
    Track.sample_closed rfl (by decide)
  exact ⟨hw.1, (hw.2.1 (by decide)).1⟩
/-! ## The bit branch of rail_eat -/

theorem Rail.rail_adjust_keeps (x : Rail) :
    x.rail_adjust.recorded = x.recorded ∧ x.rail_adjust.index = x.index
      ∧ x.rail_adjust.status = x.status
      ∧ x.rail_adjust.last_bit_recorded = x.last_bit_recorded := by
  unfold Rail.rail_adjust
  simp only []
  split_ifs
  · exact ⟨rfl, rfl, rfl, rfl⟩
  · exact ⟨rfl, rfl, rfl, rfl⟩

/-- Claim C32. DecoderTriBit::add_signal_step(lo, hi) on a decoder whose
convention C is 0 or 1: (SHORT, LONG) adds the bit C to pdata and (LONG, SHORT)
the bit ¬C = 1 - C, both leaving nb_errors unchanged; a step whose high is OTHER
leaves the decoder unchanged; every other step leaves pdata unchanged and
increments the byte nb_errors (by one when it is below 255). -/
theorem Decoder.tribit_step_rule (dec : Decoder) (lo hi : Signal)
    (hC : dec.convention = 0 ∨ dec.convention = 1) :
    (lo = Signal.SHORT ∧ hi = Signal.LONG →
        (dec.tribit_step lo hi).pdata = dec.pdata.add_bit dec.convention
          ∧ (dec.tribit_step lo hi).nb_errors = dec.nb_errors)
      ∧ (lo = Signal.LONG ∧ hi = Signal.SHORT →
        (dec.tribit_step lo hi).pdata = dec.pdata.add_bit (1 - dec.convention)
          ∧ (dec.tribit_step lo hi).nb_errors = dec.nb_errors)
      ∧ (hi = Signal.OTHER → dec.tribit_step lo hi = dec)
      ∧ (hi ≠ Signal.OTHER → ¬ (lo = Signal.SHORT ∧ hi = Signal.LONG) →
          ¬ (lo = Signal.LONG ∧ hi = Signal.SHORT) →
        (dec.tribit_step lo hi).pdata = dec.pdata
          ∧ (dec.tribit_step lo hi).nb_errors = (dec.nb_errors + 1) % 256
          ∧ (dec.nb_errors < 255 → (dec.tribit_step lo hi).nb_errors = dec.nb_errors + 1)) := by
  have hn : dec.not_convention = 1 - dec.convention := by
    unfold Decoder.not_convention
    rcases hC with h | h
    · rw [h]; rfl
    · rw [h]; rfl
  refine ⟨?_, ?_, ?_, ?_⟩
  · rintro ⟨h1, h2⟩
    subst h1; subst h2
    exact ⟨rfl, rfl⟩
  · rintro ⟨h1, h2⟩
    subst h1; subst h2
    rw [← hn]
    exact ⟨rfl, rfl⟩
  · intro h
    unfold Decoder.tribit_step
    rw [if_pos h]
  · intro h1 h2 h3
    unfold Decoder.tribit_step
    rw [if_neg h1, if_neg h2, if_neg h3]
    refine ⟨rfl, rfl, ?_⟩
    intro hlt
    show (dec.nb_errors + 1) % 256 = dec.nb_errors + 1
    exact Nat.mod_eq_of_lt (by omega)

theorem Decoder.tribit_step_rule_witness :
    ((Decoder.new_tribit Decoder.zeroed 1).tribit_step Signal.SHORT Signal.LONG).pdata
        = BitVector.empty.add_bit 1
      ∧ ((Decoder.new_tribit Decoder.zeroed 1).tribit_step Signal.LONG Signal.SHORT).pdata
        = BitVector.empty.add_bit 0
      ∧ ((Decoder.new_tribit Decoder.zeroed 1).tribit_step Signal.LONG Signal.LONG).nb_errors
        = 1 :=
  ⟨((Decoder.tribit_step_rule (Decoder.new_tribit Decoder.zeroed 1) Signal.SHORT Signal.LONG
      (Or.inr rfl)).1 ⟨rfl, rfl⟩).1,
   ((Decoder.tribit_step_rule (Decoder.new_tribit Decoder.zeroed 1) Signal.LONG Signal.SHORT
      (Or.inr rfl)).2.1 ⟨rfl, rfl⟩).1,
   ((Decoder.tribit_step_rule (Decoder.new_tribit Decoder.zeroed 1) Signal.LONG Signal.LONG
      (Or.inr rfl)).2.2.2 (by decide) (by decide) (by decide)).2.1⟩
theorem Decoder.raw_unknown_step_eq (dec : Decoder) (s : Signal × Signal) :
    (dec.raw_unknown_step s.1 s.2).pdata
        = (Spec.raw_unknown_bits s).foldl BitVector.add_bit dec.pdata
      ∧ (dec.raw_unknown_step s.1 s.2).nb_errors = dec.nb_errors := by
  unfold Decoder.raw_unknown_step Spec.raw_unknown_bits
  by_cases h : s.2 = Signal.OTHER
  · rw [if_pos h, if_pos h]
    exact ⟨rfl, rfl⟩
  · rw [if_neg h, if_neg h]
    exact ⟨rfl, rfl⟩

theorem Decoder.raw_unknown_steps_eq (steps : List (Signal × Signal)) (dec : Decoder) :
    (dec.raw_unknown_steps steps).pdata
        = (steps.flatMap Spec.raw_unknown_bits).foldl BitVector.add_bit dec.pdata
      ∧ (dec.raw_unknown_steps steps).nb_errors = dec.nb_errors := by
  induction steps generalizing dec with
  | nil => exact ⟨rfl, rfl⟩
  | cons s rest ih =>
    obtain ⟨h1, h2⟩ := ih (dec.raw_unknown_step s.1 s.2)
    obtain ⟨k1, k2⟩ := Decoder.raw_unknown_step_eq dec s
    have e : dec.raw_unknown_steps (s :: rest)
        = (dec.raw_unknown_step s.1 s.2).raw_unknown_steps rest := rfl
    rw [e, h1, h2, k1, k2, List.flatMap_cons, List.foldl_append]
    exact ⟨rfl, rfl⟩

theorem Spec.raw_unknown_even (steps : List (Signal × Signal)) :
    (steps.flatMap Spec.raw_unknown_bits).length % 2 = 0 := by
  induction steps with
  | nil => rfl
  | cons s rest ih =>
    rw [List.flatMap_cons, List.length_append]
    have : (Spec.raw_unknown_bits s).length = 0 ∨ (Spec.raw_unknown_bits s).length = 2 := by
      unfold Spec.raw_unknown_bits
      by_cases h : s.2 = Signal.OTHER
      · rw [if_pos h]; exact Or.inl rfl
      · rw [if_neg h]; exact Or.inr rfl
    omega

/-- Claim C35. For every sequence of steps given to a new
DecoderRawUnknownCoding (built in any memory g), nb_errors is 0 at the end;
pdata holds the bits added in order, two for each step whose high is SHORT or
LONG, the low's then the high's (0 for SHORT, 1 otherwise), and none for a
step whose high is OTHER; the number of bits added is even, and so is the byte
get_nb_bits(), which is that number modulo 256. -/
theorem Decoder.raw_unknown_never_errors (g : Decoder) (steps : List (Signal × Signal)) :
    ((Decoder.new_raw_unknown_coding g).raw_unknown_steps steps).nb_errors = 0
      ∧ ((Decoder.new_raw_unknown_coding g).raw_unknown_steps steps).pdata
          = BitVector.build (steps.flatMap Spec.raw_unknown_bits)
      ∧ (∀ s : Signal × Signal, s.2 = Signal.OTHER → Spec.raw_unknown_bits s = [])
      ∧ (∀ s : Signal × Signal, s.2 ≠ Signal.OTHER → Spec.raw_unknown_bits s
            = [if s.1 = Signal.SHORT then 0 else 1, if s.2 = Signal.SHORT then 0 else 1])
      ∧ (steps.flatMap Spec.raw_unknown_bits).length % 2 = 0
      ∧ ((Decoder.new_raw_unknown_coding g).raw_unknown_steps steps).pdata.get_nb_bits
          = (steps.flatMap Spec.raw_unknown_bits).length % 256
      ∧ ((Decoder.new_raw_unknown_coding g).raw_unknown_steps steps).pdata.get_nb_bits % 2 = 0 := by
  obtain ⟨h1, h2⟩ := Decoder.raw_unknown_steps_eq steps (Decoder.new_raw_unknown_coding g)
  have hev := Spec.raw_unknown_even steps
  have hp : ((Decoder.new_raw_unknown_coding g).raw_unknown_steps steps).pdata
      = BitVector.build (steps.flatMap Spec.raw_unknown_bits) := by
    rw [h1]
    rfl
  have hnb : ((Decoder.new_raw_unknown_coding g).raw_unknown_steps steps).pdata.get_nb_bits
      = (steps.flatMap Spec.raw_unknown_bits).length % 256 := by
    rw [hp]
    exact BitVector.build_nb_bits _
  refine ⟨?_, hp, ?_, ?_, hev, hnb, ?_⟩
  · rw [h2]
    rfl
  · intro s hs
    unfold Spec.raw_unknown_bits
    rw [if_pos hs]
  · intro s hs
    unfold Spec.raw_unknown_bits
    rw [if_neg hs]
  · rw [hnb]
    omega
theorem Spec.errors_cons (o : Option Nat) (ev : List (Option Nat)) :
    Spec.errors (o :: ev) = (if o.isNone then 1 else 0) + Spec.errors ev := by
  unfold Spec.errors
  rw [List.countP_cons]
  omega

theorem Spec.bits_cons (o : Option Nat) (ev : List (Option Nat)) :
    Spec.bits (o :: ev) = (match o with | some b => [b] | none => []) ++ Spec.bits ev := by
  unfold Spec.bits
  cases o with
  | none => rfl
  | some b => rfl

theorem Decoder.tribit_inv_step_spec (dec : Decoder) (lo hi : Signal)
    (hf : dec.first_call_to_add_sgn_lo_hi = false)
    (hC : dec.convention = 0 ∨ dec.convention = 1) (hE : dec.nb_errors < 256) :
    (dec.tribit_inv_step lo hi).pdata
        = (match Spec.tribit_pair dec.convention (dec.last_hi, lo) with
            | some b => [b] | none => []).foldl BitVector.add_bit dec.pdata
      ∧ (dec.tribit_inv_step lo hi).nb_errors
        = (dec.nb_errors
            + (if (Spec.tribit_pair dec.convention (dec.last_hi, lo)).isNone then 1 else 0)) % 256
      ∧ (dec.tribit_inv_step lo hi).last_hi = hi
      ∧ (dec.tribit_inv_step lo hi).first_call_to_add_sgn_lo_hi = false
      ∧ (dec.tribit_inv_step lo hi).unused_initial_low = dec.unused_initial_low
      ∧ (dec.tribit_inv_step lo hi).tsext = dec.tsext
      ∧ (dec.tribit_inv_step lo hi).get_id = dec.get_id
      ∧ (dec.tribit_inv_step lo hi).convention = dec.convention := by
  have hn : dec.not_convention = Spec.neg dec.convention := by
    unfold Decoder.not_convention Spec.neg
    rcases hC with h | h
    · rw [h]; rfl
    · rw [h]; rfl
  have hm : dec.nb_errors % 256 = dec.nb_errors := Nat.mod_eq_of_lt hE
  unfold Decoder.tribit_inv_step Spec.tribit_pair
  rw [hf]
  cases lo <;> cases hl : dec.last_hi <;>
    simp [hl, hn, hm, hf, Decoder.add_data_bit, Decoder.inc_nb_errors]

-- After the first call, a run of DecoderTriBitInv::add_signal_step pairs the
-- high kept in last_hi with the low of the next step.
theorem Decoder.tribit_inv_run (rest : List (Signal × Signal)) (dec : Decoder)
    (hf : dec.first_call_to_add_sgn_lo_hi = false)
    (hC : dec.convention = 0 ∨ dec.convention = 1) (hE : dec.nb_errors < 256) :
    (dec.tribit_inv_steps rest).pdata
        = (Spec.bits ((List.zip (dec.last_hi :: rest.map Prod.snd) (rest.map Prod.fst)).map
            (Spec.tribit_pair dec.convention))).foldl BitVector.add_bit dec.pdata
      ∧ (dec.tribit_inv_steps rest).nb_errors
        = (dec.nb_errors + Spec.errors
            ((List.zip (dec.last_hi :: rest.map Prod.snd) (rest.map Prod.fst)).map
              (Spec.tribit_pair dec.convention))) % 256
      ∧ (dec.tribit_inv_steps rest).unused_initial_low = dec.unused_initial_low
      ∧ (dec.tribit_inv_steps rest).tsext = dec.tsext
      ∧ (dec.tribit_inv_steps rest).get_id = dec.get_id
      ∧ (dec.tribit_inv_steps rest).convention = dec.convention := by
  induction rest generalizing dec with
  | nil =>
    refine ⟨rfl, ?_, rfl, rfl, rfl, rfl⟩
    show dec.nb_errors = (dec.nb_errors + 0) % 256
    rw [Nat.add_zero, Nat.mod_eq_of_lt hE]
  | cons s rest ih =>
    obtain ⟨k1, k2, k3, k4, k5, k6, k7, k8⟩ := Decoder.tribit_inv_step_spec dec s.1 s.2 hf hC hE
    have hE1 : (dec.tribit_inv_step s.1 s.2).nb_errors < 256 := by
      rw [k2]
      exact Nat.mod_lt _ (by decide)
    obtain ⟨h1, h2, h3, h4, h5, h6⟩ := ih (dec.tribit_inv_step s.1 s.2) k4 (by rw [k8]; exact hC) hE1
    have e : dec.tribit_inv_steps (s :: rest)
        = (dec.tribit_inv_step s.1 s.2).tribit_inv_steps rest := rfl
    rw [e, h1, h2, h3, h4, h5, h6, k1, k2, k3, k5, k6, k7, k8]
    simp only [List.map_cons, List.zip_cons_cons, Spec.bits_cons, Spec.errors_cons,
      List.foldl_append]
    refine ⟨trivial, ?_, trivial, trivial, trivial, trivial⟩
    omega

/-- Claim C33. For every sequence of steps (lo_1, hi_1), ..., (lo_m, hi_m)
given to a new DecoderTriBitInv of convention C ∈ {0, 1} (built in any memory
g): the first step adds no bit and no error and stores lo_1 in
unused_initial_low; at the end pdata holds, in order, the bits of the pairs
(hi_{i-1}, lo_i), i = 2 .. m, read like TRIBIT pairs ((SHORT, LONG) is C,
(LONG, SHORT) is ¬C), and nb_errors counts (as a byte) the other pairs; hi_m is
in no pair; first_lo_ignored() is 0 when no step was fed or lo_1 is OTHER,
tsext.low_short when lo_1 is SHORT and tsext.low_long when it is LONG, and
after set_ts has stored the timings of the section these are its low_short and
low_long. -/
theorem Decoder.tribit_inv_rule (g : Decoder) (C : Nat) (hC : C = 0 ∨ C = 1)
    (steps : List (Signal × Signal)) :
    ((Decoder.new_tribit_inv g C).tribit_inv_steps steps).pdata
        = BitVector.build (Spec.bits ((Spec.tribit_inv_pairs steps).map (Spec.tribit_pair C)))
      ∧ ((Decoder.new_tribit_inv g C).tribit_inv_steps steps).nb_errors
        = Spec.errors ((Spec.tribit_inv_pairs steps).map (Spec.tribit_pair C)) % 256
      ∧ (Spec.tribit_inv_pairs steps).length = steps.length - 1
      ∧ (∀ s, steps = [s] →
          ((Decoder.new_tribit_inv g C).tribit_inv_steps steps).pdata = BitVector.empty
            ∧ ((Decoder.new_tribit_inv g C).tribit_inv_steps steps).nb_errors = 0)
      ∧ ((Decoder.new_tribit_inv g C).tribit_inv_steps steps).unused_initial_low
        = (match steps with | [] => Signal.OTHER | s :: _ => s.1)
      ∧ ((Decoder.new_tribit_inv g C).tribit_inv_steps steps).first_lo_ignored
        = (match steps with
            | [] => 0
            | (Signal.OTHER, _) :: _ => 0
            | (Signal.SHORT, _) :: _ => g.tsext.low_short
            | (Signal.LONG, _) :: _ => g.tsext.low_long)
      ∧ (∀ (initseq : Nat) (ts : Timings),
          (((Decoder.new_tribit_inv g C).tribit_inv_steps steps).set_ts initseq ts).first_lo_ignored
            = (match steps with
                | [] => 0
                | (Signal.OTHER, _) :: _ => 0
                | (Signal.SHORT, _) :: _ => ts.low_short
                | (Signal.LONG, _) :: _ => ts.low_long)) := by
  cases steps with
  | nil =>
    refine ⟨rfl, rfl, rfl, ?_, rfl, rfl, fun _ _ => rfl⟩
    intro s hs
    exact absurd hs (by simp)
  | cons s rest =>
    have e : (Decoder.new_tribit_inv g C).tribit_inv_steps (s :: rest)
        = Decoder.tribit_inv_steps
            { Decoder.new_tribit_inv g C with
              first_call_to_add_sgn_lo_hi := false, unused_initial_low := s.1, last_hi := s.2 }
            rest := rfl
    obtain ⟨h1, h2, h3, h4, h5, h6⟩ := Decoder.tribit_inv_run rest
      { Decoder.new_tribit_inv g C with
        first_call_to_add_sgn_lo_hi := false, unused_initial_low := s.1, last_hi := s.2 }
      rfl hC (by show (0 : Nat) < 256; decide)
    have hp : Spec.tribit_inv_pairs (s :: rest)
        = List.zip (s.2 :: rest.map Prod.snd) (rest.map Prod.fst) := rfl
    rw [e, hp]
    refine ⟨h1, ?_, ?_, ?_, h3, ?_, ?_⟩
    · rw [h2]
      show (0 + _) % 256 = _
      rw [Nat.zero_add]
      rfl
    · simp
    · intro s1 hs
      have hr : rest = [] := by
        have := congrArg List.tail hs
        simpa using this
      subst hr
      exact ⟨rfl, rfl⟩
    · unfold Decoder.first_lo_ignored
      rw [h5, h3, h4]
      obtain ⟨lo, hi⟩ := s
      cases lo <;> rfl
    · intro initseq ts
      unfold Decoder.first_lo_ignored Decoder.set_ts
      simp only [h5, h3]
      obtain ⟨lo, hi⟩ := s
      cases lo <;> rfl

theorem Decoder.tribit_inv_rule_witness :
    ((Decoder.new_tribit_inv Decoder.zeroed 1).tribit_inv_steps
        [(Signal.LONG, Signal.SHORT), (Signal.LONG, Signal.LONG), (Signal.SHORT, Signal.LONG),
         (Signal.LONG, Signal.SHORT)]).pdata = BitVector.build [1, 0]
      ∧ ((Decoder.new_tribit_inv Decoder.zeroed 1).tribit_inv_steps
        [(Signal.LONG, Signal.SHORT), (Signal.LONG, Signal.LONG), (Signal.SHORT, Signal.LONG),
         (Signal.LONG, Signal.SHORT)]).nb_errors = 1 :=
  ⟨(Decoder.tribit_inv_rule Decoder.zeroed 1 (Or.inr rfl) _).1,
   (Decoder.tribit_inv_rule Decoder.zeroed 1 (Or.inr rfl) _).2.1⟩
/-! ## DecoderManchester against its batch definition -/

theorem Decoder.not_convention_eq (dec : Decoder) (hC : dec.convention = 0 ∨ dec.convention = 1) :
    dec.not_convention = Spec.neg dec.convention := by
  unfold Decoder.not_convention Spec.neg
  rcases hC with h | h
  · rw [h]; rfl
  · rw [h]; rfl

theorem Decoder.add_buf_eq (dec : Decoder) (r : Nat) (h : dec.buf_pos < 3) :
    dec.add_buf r = Except.ok
      { (if dec.buf_pos = 0 then { dec with buf0 := r }
          else if dec.buf_pos = 1 then { dec with buf1 := r }
          else { dec with buf2 := r }) with buf_pos := dec.buf_pos + 1 } := by
  unfold Decoder.add_buf
  rw [if_neg (not_not.2 h)]
  have e : (dec.buf_pos + 1) % 256 = dec.buf_pos + 1 := Nat.mod_eq_of_lt (by omega)
  simp only [e]

theorem Decoder.consume_view (dec : Decoder) (hb : dec.buf_pos = 2 ∨ dec.buf_pos = 3)
    (hC : dec.convention = 0 ∨ dec.convention = 1) :
    dec.consume_buf.manchester_view
        = { (ManchesterView.push dec.convention
              { carry := some dec.buf0, leading := dec.leading_lo_hi_has_been_passed
                pdata := dec.pdata, nb_errors := dec.nb_errors } dec.buf1) with
            carry := if dec.buf_pos = 2 then none else some dec.buf2 }
      ∧ dec.consume_buf.buf_pos = dec.buf_pos - 2
      ∧ dec.consume_buf.convention = dec.convention := by
  have hn := Decoder.not_convention_eq dec hC
  have hge : dec.buf_pos ≥ 2 := by omega
  have hm : (dec.buf_pos + 256 - 2) % 256 = dec.buf_pos - 2 := by
    rcases hb with h | h <;> rw [h]
  unfold Decoder.consume_buf
  rw [if_pos hge]
  unfold ManchesterView.push Spec.manchester_pair Decoder.manchester_view
  cases hl : dec.leading_lo_hi_has_been_passed with
  | true =>
    by_cases c1 : dec.buf0 = 0 ∧ dec.buf1 = 1
    · have c1b : (dec.buf0, dec.buf1) = (0, 1) := by rw [c1.1, c1.2]
      rcases hb with h | h <;>
        simp [hl, c1, c1b, hm, h, Decoder.add_data_bit]
    · have c1b : ¬ (dec.buf0, dec.buf1) = (0, 1) := by
        intro hh
        exact c1 ⟨congrArg Prod.fst hh, congrArg Prod.snd hh⟩
      by_cases c2 : dec.buf0 = 1 ∧ dec.buf1 = 0
      · have c2b : (dec.buf0, dec.buf1) = (1, 0) := by rw [c2.1, c2.2]
        rcases hb with h | h <;>
          simp [hl, c1, c1b, c2, c2b, hm, h, hn, Decoder.add_data_bit]
      · have c2b : ¬ (dec.buf0, dec.buf1) = (1, 0) := by
          intro hh
          exact c2 ⟨congrArg Prod.fst hh, congrArg Prod.snd hh⟩
        rcases hb with h | h <;>
          simp [hl, c1, c1b, c2, c2b, hm, h, Decoder.inc_nb_errors]
  | false =>
    by_cases c1 : dec.buf0 = 0 ∧ dec.buf1 = 1
    · have c1b : (dec.buf0, dec.buf1) = (0, 1) := by rw [c1.1, c1.2]
      rcases hb with h | h <;>
        simp [hl, c1, c1b, hm, h]
    · have c1b : ¬ (dec.buf0, dec.buf1) = (0, 1) := by
        intro hh
        exact c1 ⟨congrArg Prod.fst hh, congrArg Prod.snd hh⟩
      have c1c : dec.buf0 ≠ 0 ∨ dec.buf1 ≠ 1 := by
        by_contra hh
        push_neg at hh
        exact c1 hh
      rcases hb with h | h <;>
        simp [hl, c1, c1b, c1c, hm, h, Decoder.inc_nb_errors]
theorem ManchesterView.push_none (C : Nat) (v : ManchesterView) (s : Nat) (h : v.carry = none) :
    ManchesterView.push C v s = { v with carry := some s } := by
  unfold ManchesterView.push
  rw [h]

theorem ManchesterView.push_some_carry (C : Nat) (v : ManchesterView) (s a : Nat)
    (h : v.carry = some a) : (ManchesterView.push C v s).carry = none := by
  unfold ManchesterView.push
  rw [h]
  dsimp only
  cases v.leading with
  | true =>
    rw [if_pos rfl]
    cases Spec.manchester_pair C (a, s) <;> rfl
  | false => rfl

theorem ManchesterView.set_carry (v : ManchesterView) (c : Option Nat) (h : v.carry = c) :
    { v with carry := c } = v := by
  cases v
  subst h
  rfl

theorem Decoder.consume_view_two (dec : Decoder) (hb : dec.buf_pos = 2)
    (hC : dec.convention = 0 ∨ dec.convention = 1) :
    dec.consume_buf.manchester_view
        = ManchesterView.push dec.convention
            { carry := some dec.buf0, leading := dec.leading_lo_hi_has_been_passed
              pdata := dec.pdata, nb_errors := dec.nb_errors } dec.buf1
      ∧ dec.consume_buf.buf_pos ≤ 1
      ∧ dec.consume_buf.convention = dec.convention := by
  obtain ⟨k1, k2, k3⟩ := Decoder.consume_view dec (Or.inl hb) hC
  refine ⟨?_, by omega, k3⟩
  rw [k1, if_pos hb]
  exact ManchesterView.set_carry _ _ (ManchesterView.push_some_carry _ _ _ _ rfl)

theorem Decoder.consume_view_three (dec : Decoder) (hb : dec.buf_pos = 3)
    (hC : dec.convention = 0 ∨ dec.convention = 1) :
    dec.consume_buf.manchester_view
        = ManchesterView.push dec.convention
            (ManchesterView.push dec.convention
              { carry := some dec.buf0, leading := dec.leading_lo_hi_has_been_passed
                pdata := dec.pdata, nb_errors := dec.nb_errors } dec.buf1) dec.buf2
      ∧ dec.consume_buf.buf_pos ≤ 1
      ∧ dec.consume_buf.convention = dec.convention := by
  obtain ⟨k1, k2, k3⟩ := Decoder.consume_view dec (Or.inr hb) hC
  refine ⟨?_, by omega, k3⟩
  rw [k1, if_neg (by omega)]
  rw [ManchesterView.push_none _ _ _ (ManchesterView.push_some_carry _ _ _ _ rfl)]

theorem Decoder.manchester_half_view (dec : Decoder) (i : Nat) (sgn : Signal)
    (h : dec.buf_pos ≤ 1) (hC : dec.convention = 0 ∨ dec.convention = 1) :
    ∃ d1, dec.manchester_half i sgn = Except.ok d1
      ∧ d1.manchester_view
          = (if sgn = Signal.LONG then [i, i] else [i]).foldl
              (ManchesterView.push dec.convention) dec.manchester_view
      ∧ d1.buf_pos ≤ 1 ∧ d1.convention = dec.convention := by
  have hb : dec.buf_pos = 0 ∨ dec.buf_pos = 1 := by omega
  unfold Decoder.manchester_half
  rw [Decoder.add_buf_eq dec i (by omega)]
  dsimp only
  by_cases hs : sgn = Signal.LONG
  · rw [if_pos hs, if_pos hs, Decoder.add_buf_eq _ i (by dsimp only; omega)]
    dsimp only
    rcases hb with hb | hb
    · simp only [hb]
      obtain ⟨k1, k2, k3⟩ := Decoder.consume_view_two
        { dec with buf0 := i, buf1 := i, buf_pos := 2 } rfl hC
      refine ⟨_, rfl, ?_, k2, k3⟩
      refine Eq.trans k1 ?_
      simp [Decoder.manchester_view, hb, ManchesterView.push_none]
    · simp only [hb]
      obtain ⟨k1, k2, k3⟩ := Decoder.consume_view_three
        { dec with buf1 := i, buf2 := i, buf_pos := 3 } rfl hC
      refine ⟨_, rfl, ?_, k2, k3⟩
      refine Eq.trans k1 ?_
      simp [Decoder.manchester_view, hb]
  · rw [if_neg hs, if_neg hs]
    rcases hb with hb | hb
    · simp only [hb]
      refine ⟨_, rfl, ?_, ?_, ?_⟩
      · simp [Decoder.manchester_view, hb, ManchesterView.push_none, Decoder.consume_buf]
      · simp [Decoder.consume_buf]
      · simp [Decoder.consume_buf]
    · simp only [hb]
      obtain ⟨k1, k2, k3⟩ := Decoder.consume_view_two
        { dec with buf1 := i, buf_pos := 2 } rfl hC
      refine ⟨_, rfl, ?_, k2, k3⟩
      refine Eq.trans k1 ?_
      simp [Decoder.manchester_view, hb]
theorem Decoder.manchester_step_view (dec : Decoder) (lo hi : Signal) (hlo : lo ≠ Signal.OTHER)
    (h : dec.buf_pos ≤ 1) (hC : dec.convention = 0 ∨ dec.convention = 1) :
    ∃ d2, dec.manchester_step lo hi = Except.ok d2
      ∧ d2.manchester_view
          = (Spec.manchester_symbols [(lo, hi)]).foldl
              (ManchesterView.push dec.convention) dec.manchester_view
      ∧ d2.buf_pos ≤ 1 ∧ d2.convention = dec.convention := by
  unfold Decoder.manchester_step
  rw [if_neg hlo]
  obtain ⟨d1, e1, v1, p1, c1⟩ := Decoder.manchester_half_view dec 0 lo h hC
  rw [e1]
  dsimp only
  obtain ⟨d2, e2, v2, p2, c2⟩ := Decoder.manchester_half_view d1 1 hi p1 (by rw [c1]; exact hC)
  refine ⟨d2, e2, ?_, p2, by rw [c2, c1]⟩
  rw [v2, v1, c1]
  unfold Spec.manchester_symbols
  simp only [List.flatMap_cons, List.flatMap_nil, List.append_nil, List.foldl_append]

theorem Decoder.manchester_steps_view (steps : List (Signal × Signal)) (dec : Decoder)
    (hlo : ∀ s ∈ steps, s.1 ≠ Signal.OTHER)
    (h : dec.buf_pos ≤ 1) (hC : dec.convention = 0 ∨ dec.convention = 1) :
    ∃ R, dec.manchester_steps steps = Except.ok R
      ∧ R.manchester_view
          = (Spec.manchester_symbols steps).foldl
              (ManchesterView.push dec.convention) dec.manchester_view
      ∧ R.buf_pos ≤ 1 ∧ R.convention = dec.convention := by
  induction steps generalizing dec with
  | nil => exact ⟨dec, rfl, rfl, h, rfl⟩
  | cons s rest ih =>
    obtain ⟨lo, hi⟩ := s
    obtain ⟨d2, e2, v2, p2, c2⟩ := Decoder.manchester_step_view dec lo hi
      (hlo (lo, hi) (List.mem_cons_self _ _)) h hC
    obtain ⟨R, e, v, p, c⟩ := ih d2 (fun s hs => hlo s (List.mem_cons_of_mem _ hs)) p2
      (by rw [c2]; exact hC)
    refine ⟨R, ?_, ?_, p, by rw [c, c2]⟩
    · unfold Decoder.manchester_steps
      rw [e2]
      exact e
    · rw [v, v2, c2]
      have hs : Spec.manchester_symbols ((lo, hi) :: rest)
          = Spec.manchester_symbols [(lo, hi)] ++ Spec.manchester_symbols rest := by
        unfold Spec.manchester_symbols
        simp only [List.flatMap_cons, List.flatMap_nil, List.append_nil]
      rw [hs, List.foldl_append]

theorem ManchesterView.push_pair (C : Nat) (v : ManchesterView) (a b : Nat)
    (hc : v.carry = none) (hE : v.nb_errors < 256) :
    (ManchesterView.push C (ManchesterView.push C v a) b).carry = none
      ∧ (ManchesterView.push C (ManchesterView.push C v a) b).leading = true
      ∧ (ManchesterView.push C (ManchesterView.push C v a) b).pdata
        = (Spec.bits (Spec.manchester_rest C v.leading [(a, b)])).foldl BitVector.add_bit v.pdata
      ∧ (ManchesterView.push C (ManchesterView.push C v a) b).nb_errors
        = (v.nb_errors + Spec.errors (Spec.manchester_rest C v.leading [(a, b)])) % 256 := by
  have hm : v.nb_errors % 256 = v.nb_errors := Nat.mod_eq_of_lt hE
  rw [ManchesterView.push_none C v a hc]
  unfold ManchesterView.push Spec.manchester_rest Spec.manchester_outcomes
  dsimp only
  cases hl : v.leading with
  | true =>
    cases hp : Spec.manchester_pair C (a, b) with
    | none => simp [hp, hl, Spec.bits, Spec.errors]
    | some x => simp [hp, hl, Spec.bits, Spec.errors, hm]
  | false =>
    by_cases h01 : (a, b) = (0, 1)
    · simp [hl, h01, Spec.bits, Spec.errors, hm]
    · simp [hl, h01, Spec.bits, Spec.errors]

theorem Spec.manchester_rest_cons (C : Nat) ( leading : Bool) (p : Nat × Nat)
    (ps : List (Nat × Nat)) :
    Spec.manchester_rest C leading (p :: ps)
      = Spec.manchester_rest C leading [p] ++ Spec.manchester_rest C true ps := by
  unfold Spec.manchester_rest Spec.manchester_outcomes
  cases leading with
  | true => simp
  | false => simp

theorem Spec.bits_append (e1 e2 : List (Option Nat)) :
    Spec.bits (e1 ++ e2) = Spec.bits e1 ++ Spec.bits e2 := by
  unfold Spec.bits
  rw [List.filterMap_append]

theorem Spec.errors_append (e1 e2 : List (Option Nat)) :
    Spec.errors (e1 ++ e2) = Spec.errors e1 + Spec.errors e2 := by
  unfold Spec.errors
  rw [List.countP_append]

theorem ManchesterView.push_stream (C : Nat) (n : Nat) :
    ∀ (syms : List Nat) (v : ManchesterView), syms.length ≤ n → v.carry = none →
      v.nb_errors < 256 →
      (syms.foldl (ManchesterView.push C) v).pdata
          = (Spec.bits (Spec.manchester_rest C v.leading (Spec.pairs syms))).foldl
              BitVector.add_bit v.pdata
        ∧ (syms.foldl (ManchesterView.push C) v).nb_errors
          = (v.nb_errors + Spec.errors (Spec.manchester_rest C v.leading (Spec.pairs syms))) % 256 := by
  induction n using Nat.strong_induction_on with
  | _ n ih =>
    intro syms v hlen hc hE
    have hm : v.nb_errors % 256 = v.nb_errors := Nat.mod_eq_of_lt hE
    have hnil : Spec.manchester_rest C v.leading [] = [] := by
      unfold Spec.manchester_rest Spec.manchester_outcomes
      cases v.leading <;> rfl
    match syms, hlen with
    | [], _ =>
      unfold Spec.pairs
      rw [hnil]
      exact ⟨rfl, by simp [Spec.errors, hm]⟩
    | [a], _ =>
      unfold Spec.pairs
      rw [hnil]
      simp only [List.foldl_cons, List.foldl_nil]
      rw [ManchesterView.push_none C v a hc]
      exact ⟨rfl, by simp [Spec.errors, hm]⟩
    | a :: b :: rest, hlen =>
      obtain ⟨q1, q2, q3, q4⟩ := ManchesterView.push_pair C v a b hc hE
      have hE2 : (ManchesterView.push C (ManchesterView.push C v a) b).nb_errors < 256 := by
        rw [q4]
        exact Nat.mod_lt _ (by decide)
      have hl2 : rest.length ≤ n - 2 := by
        simp only [List.length_cons] at hlen
        omega
      have hn2 : n - 2 < n := by
        simp only [List.length_cons] at hlen
        omega
      obtain ⟨r1, r2⟩ := ih (n - 2) hn2 rest
        (ManchesterView.push C (ManchesterView.push C v a) b) hl2 q1 hE2
      have hp : Spec.pairs (a :: b :: rest) = (a, b) :: Spec.pairs rest := by
        rw [Spec.pairs]
      simp only [List.foldl_cons]
      rw [hp, Spec.manchester_rest_cons C v.leading (a, b) (Spec.pairs rest), Spec.bits_append,
        Spec.errors_append, List.foldl_append, r1, r2, q2, q3, q4]
      refine ⟨rfl, ?_⟩
      omega
/-- Claim C34. For every sequence of steps whose low is never OTHER, given to
a new DecoderManchester of convention C ∈ {0, 1} (built in any memory g), no
assertion fails (add_buf is never called with 3 symbols in the FIFO, and at
most one symbol waits between two steps), and the resulting pdata and nb_errors
are those of the batch definition: the steps are flattened into symbols (low 0,
high 1, a LONG signal twice), the stream is cut into consecutive pairs (a
trailing symbol is ignored), the first pair counts one error unless it is
(0,1), and each later pair adds the bit C for (0,1), the bit ¬C for (1,0) and
counts one error otherwise; nb_errors is the number of errors as a byte. -/
theorem Decoder.manchester_batch (g : Decoder) (C : Nat) (hC : C = 0 ∨ C = 1)
    (steps : List (Signal × Signal)) (hlo : ∀ s ∈ steps, s.1 ≠ Signal.OTHER) :
    ∃ R, (Decoder.new_manchester g C).manchester_steps steps = Except.ok R
      ∧ R.pdata = BitVector.build (Spec.bits
          (Spec.manchester_outcomes C (Spec.pairs (Spec.manchester_symbols steps))))
      ∧ R.nb_errors = Spec.errors
          (Spec.manchester_outcomes C (Spec.pairs (Spec.manchester_symbols steps))) % 256
      ∧ (Spec.errors
          (Spec.manchester_outcomes C (Spec.pairs (Spec.manchester_symbols steps))) < 256 →
        R.nb_errors = Spec.errors
          (Spec.manchester_outcomes C (Spec.pairs (Spec.manchester_symbols steps))))
      ∧ R.buf_pos ≤ 1 := by
  obtain ⟨R, e, v, p, c⟩ := Decoder.manchester_steps_view steps (Decoder.new_manchester g C) hlo
    (by show (0 : Nat) ≤ 1; decide) hC
  obtain ⟨r1, r2⟩ := ManchesterView.push_stream C (Spec.manchester_symbols steps).length
    (Spec.manchester_symbols steps) (Decoder.new_manchester g C).manchester_view
    (Nat.le_refl _) rfl (by show (0 : Nat) < 256; decide)
  have hv1 : R.pdata = R.manchester_view.pdata := rfl
  have hv2 : R.nb_errors = R.manchester_view.nb_errors := rfl
  have hc : (Decoder.new_manchester g C).convention = C := rfl
  rw [hc] at v
  have e2 : R.nb_errors = Spec.errors
      (Spec.manchester_outcomes C (Spec.pairs (Spec.manchester_symbols steps))) % 256 := by
    rw [hv2, v, r2]
    show (0 + Spec.errors (Spec.manchester_rest C false _)) % 256 = _
    rw [Nat.zero_add]
    rfl
  refine ⟨R, e, ?_, e2, ?_, p⟩
  · rw [hv1, v, r1]
    rfl
  · intro hlt
    rw [e2]
    exact Nat.mod_eq_of_lt hlt

theorem Decoder.manchester_batch_witness :
    ∃ R, (Decoder.new_manchester Decoder.zeroed 1).manchester_steps
          [(Signal.SHORT, Signal.SHORT), (Signal.SHORT, Signal.LONG), (Signal.LONG, Signal.SHORT),
           (Signal.LONG, Signal.LONG)] = Except.ok R
      ∧ R.pdata = BitVector.build [1, 0, 1] ∧ R.nb_errors = 2 := by
  obtain ⟨R, h1, h2, h3, _⟩ := Decoder.manchester_batch Decoder.zeroed 1 (Or.inr rfl)
    [(Signal.SHORT, Signal.SHORT), (Signal.SHORT, Signal.LONG), (Signal.LONG, Signal.SHORT),
     (Signal.LONG, Signal.LONG)] (by decide)
  exact ⟨R, h1, h2, h3⟩
/-! ## The DEDUP filter of get_data -/

theorem Track.dedup_step (p : Decoder) (kept rest : List Decoder) :
    Track.get_data_loop RF433ANY_FD_DEDUP kept (p :: rest)
      = (match kept with
          | [] => Track.get_data_loop RF433ANY_FD_DEDUP [p.reset_repeats] rest
          | q :: ks =>
            if p.get_id = q.get_id ∧ p.pdata.cmp q.pdata = some 0 then
              Track.get_data_loop RF433ANY_FD_DEDUP (q.inc_repeats :: ks) rest
            else Track.get_data_loop RF433ANY_FD_DEDUP (p.reset_repeats :: q :: ks) rest) := by
  have hk : ∀ (d : Decoder) (k : Bool), Track.keep_coding RF433ANY_FD_DEDUP d k = k := by
    intro d k
    unfold Track.keep_coding
    rw [if_neg (by decide)]
  have hk2 : ∀ d : Decoder, Track.keep_decoded_no_error RF433ANY_FD_DEDUP d = true := by
    intro d
    unfold Track.keep_decoded_no_error
    simp only []
    rw [if_neg (by decide), if_neg (by decide)]
  have h4 : RF433ANY_FD_DEDUP &&& RF433ANY_FD_DEDUP ≠ 0 := by decide
  have hid : p.reset_repeats.get_id = p.get_id := rfl
  have hpd : p.reset_repeats.pdata = p.pdata := rfl
  conv_lhs => unfold Track.get_data_loop
  simp only [hk, hk2, if_pos h4, hid, hpd]
  cases kept with
  | nil => simp
  | cons q ks =>
    simp only []
    by_cases h1 : p.get_id = q.get_id
    · rw [if_pos h1]
      obtain ⟨c, hc⟩ : ∃ c, p.pdata.cmp q.pdata = some c := ⟨_, BitVector.cmp_eq _ _⟩
      rw [hc]
      simp only []
      by_cases h0 : c = 0
      · rw [if_pos h0, if_pos ⟨h1, by rw [h0]⟩]
        simp
      · rw [if_neg h0, if_neg (by
          rintro ⟨_, h⟩
          exact h0 (Option.some.inj h))]
        simp
    · rw [if_neg h1, if_neg (fun h => h1 h.1)]
      simp
theorem Track.dedup_loop (rest : List Decoder) :
    ∀ kept : List Decoder,
      kept.length + (kept.map Decoder.get_repeats).sum + rest.length ≤ 256 →
      List.Chain' (fun newer older : Decoder =>
        ¬ (newer.get_id = older.get_id ∧ newer.pdata.cmp older.pdata = some 0)) kept →
      ∃ res, Track.get_data_loop RF433ANY_FD_DEDUP kept rest = Except.ok res
        ∧ res.length + (res.map Decoder.get_repeats).sum
            = kept.length + (kept.map Decoder.get_repeats).sum + rest.length
        ∧ (res.map Decoder.reset_repeats).Sublist
            (kept.reverse.map Decoder.reset_repeats ++ rest.map Decoder.reset_repeats)
        ∧ List.Chain' (fun a b : Decoder =>
            ¬ (b.get_id = a.get_id ∧ b.pdata.cmp a.pdata = some 0)) res := by
  induction rest with
  | nil =>
    intro kept _ hch
    refine ⟨kept.reverse, ?_, ?_, ?_, ?_⟩
    · unfold Track.get_data_loop
      rfl
    · simp [List.sum_reverse]
    · simp
    · rw [List.chain'_reverse]
      exact hch
  | cons p rest ih =>
    intro kept hS hch
    rw [Track.dedup_step]
    cases kept with
    | nil =>
      obtain ⟨res, e, s, sub, ch⟩ := ih [p.reset_repeats]
        (by
          simp only [List.length_cons, List.length_nil, List.map_cons, List.map_nil,
            List.sum_cons, List.sum_nil] at hS ⊢
          have : p.reset_repeats.get_repeats = 0 := rfl
          omega)
        (List.chain'_singleton _)
      refine ⟨res, e, ?_, ?_, ch⟩
      · rw [s]
        have : p.reset_repeats.get_repeats = 0 := rfl
        simp only [List.length_cons, List.length_nil, List.map_cons, List.map_nil,
          List.sum_cons, List.sum_nil]
        omega
      · simpa using sub
    | cons q ks =>
      simp only [List.length_cons, List.map_cons, List.sum_cons] at hS
      simp only []
      by_cases hsame : p.get_id = q.get_id ∧ p.pdata.cmp q.pdata = some 0
      · rw [if_pos hsame]
        have hq : q.inc_repeats.get_repeats = q.get_repeats + 1 := by
          show (q.repeats + 1) % 256 = q.repeats + 1
          apply Nat.mod_eq_of_lt
          have : q.get_repeats = q.repeats := rfl
          omega
        have hch2 : List.Chain' (fun newer older : Decoder =>
            ¬ (newer.get_id = older.get_id ∧ newer.pdata.cmp older.pdata = some 0))
            (q.inc_repeats :: ks) := by
          cases ks with
          | nil => exact List.chain'_singleton _
          | cons k ks2 =>
            rw [List.chain'_cons] at hch ⊢
            exact hch
        obtain ⟨res, e, s, sub, ch⟩ := ih (q.inc_repeats :: ks)
          (by
            simp only [List.length_cons, List.map_cons, List.sum_cons, hq]
            omega)
          hch2
        refine ⟨res, e, ?_, ?_, ch⟩
        · rw [s]
          simp only [List.length_cons, List.map_cons, List.sum_cons, hq]
          omega
        · have hr : q.inc_repeats.reset_repeats = q.reset_repeats := rfl
          simp only [List.reverse_cons, List.map_append, List.map_cons, List.map_nil, hr,
            List.append_assoc] at sub ⊢
          refine sub.trans ?_
          apply List.Sublist.append_left
          apply List.Sublist.cons₂
          exact List.sublist_cons_self _ _
      · rw [if_neg hsame]
        have hch2 : List.Chain' (fun newer older : Decoder =>
            ¬ (newer.get_id = older.get_id ∧ newer.pdata.cmp older.pdata = some 0))
            (p.reset_repeats :: q :: ks) := by
          rw [List.chain'_cons]
          exact ⟨hsame, hch⟩
        have hp0 : p.reset_repeats.get_repeats = 0 := rfl
        obtain ⟨res, e, s, sub, ch⟩ := ih (p.reset_repeats :: q :: ks)
          (by
            simp only [List.length_cons, List.map_cons, List.sum_cons, hp0]
            omega)
          hch2
        refine ⟨res, e, ?_, ?_, ch⟩
        · rw [s]
          simp only [List.length_cons, List.map_cons, List.sum_cons, hp0]
          omega
        · have hr : p.reset_repeats.reset_repeats = p.reset_repeats := rfl
          simp only [List.reverse_cons, List.map_append, List.map_cons, List.map_nil, hr,
            List.append_assoc, List.singleton_append, List.nil_append] at sub ⊢
          exact sub
theorem Track.core_chain_length (t : Track) (convention : Nat) (u : Indeterminate)
    (h8 : t.rawcode.nb_sections ≤ RF433ANY_MAX_SECTIONS) :
    ∃ chain, t.get_data_core convention u = Except.ok chain
      ∧ chain.length ≤ t.rawcode.nb_sections := by
  obtain ⟨res, er, mr⟩ := Track.core_loop_spec t.rawcode convention u t.rawcode.nb_sections 0 []
    none (by omega) (fun _ h => by cases h)
  refine ⟨res, er, ?_⟩
  have hl := congrArg List.length mr
  rw [List.length_map, List.map_nil, List.nil_append, List.length_map] at hl
  rw [hl]
  refine le_trans (List.length_filter_le _ _) ?_
  rw [List.length_range']

/-- Claim C40. For every track with at most RF433ANY_MAX_SECTIONS sections (every
reachable one), get_data_core returns a chain and get_data(RF433ANY_FD_DEDUP)
returns without failing an assertion; the number of nodes returned plus the sum
of their repeats is the number of nodes of the core chain; the nodes returned
are, their repeats aside, a subsequence of the core chain in the same order;
and no two adjacent nodes returned have the same get_id and bit vectors that
cmp finds equal (so they never have the same get_id and the same pdata). -/
theorem Track.dedup_conserves (t : Track) (convention : Nat) (u : Indeterminate)
    (h8 : t.rawcode.nb_sections ≤ RF433ANY_MAX_SECTIONS) :
    ∃ chain res, t.get_data_core convention u = Except.ok chain
      ∧ t.get_data RF433ANY_FD_DEDUP convention u = Except.ok res
      ∧ res.length + (res.map Decoder.get_repeats).sum = chain.length
      ∧ (res.map Decoder.reset_repeats).Sublist (chain.map Decoder.reset_repeats)
      ∧ List.Chain' (fun a b : Decoder =>
          ¬ (b.get_id = a.get_id ∧ b.pdata.cmp a.pdata = some 0)) res
      ∧ List.Chain' (fun a b : Decoder => ¬ (b.get_id = a.get_id ∧ b.pdata = a.pdata)) res := by
  obtain ⟨chain, ec, hl⟩ := Track.core_chain_length t convention u h8
  have h8b : RF433ANY_MAX_SECTIONS = 8 := rfl
  obtain ⟨res, e, s, sub, ch⟩ := Track.dedup_loop chain []
    (by
      simp only [List.length_nil, List.map_nil, List.sum_nil]
      omega)
    List.chain'_nil
  refine ⟨chain, res, ec, ?_, ?_, ?_, ch, ?_⟩
  · unfold Track.get_data
    rw [ec]
    exact e
  · rw [s]
    simp
  · simpa using sub
  · refine List.Chain'.imp ?_ ch
    intro a b hab hn
    apply hab
    refine ⟨hn.1, ?_⟩
    rw [hn.2]
    exact (BitVector.cmp_props a.pdata a.pdata a.pdata).2.2.2.1.2 ⟨rfl, fun _ _ => rfl⟩

theorem Track.dedup_conserves_witness :
    ∃ chain res,
      (Track.fed (alternate_levels 1 frame_two_sections)).get_data_core RF433ANY_CONV0
          Indeterminate.zeroed = Except.ok chain
      ∧ (Track.fed (alternate_levels 1 frame_two_sections)).get_data RF433ANY_FD_DEDUP
          RF433ANY_CONV0 Indeterminate.zeroed = Except.ok res
      ∧ res.length + (res.map Decoder.get_repeats).sum = chain.length := by
  obtain ⟨chain, res, h1, h2, h3, _⟩ :=
    Track.dedup_conserves (Track.fed (alternate_levels 1 frame_two_sections)) RF433ANY_CONV0
      Indeterminate.zeroed (by decide)
  exact ⟨chain, res, h1, h2, h3⟩
/-! ## Termination of track_eat -/

theorem Rail.rail_adjust_got_it (x : Rail) :
    x.rail_adjust.b_short.got_it = x.b_short.got_it
      ∧ x.rail_adjust.b_long.got_it = x.b_long.got_it := by
  unfold Rail.rail_adjust
  simp only []
  split_ifs
  · exact ⟨rfl, rfl⟩
  · exact ⟨rfl, rfl⟩

-- rail_eat fails no assertion, whatever the rail holds.
theorem Rail.rail_eat_total (r : Rail) (d : Nat) : ∃ R b, r.rail_eat d = some (R, b) := by
  unfold Rail.rail_eat
  by_cases hopen : r.status ≠ RailStatus.RAIL_OPEN
  · rw [if_pos hopen]
    exact ⟨_, _, rfl⟩
  rw [if_neg hopen]
  simp only []
  generalize hbs : r.b_short.test_value_init_if_needed d = bs
  generalize hbl : r.b_long.test_value_init_if_needed d = bl
  have hbs0 : bs.mid ≠ 0 → bs.got_it = false → (d < bs.inf ∨ d > bs.sup) := by
    intro hm hg
    rw [← hbs] at hm hg ⊢
    unfold Band.test_value_init_if_needed at hm hg ⊢
    by_cases h0 : r.b_short.mid = 0
    · rw [if_pos h0] at hm hg
      unfold Band.init at hm hg
      by_cases hin : d ≥ BAND_MIN_D ∧ d ≤ BAND_MAX_D
      · rw [if_pos hin] at hg
        exact absurd hg (by simp)
      · rw [if_neg hin] at hm
        exact absurd h0 hm
    · rw [if_neg h0] at hg ⊢
      simp only [decide_eq_false_iff_not] at hg
      simp only []
      omega
  unfold Rail.rail_learn
  by_cases hc : Rail.get_band_count { r with b_short := bs, b_long := bl } = 1
      ∧ (if bs.got_it then 1 else 0) + (if bl.got_it then 1 else 0) = 0
  · rw [if_pos hc]
    have hmid : bs.mid ≠ 0 := by
      have h1 := hc.1
      unfold Rail.get_band_count at h1
      simp only [] at h1
      by_cases he : bs.mid = bl.mid
      · rw [if_pos he] at h1
        by_cases hz : bs.mid ≠ 0
        · exact hz
        · rw [if_neg hz] at h1
          exact absurd h1 (by decide)
      · rw [if_neg he] at h1
        exact absurd h1 (by decide)
    have hgs : bs.got_it = false := by
      have h2 := hc.2
      cases hg : bs.got_it with
      | false => rfl
      | true =>
        rw [hg] at h2
        simp at h2
    have hgl : bl.got_it = false := by
      have h2 := hc.2
      cases hg : bl.got_it with
      | false => rfl
      | true =>
        rw [hg] at h2
        simp at h2
    have hout := hbs0 hmid hgs
    simp only []
    by_cases h1 : d < bs.inf
    · rw [if_pos h1]
      simp only []
      by_cases h2 : (d <<< 2) % 4294967296 ≥ bs.mid
      · rw [if_pos h2]
        simp only [if_true]
        by_cases h3 : (bs.init d).got_it = true
        · rw [if_pos h3]
          simp only []
          rw [if_neg (by decide), if_neg (by decide)]
          unfold Rail.rail_bit
          rw [if_pos rfl]
          simp only [(Rail.rail_adjust_got_it _).1, (Rail.rail_adjust_got_it _).2]
          rw [if_neg (by rw [h3, hgl]; decide)]
          exact ⟨_, _, rfl⟩
        · rw [if_neg h3]
          simp only []
          rw [if_neg (by rw [hc.1]; decide), if_pos (Or.inl hc.2)]
          exact ⟨_, _, rfl⟩
      · rw [if_neg h2]
        simp only []
        rw [if_neg (by rw [hc.1]; decide), if_pos (Or.inl hc.2)]
        exact ⟨_, _, rfl⟩
    · rw [if_neg h1]
      have h1b : d > bs.sup := by
        rcases hout with h | h
        · exact absurd h h1
        · exact h
      rw [if_pos h1b]
      simp only []
      by_cases h2 : (bs.mid <<< 2) % 4294967296 ≥ d
      · rw [if_pos h2]
        simp only [Bool.false_eq_true, if_false]
        by_cases h3 : (bl.init d).got_it = true
        · rw [if_pos h3]
          simp only []
          rw [if_neg (by decide), if_neg (by decide)]
          unfold Rail.rail_bit
          rw [if_pos rfl]
          simp only [(Rail.rail_adjust_got_it _).1, (Rail.rail_adjust_got_it _).2]
          rw [if_neg (by rw [h3, hgs]; decide)]
          exact ⟨_, _, rfl⟩
        · rw [if_neg h3]
          simp only []
          rw [if_neg (by rw [hc.1]; decide), if_pos (Or.inl hc.2)]
          exact ⟨_, _, rfl⟩
      · rw [if_neg h2]
        simp only []
        rw [if_neg (by rw [hc.1]; decide), if_pos (Or.inl hc.2)]
        exact ⟨_, _, rfl⟩
  · rw [if_neg hc]
    simp only []
    by_cases h0 : Rail.get_band_count { r with b_short := bs, b_long := bl } = 0
    · rw [if_pos h0]
      exact ⟨_, _, rfl⟩
    · rw [if_neg h0]
      by_cases hsep : (if bs.got_it then 1 else 0) + (if bl.got_it then 1 else 0) = 0
          ∨ (Rail.get_band_count { r with b_short := bs, b_long := bl } = 2
            ∧ (if bs.got_it then 1 else 0) + (if bl.got_it then 1 else 0) = 2)
      · rw [if_pos hsep]
        exact ⟨_, _, rfl⟩
      · rw [if_neg hsep]
        unfold Rail.rail_bit
        by_cases h2 : Rail.get_band_count { r with b_short := bs, b_long := bl } = 2
        · rw [if_pos h2]
          have hne : bs.got_it ≠ bl.got_it := by
            intro he
            apply hsep
            cases hg : bs.got_it with
            | false =>
              left
              rw [← he, hg]
              rfl
            | true =>
              right
              refine ⟨h2, ?_⟩
              rw [← he, hg]
              rfl
          simp only []
          rw [if_neg hne]
          exact ⟨_, _, rfl⟩
        · rw [if_neg h2]
          exact ⟨_, _, rfl⟩
-- The re-entrant calls of the closing block are made on tracks that treset
-- has just put in TRK_WAIT.
theorem Track.close_section_congr (f g : Track → Nat → Nat → Except Fault Track)
    (h : ∀ s r d, s.trk = trk_t.TRK_WAIT → f s r d = g s r d) (t0 : Track) (r d : Nat) :
    Track.close_section f t0 r d = Track.close_section g t0 r d := by
  have e : ∀ (s : Track) (r1 d1 : Nat), f s.treset r1 d1 = g s.treset r1 d1 :=
    fun s r1 d1 => h _ _ _ rfl
  unfold Track.close_section
  simp only [e]

theorem Track.track_eat_recv_congr (f g : Track → Nat → Nat → Except Fault Track)
    (h : ∀ s r d, s.trk = trk_t.TRK_WAIT → f s r d = g s r d) (t : Track) (r d : Nat) :
    Track.track_eat_recv f t r d = Track.track_eat_recv g t r d := by
  have e : ∀ (s : Track) (r1 d1 : Nat), f s.treset r1 d1 = g s.treset r1 d1 :=
    fun s r1 d1 => h _ _ _ rfl
  unfold Track.track_eat_recv
  simp only [e, Track.close_section_congr f g h]

theorem Track.track_eat_wait (n : Nat) (t : Track) (r d : Nat) (hw : t.trk ≠ trk_t.TRK_RECV) :
    Track.track_eat (n + 1) t r d = Track.track_eat 1 t r d
      ∧ ∃ t1, Track.track_eat 1 t r d = Except.ok t1 := by
  unfold Track.track_eat
  by_cases h1 : t.trk = trk_t.TRK_WAIT
  · rw [if_pos h1, if_pos h1]
    by_cases h2 : r = 1 ∧ d ≥ TRACK_MIN_INITSEQ_DURATION
    · rw [if_pos h2]
      exact ⟨rfl, _, rfl⟩
    · rw [if_neg h2]
      exact ⟨rfl, _, rfl⟩
  · simp only [if_neg h1, if_pos hw]
    exact ⟨trivial, _, rfl⟩

theorem Track.eat_edge_total (t : Track) (prail : Rail) (enforce0 : Bool) (d : Nat) :
    ∃ v, Track.eat_edge t prail enforce0 d = some v := by
  unfold Track.eat_edge
  split_ifs
  · exact ⟨_, rfl⟩
  · exact ⟨_, rfl⟩
  · obtain ⟨R, b, e⟩ := Rail.rail_eat_total prail d
    rw [e]
    exact ⟨_, rfl⟩
  · exact ⟨_, rfl⟩

-- What the closing block can return, whatever the track holds.
theorem Track.close_section_any (recurse : Track → Nat → Nat → Except Fault Track)
    (t0 : Track) (r d : Nat) (P : Except Fault Track → Prop)
    (hok : ∀ t1 : Track, P (Except.ok t1)) (hb : P (Except.error Fault.bounds))
    (hrec : ∀ t1 : Track, t1.trk = trk_t.TRK_WAIT → P (recurse t1 r d)) :
    P (Track.close_section recurse t0 r d) := by
  unfold Track.close_section
  simp only []
  generalize (if t0.r_low.status = RailStatus.RAIL_OPEN then
      ({ t0.r_low with status := RailStatus.RAIL_CLOSED } : Rail) else t0.r_low) = lo
  generalize (if t0.r_high.status = RailStatus.RAIL_OPEN then
      ({ t0.r_high with status := RailStatus.RAIL_CLOSED } : Rail) else t0.r_high) = hi
  generalize Track.section_sts lo hi = sts
  generalize Track.same_timings lo hi = st
  generalize (if decide (lo.index < TRACK_MIN_BITS ∨ hi.index < TRACK_MIN_BITS) = true then
      decide (sts ≠ section_term_status_t.STS_ERROR ∧ t0.rawcode.nb_sections ≠ 0
        ∧ (t0.rawcode.sections (t0.rawcode.nb_sections - 1)).sts
            = section_term_status_t.STS_CONTINUED)
      else decide (sts ≠ section_term_status_t.STS_ERROR)) = rcs
  by_cases c0 : decide (lo.index < TRACK_MIN_BITS ∨ hi.index < TRACK_MIN_BITS) = true
      ∧ sts ≠ section_term_status_t.STS_ERROR ∧ t0.rawcode.nb_sections ≠ 0
      ∧ ¬ (t0.rawcode.nb_sections - 1 < RF433ANY_MAX_SECTIONS)
  · rw [if_pos c0]
    exact hb
  rw [if_neg c0]
  cases rcs with
  | true =>
    rw [if_pos rfl]
    by_cases c1 : ¬ (t0.rawcode.nb_sections < RF433ANY_MAX_SECTIONS)
    · rw [if_pos c1]
      exact hb
    rw [if_neg c1]
    by_cases c2 : (if (t0.rawcode.nb_sections + 1) % 256 = RF433ANY_MAX_SECTIONS then
        trk_t.TRK_DATA else trk_t.TRK_RECV) = trk_t.TRK_RECV
    · rw [if_pos c2]
      by_cases c3 : sts ≠ section_term_status_t.STS_CONTINUED
      · rw [if_pos c3]
        exact hok _
      · rw [if_neg c3]
        exact hok _
    · rw [if_neg c2]
      exact hok _
  | false =>
    rw [if_neg (by decide)]
    by_cases c4 : t0.rawcode.nb_sections ≠ 0
    · rw [if_pos c4]
      exact hok _
    · rw [if_neg c4]
      exact hrec _ rfl

-- What the TRK_RECV body of track_eat can return, whatever the track holds.
theorem Track.track_eat_recv_any (recurse : Track → Nat → Nat → Except Fault Track)
    (t : Track) (r d : Nat) (P : Except Fault Track → Prop)
    (hok : ∀ t1 : Track, P (Except.ok t1)) (hb : P (Except.error Fault.bounds))
    (hrec : ∀ (t1 : Track) (r1 : Nat), t1.trk = trk_t.TRK_WAIT → P (recurse t1 r1 d)) :
    P (Track.track_eat_recv recurse t r d) := by
  unfold Track.track_eat_recv
  simp only []
  by_cases c1 : (t.count + 1) % 256 = 1
  · rw [if_pos c1]
    split_ifs
    · exact hrec _ _ rfl
    · exact hok _
  rw [if_neg c1]
  by_cases c2 : (t.count + 1) % 256 = 2
  · rw [if_pos c2]
    split_ifs
    · exact hrec _ _ rfl
    · exact hok _
  rw [if_neg c2]
  by_cases c3 : (if r = 0 then t.r_low else t.r_high).status ≠ RailStatus.RAIL_OPEN
  · rw [if_pos c3]
    exact hok _
  rw [if_neg c3]
  obtain ⟨v, ev⟩ := Track.eat_edge_total
    (if r = 0 then { t with prev_r := r, count := (t.count + 1) % 256, last_low := d }
      else { t with prev_r := r, count := (t.count + 1) % 256 })
    (if r = 0 then t.r_low else t.r_high) (decide (r = t.prev_r)) d
  obtain ⟨p, en, b0⟩ := v
  rw [ev]
  simp only []
  split_ifs
  all_goals
    first
    | exact hok _
    | exact Track.close_section_any recurse _ _ d P hok hb (fun t1 h1 => hrec t1 _ h1)
/-- Claim C39. For every Track state and every edge (r, d), track_eat(r, d)
returns with recursion depth 2, and more depth changes nothing: the call never
fails an assertion and never uses up the depth; it returns a track or, from
states with nb_sections out of range only, stops at an access outside
rawcode.sections. A call made in TRK_WAIT or TRK_DATA returns without recursing
(depth 1 is enough). The re-entrant calls are all made on a track that treset
has just put in TRK_WAIT: the TRK_RECV body gives the same result with any two
functions that agree on the tracks in TRK_WAIT in place of the re-entrant call. -/
theorem Track.track_eat_terminates (t : Track) (r d : Nat) :
    (∀ n, Track.track_eat (n + 2) t r d = Track.track_eat 2 t r d)
      ∧ ((∃ t1, Track.track_eat 2 t r d = Except.ok t1)
          ∨ Track.track_eat 2 t r d = Except.error Fault.bounds)
      ∧ (t.trk ≠ trk_t.TRK_RECV →
          (∀ n, Track.track_eat (n + 1) t r d = Track.track_eat 1 t r d)
            ∧ ∃ t1, Track.track_eat 1 t r d = Except.ok t1)
      ∧ (t.trk = trk_t.TRK_RECV → ∀ n,
          Track.track_eat (n + 1) t r d = Track.track_eat_recv (Track.track_eat n) t r d)
      ∧ (∀ f g : Track → Nat → Nat → Except Fault Track,
          (∀ s r1 d1, s.trk = trk_t.TRK_WAIT → f s r1 d1 = g s r1 d1) →
          Track.track_eat_recv f t r d = Track.track_eat_recv g t r d) := by
  have hrecv : t.trk = trk_t.TRK_RECV → ∀ n,
      Track.track_eat (n + 1) t r d = Track.track_eat_recv (Track.track_eat n) t r d := by
    intro h n
    rw [Track.track_eat, if_neg (by rw [h]; decide), if_neg (not_not.2 h)]
  have hwait : ∀ (s : Track) (r1 d1 n : Nat), s.trk = trk_t.TRK_WAIT →
      Track.track_eat (n + 1) s r1 d1 = Track.track_eat 1 s r1 d1 := by
    intro s r1 d1 n hs
    exact (Track.track_eat_wait n s r1 d1 (by rw [hs]; decide)).1
  refine ⟨?_, ?_, ?_, hrecv, ?_⟩
  · intro n
    by_cases h : t.trk = trk_t.TRK_RECV
    · rw [hrecv h (n + 1), hrecv h 1]
      exact Track.track_eat_recv_congr _ _ (fun s r1 d1 hs => hwait s r1 d1 n hs) t r d
    · rw [(Track.track_eat_wait (n + 1) t r d h).1, (Track.track_eat_wait 1 t r d h).1]
  · by_cases h : t.trk = trk_t.TRK_RECV
    · rw [hrecv h 1]
      exact Track.track_eat_recv_any (Track.track_eat 1) t r d
        (fun res => (∃ t1, res = Except.ok t1) ∨ res = Except.error Fault.bounds)
        (fun t1 => Or.inl ⟨t1, rfl⟩) (Or.inr rfl)
        (fun t1 r1 h1 => Or.inl (Track.track_eat_wait 0 t1 r1 d (by rw [h1]; decide)).2)
    · left
      obtain ⟨t1, e⟩ := (Track.track_eat_wait 1 t r d h).2
      exact ⟨t1, by rw [(Track.track_eat_wait 1 t r d h).1, e]⟩
  · intro h
    exact ⟨fun n => (Track.track_eat_wait n t r d h).1, (Track.track_eat_wait 0 t r d h).2⟩
  · intro f g hfg
    exact Track.track_eat_recv_congr f g hfg t r d

theorem Track.track_eat_terminates_witness :
    Track.track_eat 5 (Track.fed (alternate_levels 1 [9000, 30])) 0 30
        = Track.track_eat 2 (Track.fed (alternate_levels 1 [9000, 30])) 0 30
      ∧ (Track.fed (alternate_levels 1 [9000, 30])).trk = trk_t.TRK_WAIT :=
  ⟨(Track.track_eat_terminates (Track.fed (alternate_levels 1 [9000, 30])) 0 30).1 3, by decide⟩
/-! ## Synchronization of the rails -/

theorem Rail.rail_learn_status (r : Rail) (d cnt bc : Nat) (r2 : Rail) (cnt2 bc2 : Nat)
    (h : Rail.rail_learn r d cnt bc = some (r2, cnt2, bc2)) :
    r2.index = r.index ∧ r2.status = r.status := by
  unfold Rail.rail_learn at h
  by_cases hc : bc = 1 ∧ cnt = 0
  · rw [if_pos hc] at h
    by_cases h1 : d < r.b_short.inf
    · rw [if_pos h1] at h
      simp only [] at h
      by_cases h2 : (d <<< 2) % 4294967296 ≥ r.b_short.mid
      · rw [if_pos h2] at h
        simp only [if_true] at h
        by_cases h3 : (r.b_short.init d).got_it = true
        · rw [if_pos h3] at h
          simp only [Option.some.injEq, Prod.mk.injEq] at h
          obtain ⟨e, _, _⟩ := h
          subst e
          simp only [(Rail.rail_adjust_keeps _).2.1, (Rail.rail_adjust_keeps _).2.2.1]
          exact ⟨trivial, trivial⟩
        · rw [if_neg h3] at h
          simp only [Option.some.injEq, Prod.mk.injEq] at h
          obtain ⟨e, _, _⟩ := h
          subst e
          exact ⟨rfl, rfl⟩
      · rw [if_neg h2] at h
        simp only [Option.some.injEq, Prod.mk.injEq] at h
        obtain ⟨e, _, _⟩ := h
        subst e
        exact ⟨rfl, rfl⟩
    · rw [if_neg h1] at h
      by_cases h1b : d > r.b_short.sup
      · rw [if_pos h1b] at h
        simp only [] at h
        by_cases h2 : (r.b_short.mid <<< 2) % 4294967296 ≥ d
        · rw [if_pos h2] at h
          simp only [Bool.false_eq_true, if_false] at h
          by_cases h3 : (r.b_long.init d).got_it = true
          · rw [if_pos h3] at h
            simp only [Option.some.injEq, Prod.mk.injEq] at h
            obtain ⟨e, _, _⟩ := h
            subst e
            simp only [(Rail.rail_adjust_keeps _).2.1, (Rail.rail_adjust_keeps _).2.2.1]
            exact ⟨trivial, trivial⟩
          · rw [if_neg h3] at h
            simp only [Option.some.injEq, Prod.mk.injEq] at h
            obtain ⟨e, _, _⟩ := h
            subst e
            exact ⟨rfl, rfl⟩
        · rw [if_neg h2] at h
          simp only [Option.some.injEq, Prod.mk.injEq] at h
          obtain ⟨e, _, _⟩ := h
          subst e
          exact ⟨rfl, rfl⟩
      · rw [if_neg h1b] at h
        exact absurd h (by simp)
  · rw [if_neg hc] at h
    simp only [Option.some.injEq, Prod.mk.injEq] at h
    obtain ⟨e, _, _⟩ := h
    subst e
    exact ⟨rfl, rfl⟩

-- A rail that has just received its separator has kept its index.
theorem Rail.rail_eat_stp_index (r : Rail) (d : Nat) (R : Rail) (b : Bool)
    (h : r.rail_eat d = some (R, b)) (hs : R.status = RailStatus.RAIL_STP_RCVD) :
    R.index = r.index := by
  by_cases hopen : r.status = RailStatus.RAIL_OPEN
  · unfold Rail.rail_eat at h
    rw [if_neg (not_not.2 hopen)] at h
    simp only [] at h
    cases hl : Rail.rail_learn
        { r with b_short := r.b_short.test_value_init_if_needed d
                 b_long := r.b_long.test_value_init_if_needed d } d
        ((if (r.b_short.test_value_init_if_needed d).got_it then 1 else 0)
          + (if (r.b_long.test_value_init_if_needed d).got_it then 1 else 0))
        (Rail.get_band_count
          { r with b_short := r.b_short.test_value_init_if_needed d
                   b_long := r.b_long.test_value_init_if_needed d }) with
    | none => rw [hl] at h; exact absurd h (by simp)
    | some v =>
      obtain ⟨r2, cnt2, bc2⟩ := v
      rw [hl] at h
      simp only [] at h
      obtain ⟨k2, k3⟩ := Rail.rail_learn_status _ d _ _ r2 cnt2 bc2 hl
      have k2b : r2.index = r.index := k2
      have k3b : r2.status = RailStatus.RAIL_OPEN := by rw [k3]; exact hopen
      by_cases h0 : bc2 = 0
      · rw [if_pos h0] at h
        simp only [Option.some.injEq, Prod.mk.injEq] at h
        rw [← h.1] at hs
        simp at hs
      · rw [if_neg h0] at h
        by_cases hsep : cnt2 = 0 ∨ (bc2 = 2 ∧ cnt2 = 2)
        · rw [if_pos hsep] at h
          simp only [Option.some.injEq, Prod.mk.injEq] at h
          rw [← h.1]
          obtain ⟨_, _, _, s4, _, _⟩ := Rail.rail_sep_keeps r2 d
          rw [s4, k2b]
        · rw [if_neg hsep] at h
          cases hb : Rail.rail_bit r2 bc2 with
          | none => rw [hb] at h; exact absurd h (by simp)
          | some r3 =>
            rw [hb] at h
            simp only [Option.some.injEq, Prod.mk.injEq] at h
            rw [← h.1] at hs
            exfalso
            unfold Rail.rail_bit at hb
            by_cases h2 : bc2 = 2
            · rw [if_pos h2] at hb
              by_cases hg : r2.b_short.got_it = r2.b_long.got_it
              · rw [if_pos hg] at hb
                exact absurd hb (by simp)
              · rw [if_neg hg] at hb
                simp only [Option.some.injEq] at hb
                rw [← hb] at hs
                simp only [k3b] at hs
                split_ifs at hs
            · rw [if_neg h2] at hb
              simp only [Option.some.injEq] at hb
              rw [← hb] at hs
              simp only [k3b] at hs
              split_ifs at hs
  · rw [Rail.rail_eat_not_open r d hopen] at h
    simp only [Option.some.injEq, Prod.mk.injEq] at h
    rw [← h.1]
theorem Track.eat_edge_routed (t : Track) (prail : Rail) (enforce0 : Bool) (d : Nat)
    (hd : d < 65536) (hinv : prail.Inv) (hopen : prail.status = RailStatus.RAIL_OPEN) :
    Track.eat_edge t prail enforce0 d = some (prail, true, false)
    ∨ ∃ p, Track.eat_edge t prail enforce0 d
          = some (p, false, decide (p.status = RailStatus.RAIL_OPEN))
        ∧ p.Inv ∧ (p.status = RailStatus.RAIL_STP_RCVD → 0 < d)
        ∧ prail.rail_eat d = some (p, decide (p.status = RailStatus.RAIL_OPEN))
        ∧ ¬ Int.natAbs ((t.r_low.index : Int) - (t.r_high.index : Int)) ≥ 2
        ∧ (p.index = prail.index ∨ p.index = prail.index + 1)
        ∧ (p.status = RailStatus.RAIL_STP_RCVD → p.index = prail.index) := by
  unfold Track.eat_edge
  by_cases h1 : (d < BAND_MIN_D ∨ d ≥ t.rawcode.max_code_d) ∧ t.count < TRACK_MIN_BITS
  · left; rw [if_pos h1]
  · rw [if_neg h1]
    by_cases h2 : Int.natAbs ((t.r_low.index : Int) - (t.r_high.index : Int)) ≥ 2
    · left; rw [if_pos h2]
    · rw [if_neg h2]
      cases enforce0
      · right
        obtain ⟨p, e, hp, _, _, hstp, hidx⟩ := Rail.rail_eat_open prail d hd hinv hopen
        refine ⟨p, ?_, hp, hstp, e, h2, hidx, fun hs => Rail.rail_eat_stp_index prail d p _ e hs⟩
        simp only [Bool.not_false, if_true]
        rw [e]
      · left
        simp

theorem Track.section_sts_ok (lo hi : Rail)
    (h : Track.section_sts lo hi ≠ section_term_status_t.STS_ERROR) :
    (lo.status = RailStatus.RAIL_FULL ∧ hi.status = RailStatus.RAIL_FULL)
      ∨ hi.status = RailStatus.RAIL_STP_RCVD := by
  unfold Track.section_sts at h
  by_cases h1 : lo.status = RailStatus.RAIL_FULL ∧ hi.status = RailStatus.RAIL_FULL
  · exact Or.inl h1
  · rw [if_neg h1] at h
    by_cases h2 : hi.status = RailStatus.RAIL_STP_RCVD
    · exact Or.inr h2
    · rw [if_neg h2] at h
      exact absurd rfl h

theorem Track.make_section_bits (t : Track) (lo : Rail) (shared : Bool)
    (sts : section_term_status_t) (d : Nat) :
    (Track.make_section t lo shared sts d).low_bits = lo.index % 64
      ∧ (Track.make_section t lo shared sts d).high_bits = t.r_high.index % 64 := by
  unfold Track.make_section
  exact ⟨rfl, rfl⟩

theorem Track.close_sync (recurse : Track → Nat → Nat → Except Fault Track)
    (t0 : Track) (r d : Nat)
    (hlo : t0.r_low.Inv) (hhi : t0.r_high.Inv)
    (hnb : t0.rawcode.nb_sections < RF433ANY_MAX_SECTIONS)
    (hsec : ∀ i, i < t0.rawcode.nb_sections →
      Int.natAbs (((t0.rawcode.sections i).low_bits : Int)
        - ((t0.rawcode.sections i).high_bits : Int)) ≤ 1)
    (hstp : t0.r_high.status = RailStatus.RAIL_STP_RCVD →
      Int.natAbs ((t0.r_low.index : Int) - (t0.r_high.index : Int)) ≤ 1)
    (P : Except Fault Track → Prop) (hok : ∀ t1 : Track, t1.Synced → P (Except.ok t1))
    (hrec : ∀ t1 : Track, t1.trk = trk_t.TRK_WAIT →
      t1.rawcode.nb_sections = 0 → P (recurse t1 r d)) :
    P (Track.close_section recurse t0 r d) := by
  have hloP := Rail.inv_promote _ hlo
  have hhiP := Rail.inv_promote _ hhi
  have hloI : (if t0.r_low.status = RailStatus.RAIL_OPEN then
      ({ t0.r_low with status := RailStatus.RAIL_CLOSED } : Rail) else t0.r_low).index
        = t0.r_low.index := by
    split_ifs <;> rfl
  have hhiI : (if t0.r_high.status = RailStatus.RAIL_OPEN then
      ({ t0.r_high with status := RailStatus.RAIL_CLOSED } : Rail) else t0.r_high).index
        = t0.r_high.index := by
    split_ifs <;> rfl
  have hstpP : (if t0.r_high.status = RailStatus.RAIL_OPEN then
      ({ t0.r_high with status := RailStatus.RAIL_CLOSED } : Rail) else t0.r_high).status
        = RailStatus.RAIL_STP_RCVD → t0.r_high.status = RailStatus.RAIL_STP_RCVD := by
    by_cases ho : t0.r_high.status = RailStatus.RAIL_OPEN
    · rw [if_pos ho]; intro h; simp at h
    · rw [if_neg ho]; exact fun h => h
  unfold Track.close_section
  simp only []
  generalize (if t0.r_low.status = RailStatus.RAIL_OPEN then
      ({ t0.r_low with status := RailStatus.RAIL_CLOSED } : Rail) else t0.r_low) = lo
        at hloP hloI ⊢
  generalize (if t0.r_high.status = RailStatus.RAIL_OPEN then
      ({ t0.r_high with status := RailStatus.RAIL_CLOSED } : Rail) else t0.r_high) = hi
        at hhiP hhiI hstpP ⊢
  have hsts := Track.section_sts_ok lo hi
  generalize Track.section_sts lo hi = sts at hsts ⊢
  simp only [RF433ANY_MAX_SECTIONS] at hnb ⊢
  rw [if_neg (by omega)]
  have hrcs : (if decide (lo.index < TRACK_MIN_BITS ∨ hi.index < TRACK_MIN_BITS) = true then
      decide (sts ≠ section_term_status_t.STS_ERROR ∧ t0.rawcode.nb_sections ≠ 0
        ∧ (t0.rawcode.sections (t0.rawcode.nb_sections - 1)).sts
            = section_term_status_t.STS_CONTINUED)
      else decide (sts ≠ section_term_status_t.STS_ERROR)) = true →
      sts ≠ section_term_status_t.STS_ERROR := by
    intro h
    split_ifs at h
    · exact (of_decide_eq_true h).1
    · exact of_decide_eq_true h
  generalize (if decide (lo.index < TRACK_MIN_BITS ∨ hi.index < TRACK_MIN_BITS) = true then
      decide (sts ≠ section_term_status_t.STS_ERROR ∧ t0.rawcode.nb_sections ≠ 0
        ∧ (t0.rawcode.sections (t0.rawcode.nb_sections - 1)).sts
            = section_term_status_t.STS_CONTINUED)
      else decide (sts ≠ section_term_status_t.STS_ERROR)) = rcs at hrcs
  have hnb1 : (t0.rawcode.nb_sections + 1) % 256 = t0.rawcode.nb_sections + 1 := by omega
  have hSI : (Track.same_timings lo hi).1.index = lo.index :=
    (Track.same_timings_iff lo hi).2.2.2.2
  have hlo16 : lo.index ≤ 16 := hloP.2.2.1
  have hhi16 : hi.index ≤ 16 := hhiP.2.2.1
  have hsecs : rcs = true → ∀ (tt : Track), tt.r_high = hi → ∀ (i : Nat),
      i < t0.rawcode.nb_sections + 1 →
      Int.natAbs (((if i = t0.rawcode.nb_sections then
          Track.make_section tt (Track.same_timings lo hi).1 (Track.same_timings lo hi).2 sts d
         else t0.rawcode.sections i).low_bits : Int)
        - ((if i = t0.rawcode.nb_sections then
          Track.make_section tt (Track.same_timings lo hi).1 (Track.same_timings lo hi).2 sts d
         else t0.rawcode.sections i).high_bits : Int)) ≤ 1 := by
    intro hr tt htt i hi2
    by_cases hin : i = t0.rawcode.nb_sections
    · rw [if_pos hin, (Track.make_section_bits _ _ _ _ _).1,
        (Track.make_section_bits _ _ _ _ _).2, htt, hSI]
      have e1 : lo.index % 64 = lo.index := Nat.mod_eq_of_lt (by omega)
      have e2 : hi.index % 64 = hi.index := Nat.mod_eq_of_lt (by omega)
      rw [e1, e2]
      rcases hsts (hrcs hr) with ⟨f1, f2⟩ | hs
      · have g1 := hloP.2.2.2.1 f1
        have g2 := hhiP.2.2.2.1 f2
        simp only [BITS_PER_RECORD] at g1 g2
        omega
      · have := hstp (hstpP hs)
        rw [hloI, hhiI]
        exact this
    · rw [if_neg hin]
      exact hsec i (by omega)
  cases rcs
  · -- the section is not recorded
    rw [if_neg (by decide)]
    by_cases h0 : t0.rawcode.nb_sections ≠ 0
    · rw [if_pos h0]
      apply hok
      refine ⟨hsec, ?_, ?_⟩
      · intro h; simp at h
      · intro _
        show 1 ≤ t0.rawcode.nb_sections
        omega
    · rw [if_neg h0]
      exact hrec _ rfl rfl
  · -- the section is recorded
    rw [if_pos rfl, if_neg (by omega), hnb1]
    by_cases h8 : t0.rawcode.nb_sections + 1 = 8
    · rw [if_pos h8, if_neg (by decide)]
      apply hok
      refine ⟨?_, ?_, ?_⟩
      · exact hsecs rfl _ rfl
      · intro h; simp at h
      · intro _
        show 1 ≤ t0.rawcode.nb_sections + 1
        omega
    · rw [if_neg h8, if_pos rfl]
      by_cases hc : sts ≠ section_term_status_t.STS_CONTINUED
      · rw [if_pos hc]
        apply hok
        refine ⟨?_, ?_, ?_⟩
        · exact hsecs rfl _ rfl
        · intro _
          simp [Track.reset_border_mgmt, Rail.rreset_soft]
        · intro h; simp [Track.reset_border_mgmt] at h
      · rw [if_neg hc]
        apply hok
        refine ⟨?_, ?_, ?_⟩
        · exact hsecs rfl _ rfl
        · intro _
          simp [Rail.rreset_soft]
        · intro h; simp at h
theorem Track.recv_sync (recurse : Track → Nat → Nat → Except Fault Track)
    (t : Track) (r d : Nat) (hinv : t.Inv) (hsy : t.Synced) (ht : t.trk = trk_t.TRK_RECV)
    (hr : r ≤ 1) (hd : d < 65536)
    (P : Except Fault Track → Prop) (hok : ∀ t1 : Track, t1.Synced → P (Except.ok t1))
    (hrec : ∀ (t1 : Track) (r1 : Nat), t1.trk = trk_t.TRK_WAIT →
      t1.rawcode.nb_sections = 0 → P (recurse t1 r1 d)) :
    P (Track.track_eat_recv recurse t r d) := by
  obtain ⟨hlo, hhi, hnb, hwait, hrecv, hsec⟩ := hinv
  obtain ⟨hnb8, hhopen⟩ := hrecv ht
  obtain ⟨ysec, yrecv, ydata⟩ := hsy
  have y2 := yrecv ht
  have hnd : ¬ trk_t.TRK_RECV = trk_t.TRK_DATA := by decide
  unfold Track.track_eat_recv
  simp only []
  by_cases hc1 : (t.count + 1) % 256 = 1
  · rw [if_pos hc1]
    split_ifs
    · exact hrec _ _ rfl rfl
    · exact hok _ ⟨ysec, fun _ => y2, fun h => by rw [ht] at h; exact absurd h hnd⟩
  · rw [if_neg hc1]
    by_cases hc2 : (t.count + 1) % 256 = 2
    · rw [if_pos hc2]
      split_ifs
      · exact hrec _ _ rfl rfl
      · exact hok _ ⟨ysec, fun _ => y2, fun h => by rw [ht] at h; exact absurd h hnd⟩
    · rw [if_neg hc2]
      have hr01 : r = 0 ∨ r = 1 := by omega
      rcases hr01 with rfl | rfl
      · -- a LOW edge
        simp only [if_true]
        by_cases hs : t.r_low.status ≠ RailStatus.RAIL_OPEN
        · rw [if_pos hs]
          exact hok _ ⟨ysec, fun _ => y2, fun h => by rw [ht] at h; exact absurd h hnd⟩
        · rw [if_neg hs]
          rcases Track.eat_edge_routed
              { t with prev_r := 0, count := (t.count + 1) % 256, last_low := d }
              t.r_low (decide (0 = t.prev_r)) d hd hlo (not_not.1 hs)
            with e | ⟨p, e, hp, _, _, hpre, hidx, _⟩
          · rw [e]
            simp only [if_true, Bool.not_false, true_or, and_self]
            refine Track.close_sync recurse _ 1 d ?_ ?_ ?_ ?_ ?_ P hok (fun t1 => hrec t1 1)
            · exact hlo
            · exact hhi
            · exact hnb8
            · exact ysec
            · intro h
              have h2 : t.r_high.status = RailStatus.RAIL_STP_RCVD := h
              rw [hhopen] at h2
              exact absurd h2 (by decide)
          · rw [e]
            simp only [Bool.false_eq_true, if_false]
            rw [if_neg (by omega)]
            refine hok _ ⟨ysec, fun _ => ?_, fun h => by rw [ht] at h; exact absurd h hnd⟩
            show Int.natAbs ((p.index : Int) - (t.r_high.index : Int)) ≤ 2
            have hpre2 : ¬ Int.natAbs ((t.r_low.index : Int) - (t.r_high.index : Int)) ≥ 2 := hpre
            omega
      · -- a HIGH edge
        simp only [Nat.one_ne_zero, if_false]
        rw [if_neg (not_not.2 hhopen)]
        rcases Track.eat_edge_routed
            { t with prev_r := 1, count := (t.count + 1) % 256 }
            t.r_high (decide (1 = t.prev_r)) d hd hhi hhopen
          with e | ⟨p, e, hp, _, _, hpre, hidx, hstpi⟩
        · rw [e]
          simp only [if_true, Bool.not_false, true_or, and_self]
          refine Track.close_sync recurse _ 1 d ?_ ?_ ?_ ?_ ?_ P hok (fun t1 => hrec t1 1)
          · exact hlo
          · exact hhi
          · exact hnb8
          · exact ysec
          · intro h
            have h2 : t.r_high.status = RailStatus.RAIL_STP_RCVD := h
            rw [hhopen] at h2
            exact absurd h2 (by decide)
        · rw [e]
          simp only [Bool.false_eq_true, if_false]
          have hpre2 : ¬ Int.natAbs ((t.r_low.index : Int) - (t.r_high.index : Int)) ≥ 2 := hpre
          by_cases hcl : True ∧ ((!decide (p.status = RailStatus.RAIL_OPEN)) = true
              ∨ t.r_low.status ≠ RailStatus.RAIL_OPEN)
          · rw [if_pos hcl]
            refine Track.close_sync recurse _ 1 d ?_ ?_ ?_ ?_ ?_ P hok (fun t1 => hrec t1 1)
            · exact hlo
            · exact hp
            · exact hnb8
            · exact ysec
            · intro h
              have h2 : p.status = RailStatus.RAIL_STP_RCVD := h
              have h3 := hstpi h2
              show Int.natAbs ((t.r_low.index : Int) - (p.index : Int)) ≤ 1
              rw [h3]
              omega
          · rw [if_neg hcl]
            refine hok _ ⟨ysec, fun _ => ?_, fun h => by rw [ht] at h; exact absurd h hnd⟩
            show Int.natAbs ((t.r_low.index : Int) - (p.index : Int)) ≤ 2
            omega

theorem Track.wait_sync (t : Track) (r d fuel : Nat) (ht : t.trk = trk_t.TRK_WAIT)
    (hnb : t.rawcode.nb_sections = 0) :
    ∀ t1, Track.track_eat (fuel + 1) t r d = Except.ok t1 → t1.Synced := by
  intro t1 h
  unfold Track.track_eat at h
  rw [if_pos ht] at h
  by_cases hc : r = 1 ∧ d ≥ TRACK_MIN_INITSEQ_DURATION
  · rw [if_pos hc] at h
    rw [← Except.ok.inj h]
    refine ⟨?_, ?_, ?_⟩
    · intro i hi
      simp [Track.reset_border_mgmt, hnb] at hi
    · intro _
      simp [Track.reset_border_mgmt, Rail.rreset, Rail.rreset_soft]
    · intro h2
      simp [Track.reset_border_mgmt] at h2
  · rw [if_neg hc] at h
    rw [← Except.ok.inj h]
    refine ⟨?_, ?_, ?_⟩
    · intro i hi
      rw [hnb] at hi
      omega
    · intro h2
      rw [ht] at h2
      exact absurd h2 (by decide)
    · intro h2
      rw [ht] at h2
      exact absurd h2 (by decide)

theorem Track.track_eat_sync (t : Track) (r d fuel : Nat) (t1 : Track) (hinv : t.Inv)
    (hsy : t.Synced) (hr : r ≤ 1) (hd : d < 65536)
    (h : Track.track_eat fuel t r d = Except.ok t1) : t1.Synced := by
  rcases fuel with _ | n
  · rw [Track.track_eat] at h; exact absurd h (by simp)
  · by_cases hw : t.trk = trk_t.TRK_WAIT
    · exact Track.wait_sync t r d n hw (hinv.2.2.2.1 hw) t1 h
    · by_cases hrv : t.trk = trk_t.TRK_RECV
      · have e : Track.track_eat (n + 1) t r d
            = Track.track_eat_recv (Track.track_eat n) t r d := by
          rw [Track.track_eat, if_neg hw, if_neg (not_not.2 hrv)]
        rw [e] at h
        refine Track.recv_sync _ t r d hinv hsy hrv hr hd
          (fun res => ∀ t1, res = Except.ok t1 → t1.Synced) ?_ ?_ t1 h
        · intro t2 h2 t3 h3
          rw [← Except.ok.inj h3]; exact h2
        · intro t2 r1 h1 h4 t3 h5
          rcases n with _ | m
          · rw [Track.track_eat] at h5; exact absurd h5 (by simp)
          · exact Track.wait_sync t2 r1 d m h1 h4 t3 h5
      · rw [Track.track_eat, if_neg hw, if_pos hrv] at h
        rw [← Except.ok.inj h]; exact hsy

theorem Track.construct_synced (g : Track) (mood : Nat) : (Track.construct g mood).Synced := by
  refine ⟨?_, ?_, ?_⟩
  · intro i hi; simp [Track.construct, Track.treset] at hi
  · intro h; simp [Track.construct, Track.treset] at h
  · intro h; simp [Track.construct, Track.treset] at h

theorem Track.track_reachable_synced (t : Track) (h : Track.Reachable t) : t.Synced := by
  induction h with
  | construct g m => exact Track.construct_synced g m
  | eat t r d fuel t1 hreach hr hd he ih =>
    exact Track.track_eat_sync t r d fuel t1 (Track.track_reachable_inv t hreach) ih hr hd he
set_option maxRecDepth 100000 in
/-- Claim C36 fails on the code: the 260 edges of edges_desync (levels 0 and 1,
durations below 65536) lead from construction to a state in TRK_RECV with
r_low.index = 16 and r_high.index = 14. The byte count has wrapped to 0 on the
256th edge after the init sequence, so the two highs that follow were taken as
first_low and first_high (count 1 and 2) and not given to the high rail. On the
next high edge the desynchronization test of track_eat is true: the section is
closed without being recorded and the track goes to TRK_DATA with the 7 sections
recorded before. -/
theorem Track.rails_two_apart :
    Track.Reachable (Track.fed edges_desync)
      ∧ (Track.fed (edges_desync.take 257)).border
          = (trk_t.TRK_RECV, 0, 620, 1240, 15, 14, 7)
      ∧ (Track.fed (edges_desync.take 259)).border
          = (trk_t.TRK_RECV, 2, 1240, 1240, 15, 14, 7)
      ∧ (Track.fed edges_desync).border = (trk_t.TRK_RECV, 3, 1240, 1240, 16, 14, 7)
      ∧ Int.natAbs (((Track.fed edges_desync).r_low.index : Int)
          - ((Track.fed edges_desync).r_high.index : Int)) = 2
      ∧ (Track.fed (edges_desync ++ [(1, 1240)])).border
          = (trk_t.TRK_DATA, 4, 1240, 1240, 16, 14, 7) :=
  ⟨Track.fed_reachable _ (by decide), by decide, by decide, by decide, by decide, by decide⟩

-- In every Track state reachable from construction through track_eat calls, every
-- recorded section has low_bits and high_bits at most 1 apart, so the branch
-- abs(low_bits - high_bits) >= 2 of get_data_core is never taken for a section
-- produced by track_eat; in TRK_RECV the indices of the rails are at most 2
-- apart.
theorem Track.rails_synchronized (t : Track) (h : Track.Reachable t) :
    (∀ i, i < t.rawcode.nb_sections →
        Int.natAbs (((t.rawcode.sections i).low_bits : Int)
          - ((t.rawcode.sections i).high_bits : Int)) ≤ 1)
      ∧ (∀ i, i < t.rawcode.nb_sections →
        ¬ Int.natAbs (((t.rawcode.sections i).low_bits : Int)
          - ((t.rawcode.sections i).high_bits : Int)) ≥ 2)
      ∧ (t.trk = trk_t.TRK_RECV →
        Int.natAbs ((t.r_low.index : Int) - (t.r_high.index : Int)) ≤ 2) := by
  obtain ⟨h1, h2, _⟩ := Track.track_reachable_synced t h
  refine ⟨h1, ?_, h2⟩
  intro i hi
  have := h1 i hi
  omega

theorem Track.rails_synchronized_witness :
    Int.natAbs ((((Track.fed (alternate_levels 1 scenario_S1)).rawcode.sections 0).low_bits : Int)
      - (((Track.fed (alternate_levels 1 scenario_S1)).rawcode.sections 0).high_bits : Int)) ≤ 1 :=
  (Track.rails_synchronized (Track.fed (alternate_levels 1 scenario_S1))
    (Track.fed_reachable _ (by decide))).1 0 (by decide)
set_option maxRecDepth 100000 in
/-- Claim C37 fails on the code: count is a byte that is incremented on every
edge received in TRK_RECV and is reset only at an init sequence and at a
section closed by a separator, not at a continued section. After the init
sequence 9000 and 256 alternating edges (lows of 620, highs of 1240, no
separator: 7 continued sections of 16 bits are recorded and the 8th is being
received) count is 0, not 256. The next two edges (a low of 600, a high of
1200) get count 1 and 2: they are stored as first_low and first_high, which
held 620 and 1240 from the first two edges of the frame, and are not given to
the rails, whose indices stay at 15; the 8th section is completed by the two
edges after them. -/
theorem Track.count_wraps_at_256 :
    Track.Reachable (Track.fed (alternate_levels 1 (frame_long 256 ++ [600, 1200])))
      ∧ (Track.fed (alternate_levels 1 (frame_long 255))).border
          = (trk_t.TRK_RECV, 255, 620, 1240, 15, 14, 7)
      ∧ (Track.fed (alternate_levels 1 (frame_long 256))).border
          = (trk_t.TRK_RECV, 0, 620, 1240, 15, 15, 7)
      ∧ (Track.fed (alternate_levels 1 (frame_long 256 ++ [600]))).border
          = (trk_t.TRK_RECV, 1, 600, 1240, 15, 15, 7)
      ∧ (Track.fed (alternate_levels 1 (frame_long 256 ++ [600, 1200]))).border
          = (trk_t.TRK_RECV, 2, 600, 1200, 15, 15, 7)
      ∧ (Track.fed (alternate_levels 1 (frame_long 256 ++ [600, 1200, 620, 1240]))).border
          = (trk_t.TRK_DATA, 4, 600, 1200, 16, 16, 8) :=
  ⟨Track.fed_reachable _ (by decide), by decide, by decide, by decide, by decide, by decide⟩
/-! ## TRK_DATA and the chain of decoders -/

theorem Track.core_chain_nonempty (t : Track) (convention : Nat) (u : Indeterminate)
    (h1 : 1 ≤ t.rawcode.nb_sections) (h8 : t.rawcode.nb_sections ≤ RF433ANY_MAX_SECTIONS) :
    ∃ chain, t.get_data_core convention u = Except.ok chain ∧ chain ≠ [] := by
  obtain ⟨res, er, mr⟩ := Track.core_loop_spec t.rawcode convention u t.rawcode.nb_sections 0 []
    none (by omega) (fun _ h => by cases h)
  refine ⟨res, er, ?_⟩
  intro hnil
  rw [hnil] at mr
  simp only [List.map_nil, List.nil_append] at mr
  have hmem : t.rawcode.nb_sections - 1 ∈ (List.range' 0 t.rawcode.nb_sections).filter (fun j =>
      decide ((t.rawcode.sections j).sts ≠ section_term_status_t.STS_CONTINUED
        ∨ j = t.rawcode.nb_sections - 1)) := by
    rw [List.mem_filter]
    refine ⟨?_, ?_⟩
    · rw [List.mem_range']
      exact ⟨t.rawcode.nb_sections - 1, by omega, by omega⟩
    · exact decide_eq_true (Or.inr rfl)
  have hl := congrArg List.length mr
  rw [List.length_nil, List.length_map] at hl
  have := List.length_pos_of_mem hmem
  omega

theorem Track.get_data_all (t : Track) (convention : Nat) (u : Indeterminate)
    (chain : List Decoder) (h : t.get_data_core convention u = Except.ok chain) :
    t.get_data RF433ANY_FD_ALL convention u = Except.ok (chain.map Decoder.reset_repeats) := by
  unfold Track.get_data
  rw [h]
  simp only []
  unfold Track.get_data_filter
  rw [Track.get_data_loop_no_dedup RF433ANY_FD_ALL (by decide)]
  simp only [List.reverse_nil, List.nil_append]
  congr 1
  rw [List.filter_eq_self]
  intro p _
  rfl

theorem Track.drain_reachable (fuel : Nat) (turns : Nat) :
    ∀ (t : Track) (ring : IHRing) (t1 : Track) (ring1 : IHRing), Track.Reachable t →
      (∀ i, (ring.IH_timings i).1 ≤ 1 ∧ (ring.IH_timings i).2 < 65536) →
      Track.drain fuel turns t ring = Except.ok (t1, ring1) → Track.Reachable t1 := by
  induction turns with
  | zero =>
    intro t ring t1 ring1 _ _ h
    rw [Track.drain] at h
    exact absurd h (by simp)
  | succ n ih =>
    intro t ring t1 ring1 hr hv h
    rw [Track.drain] at h
    unfold Track.process_interrupt_timing at h
    by_cases hd : t.trk = trk_t.TRK_DATA
    · rw [if_pos hd] at h
      simp only [] at h
      rw [← (Prod.mk.inj (Except.ok.inj h)).1]
      exact hr
    · rw [if_neg hd] at h
      simp only [] at h
      generalize hg : (if ring.pending > ring.IH_max_pending_timings then
          ({ ring with IH_max_pending_timings := ring.pending } : IHRing) else ring) = rg at h
      have hrg : rg.IH_timings = ring.IH_timings := by
        rw [← hg]
        split_ifs <;> rfl
      unfold IHRing.ih_read at h
      by_cases hne : rg.IH_read_head ≠ rg.IH_write_head
      · rw [if_pos hne] at h
        simp only [] at h
        have hval := hv rg.IH_read_head
        rw [← hrg] at hval
        cases he : Track.track_eat fuel t (rg.IH_timings rg.IH_read_head).1
            (rg.IH_timings rg.IH_read_head).2 with
        | error e =>
          rw [he] at h
          exact absurd h (by simp)
        | ok t2 =>
          rw [he] at h
          simp only [] at h
          refine ih t2 _ t1 ring1 (Track.Reachable.eat t _ _ fuel t2 hr hval.1 hval.2 he) ?_ h
          intro i
          show (rg.IH_timings i).1 ≤ 1 ∧ (rg.IH_timings i).2 < 65536
          rw [hrg]
          exact hv i
      · rw [if_neg hne] at h
        simp only [] at h
        rw [← (Prod.mk.inj (Except.ok.inj h)).1]
        exact hr
/-- Claim C38. In every Track state reachable from construction through
track_eat calls, trk = TRK_DATA implies nb_sections ≥ 1; for every RawCode with
1 ≤ nb_sections ≤ RF433ANY_MAX_SECTIONS get_data_core returns a non-empty chain
(no assertion fails, no section is read outside the array); hence, from a
reachable state and a ring whose slots hold a level 0 or 1 and a 16-bit
duration, whenever do_events() returns true the track is in TRK_DATA and
get_data(RF433ANY_FD_ALL) returns at least one decoder. -/
theorem Track.data_implies_data (t : Track) (h : Track.Reachable t) :
    (t.trk = trk_t.TRK_DATA → 1 ≤ t.rawcode.nb_sections)
      ∧ (∀ (t2 : Track) (convention : Nat) (u : Indeterminate),
          1 ≤ t2.rawcode.nb_sections → t2.rawcode.nb_sections ≤ RF433ANY_MAX_SECTIONS →
          ∃ chain, t2.get_data_core convention u = Except.ok chain ∧ chain ≠ [])
      ∧ (∀ (fuel turns : Nat) (ring : IHRing) (t1 : Track) (ring1 : IHRing) (convention : Nat)
          (u : Indeterminate),
          (∀ i, (ring.IH_timings i).1 ≤ 1 ∧ (ring.IH_timings i).2 < 65536) →
          Track.do_events fuel turns t ring = Except.ok (t1, ring1, true) →
          t1.trk = trk_t.TRK_DATA
            ∧ ∃ chain, t1.get_data RF433ANY_FD_ALL convention u = Except.ok chain
                ∧ chain ≠ []) := by
  refine ⟨(Track.track_reachable_synced t h).2.2, ?_, ?_⟩
  · intro t2 convention u h1 h8
    exact Track.core_chain_nonempty t2 convention u h1 h8
  · intro fuel turns ring t1 ring1 convention u hv hev
    unfold Track.do_events at hev
    cases hd : Track.drain fuel turns t ring with
    | error e =>
      rw [hd] at hev
      exact absurd hev (by simp)
    | ok v =>
      obtain ⟨t2, ring2⟩ := v
      rw [hd] at hev
      simp only [Except.ok.injEq, Prod.mk.injEq, decide_eq_true_eq] at hev
      obtain ⟨e1, _, e3⟩ := hev
      subst e1
      have hreach := Track.drain_reachable fuel turns t ring t2 ring2 h hv hd
      have hnb := (Track.track_reachable_synced t2 hreach).2.2 e3
      have h8 := (Track.track_reachable_inv t2 hreach).2.2.1
      obtain ⟨chain, ec, hne⟩ := Track.core_chain_nonempty t2 convention u hnb h8
      refine ⟨e3, chain.map Decoder.reset_repeats, Track.get_data_all t2 convention u chain ec, ?_⟩
      intro hm
      exact hne (List.map_eq_nil_iff.1 hm)

set_option maxRecDepth 100000 in
theorem Track.data_implies_data_witness :
    (Track.fed (alternate_levels 1 (frame_long 256 ++ [600, 1200, 620, 1240]))).trk
        = trk_t.TRK_DATA
      ∧ 1 ≤ (Track.fed (alternate_levels 1
          (frame_long 256 ++ [600, 1200, 620, 1240]))).rawcode.nb_sections :=
  ⟨by decide,
   (Track.data_implies_data
      (Track.fed (alternate_levels 1 (frame_long 256 ++ [600, 1200, 620, 1240])))
      (Track.fed_reachable _ (by decide))).1 (by decide)⟩
theorem Decoder.raw_unknown_never_errors_witness :
    ((Decoder.new_raw_unknown_coding Decoder.zeroed).raw_unknown_steps
        [(Signal.SHORT, Signal.LONG), (Signal.LONG, Signal.OTHER),
         (Signal.LONG, Signal.SHORT)]).nb_errors = 0
      ∧ ((Decoder.new_raw_unknown_coding Decoder.zeroed).raw_unknown_steps
        [(Signal.SHORT, Signal.LONG), (Signal.LONG, Signal.OTHER),
         (Signal.LONG, Signal.SHORT)]).pdata = BitVector.build [0, 1, 1, 0] :=
  ⟨(Decoder.raw_unknown_never_errors Decoder.zeroed _).1,
   (Decoder.raw_unknown_never_errors Decoder.zeroed _).2.1⟩

set_option maxRecDepth 100000 in
/-- Claim C14 fails on the code: the same frame received twice is not always
returned as one node with repeat-count 1. The edges are those of scenario S1
(12 bits 0xA5C), a low of 20000, and scenario S1 again; two sections are
recorded. With DEDUP (alone or with NO_ERROR), when the uninitialized locals of
take_into_account_first_low_high hold zero, get_data returns two TRIBIT nodes,
of 11 bits (0x25c: the first bit of the first frame is lost) and of 12 bits
(0xa5c), both with repeat-count 0: the bit vectors differ, so nothing is
merged. When the locals hold the bands left by the previous turn of the loop,
the first node has its 12 bits and get_data returns one node with
repeat-count 1. -/
theorem Track.same_frame_twice_is_not_merged :
    Track.get_data_after (alternate_levels 1 (scenario_S1 ++ 20000 :: scenario_S1))
        RF433ANY_FD_DEDUP RF433ANY_CONV0 Indeterminate.zeroed
      = some (trk_t.TRK_RECV, [(2, 0, 11, 0, [92, 2]), (2, 0, 12, 0, [92, 10])])
      ∧ Track.get_data_after (alternate_levels 1 (scenario_S1 ++ 20000 :: scenario_S1))
        (RF433ANY_FD_DEDUP ||| RF433ANY_FD_NO_ERROR) RF433ANY_CONV0 Indeterminate.zeroed
      = some (trk_t.TRK_RECV, [(2, 0, 11, 0, [92, 2]), (2, 0, 12, 0, [92, 10])])
      ∧ Track.get_data_after (alternate_levels 1 (scenario_S1 ++ 20000 :: scenario_S1))
        RF433ANY_FD_DEDUP RF433ANY_CONV0 Indeterminate.stale
      = some (trk_t.TRK_RECV, [(2, 0, 12, 1, [92, 10])]) :=
  ⟨rfl, rfl, rfl⟩

end RF433any
